import Mathlib

/-!
Calendar synchronisation jobs: a shallow embedding.

Embedding of the four calendar updaters (`ServiceAccountCalendarUpdater`,
`ManagementCalendarUpdater`, `BookingCalendarUpdater`, `ReleasesCalendarUpdater`)
and of the orchestrator `AllCalendarsUpdater`.

* JavaScript values are the type `JsVal`; a thrown value is a `JsError`.
* The calendar service, the HTTP APIs, the database and the credential file are
  external: they are the fields of a `Service σ`, acting on a world state `σ`.
* An `async` method is an `Eff σ α`: it takes the world state and returns its
  outcome (a value or a thrown error), the new world state and the ordered list
  of external calls it made (`Effect`).  `console.log` and `console.error`
  lines are not recorded; `console.warn` lines are.
-/

set_option autoImplicit false

namespace CalSync

/-! ## JavaScript values -/

/-- A JavaScript value as the jobs meet them: JSON data from the HTTP APIs, rows of
the database driver (which may hold `Date` objects), and members found on
`Object.prototype` (`builtin`).  `num n` is the Number nearest to the integer `n` (the
integer itself below `2^53`); a number with a fraction is met only as text;
`date none` is an Invalid Date, `date (some t)` has time value `t` milliseconds;
in `obj fields` every key occurs once. -/
inductive JsVal where
  | undefined
  | null
  | bool (b : Bool)
  | num (n : Int)
  | str (s : String)
  | date (t : Option Int)
  | builtin (name : String)
  | arr (items : List JsVal)
  | obj (fields : List (String × JsVal))
  deriving Repr, Inhabited

/-- A thrown value.  Everything this code base throws or receives in a `catch`
is an `Error` object: `name` is its class, `message` its message. -/
structure JsError where
  name : String
  message : String
  deriving DecidableEq, Repr, Inhabited

namespace JsVal

/-- ToBoolean: `undefined`, `null`, `false`, `0` and `""` are falsy. -/
def truthy : JsVal → Bool
  | undefined => false
  | null => false
  | bool b => b
  | num n => n != 0
  | str s => s != ""
  | date _ => true
  | builtin _ => true
  | arr _ => true
  | obj _ => true

/-- The operator `a || b`. -/
def or (a b : JsVal) : JsVal := if a.truthy then a else b

/-- The operator `a && b`. -/
def and (a b : JsVal) : JsVal := if a.truthy then b else a

/-- Own property of an object literal or parsed JSON object. -/
def lookup (key : String) : List (String × JsVal) → JsVal
  | [] => undefined
  | (k, v) :: rest => if k = key then v else lookup key rest

/-- Property read `v.key` for the fixed keys the jobs read (record columns, `name`,
`genre`, `address`, `url`, `spotify`, `apple`, `data`, `releases`): none of them is
a member of a built-in prototype, so on a non-object the read gives `undefined`;
on `undefined` and `null` it throws a TypeError. -/
def get (v : JsVal) (key : String) : Except JsError JsVal :=
  match v with
  | undefined =>
    .error ⟨"TypeError", "Cannot read properties of undefined (reading '" ++ key ++ "')"⟩
  | null =>
    .error ⟨"TypeError", "Cannot read properties of null (reading '" ++ key ++ "')"⟩
  | obj fields => .ok (lookup key fields)
  | _ => .ok undefined

/-- Optional chaining `v?.key`. -/
def getOpt (v : JsVal) (key : String) : JsVal :=
  match v with
  | obj fields => lookup key fields
  | _ => undefined

end JsVal

/-! ## Calendar items -/

/-- The `start` / `end` member of an event: `{dateTime, timeZone}` or `{date}`. -/
inductive EventTime where
  | timed (dateTime : String) (timeZone : String)
  | allDay (date : String)
  deriving DecidableEq, Repr, Inhabited

/-- The event object built by a transformer and sent to `events.insert`.
`location` is `undefined` when the object literal has no such member. -/
structure CalendarItem where
  summary : JsVal
  description : String
  start : EventTime
  end_ : EventTime
  location : JsVal
  status : String
  visibility : String
  colorId : JsVal
  deriving Repr, Inhabited

/-- An item of `events.list` (`events.data.items`). -/
structure ExistingItem where
  id : String
  summary : Option String
  startDateTime : Option String
  startDate : Option String
  deriving DecidableEq, Repr, Inhabited

/-- The `data` of a `calendars.get` response. -/
structure CalendarInfo where
  id : String
  summary : String
  timeZone : String
  deriving DecidableEq, Repr, Inhabited

/-- An item of `calendarList.list`. -/
structure CalendarListEntry where
  id : String
  summary : String
  accessRole : String
  timeZone : String
  deriving DecidableEq, Repr, Inhabited

/-- The `data` of an `events.insert` response. -/
structure InsertResponse where
  id : String
  htmlLink : Option String
  deriving DecidableEq, Repr, Inhabited

/-! ## External collaborators and effects -/

/-- The external collaborators, acting on a world state `σ`.  Every call returns
its outcome and the next world state. -/
structure Service (σ : Type) where
  /-- Outcome of `fs.existsSync(SERVICE_ACCOUNT_FILE)`. -/
  credentialFileExists : σ → Bool
  /-- Outcome of `loadServiceAccount`: `false` when it returns `null`. -/
  credentialsLoad : σ → Bool
  /-- Call `auth.authorize()`. -/
  authorize : σ → Except JsError Unit × σ
  /-- Call `calendar.calendars.get({calendarId})`; the value is `response.data`, which a
  resolved call always carries (the tests `if (calendarInfo.data)` are always taken). -/
  calendarsGet : String → σ → Except JsError CalendarInfo × σ
  /-- Call `calendar.calendarList.list()`. -/
  calendarListList : σ → Except JsError (List CalendarListEntry) × σ
  /-- Call `calendar.events.list({calendarId, maxResults, ...})`. -/
  eventsList : String → Nat → σ → Except JsError (List ExistingItem) × σ
  /-- Call `calendar.events.delete({calendarId, eventId})`. -/
  eventsDelete : String → String → σ → Except JsError Unit × σ
  /-- Call `calendar.events.insert({calendarId, requestBody})`. -/
  eventsInsert : String → CalendarItem → σ → Except JsError InsertResponse × σ
  /-- Call `axios.get(url, ...)`; the value is `response.data`. -/
  httpGet : String → σ → Except JsError JsVal × σ
  /-- Call `pool.query(query)` on the named table; the value is `result.rows`, one
  object (a list of columns) per row. -/
  dbQuery : String → σ → Except JsError (List (List (String × JsVal))) × σ
  /-- Call `pool.end()`. -/
  poolEnd : σ → Except JsError Unit × σ
  /-- Time value of `new Date()`. -/
  now : σ → Int

/-- One external call, with whether it returned (`ok`) or threw, or one
`console.warn` line. -/
inductive Effect where
  | authorize (ok : Bool)
  | calendarsGet (calendarId : String) (ok : Bool)
  | calendarListList (ok : Bool)
  | eventsList (calendarId : String) (maxResults : Nat) (ok : Bool)
  | eventsDelete (calendarId : String) (eventId : String) (ok : Bool)
  | eventsInsert (calendarId : String) (item : CalendarItem) (ok : Bool)
  | httpGet (url : String) (ok : Bool)
  | dbQuery (table : String) (ok : Bool)
  | poolEnd (ok : Bool)
  | warn (line : String)
  deriving Repr, Inhabited

/-- Result of running an effectful method. -/
structure Res (σ α : Type) where
  out : Except JsError α
  st : σ
  log : List Effect

/-- An effectful (`async`) method. -/
def Eff (σ α : Type) : Type := σ → Res σ α

namespace Eff

variable {σ α β : Type}

/-- Return a value. -/
def ret (a : α) : Eff σ α := fun s => ⟨.ok a, s, []⟩

/-- The statement `throw e`. -/
def throw (e : JsError) : Eff σ α := fun s => ⟨.error e, s, []⟩

/-- Sequencing: a throw in `m` skips `f`. -/
def bind (m : Eff σ α) (f : α → Eff σ β) : Eff σ β := fun s =>
  let r := m s
  match r.out with
  | .ok a => let r2 := f a r.st; ⟨r2.out, r2.st, r.log ++ r2.log⟩
  | .error e => ⟨.error e, r.st, r.log⟩

instance : Monad (Eff σ) where
  pure := ret
  bind := bind

/-- The block `try { m }` with its outcome handed to the code after it: never throws. -/
def attempt (m : Eff σ α) : Eff σ (Except JsError α) := fun s =>
  let r := m s
  ⟨.ok r.out, r.st, r.log⟩

/-- The block `try { m } finally { fin }`: `fin` runs on both paths, and a throw in
`fin` replaces the outcome of `m`. -/
def tryFinally (m : Eff σ α) (fin : Eff σ Unit) : Eff σ α := fun s =>
  let r := m s
  let r2 := fin r.st
  match r2.out with
  | .ok _ => ⟨r.out, r2.st, r.log ++ r2.log⟩
  | .error e => ⟨.error e, r2.st, r.log ++ r2.log⟩

/-- Lift a pure computation that may throw. -/
def ofExcept (x : Except JsError α) : Eff σ α := fun s => ⟨x, s, []⟩

/-- One `console.warn` line. -/
def warn (line : String) : Eff σ Unit := fun s => ⟨.ok (), s, [Effect.warn line]⟩

/-- An external call: run it on the world and record it with its outcome. -/
def call (op : σ → Except JsError α × σ) (mk : Bool → Effect) : Eff σ α := fun s =>
  let r := op s
  ⟨r.1, r.2, [mk r.1.toBool]⟩

end Eff

/-! ## Collection Resetter and Item Loader

`clearCalendar` and `insertEvents` are written four times in the source, once in
each updater class; the four copies differ only in console text (progress every 5
or 10 inserts), which is not modelled.  `this.calendarId` is the explicit
argument `calendarId`. -/

/-- Counters of the delete loop of `clearCalendar`. -/
structure ClearCounts where
  deletedCount : Nat
  errorCount : Nat
  deriving DecidableEq, Repr, Inhabited

/-- The value returned by `insertEvents`. -/
structure InsertResults where
  successCount : Nat
  errorCount : Nat
  skippedCount : Nat
  deriving DecidableEq, Repr, Inhabited

/-- The loop `for (const event of events.data.items) { try { await delete; deletedCount++ }
catch { errorCount++ } }` of `clearCalendar`. -/
def deleteLoop {σ : Type} (S : Service σ) (calendarId : String) :
    List ExistingItem → ClearCounts → Eff σ ClearCounts
  | [], c => Eff.ret c
  | event :: rest, c => do
    let r ← Eff.attempt
      (Eff.call (S.eventsDelete calendarId event.id) (Effect.eventsDelete calendarId event.id))
    match r with
    | .ok _ => deleteLoop S calendarId rest { c with deletedCount := c.deletedCount + 1 }
    | .error _ => deleteLoop S calendarId rest { c with errorCount := c.errorCount + 1 }

/-- The method `clearCalendar`: one `events.list` call with `maxResults: 2500`, then the
delete loop over the listed items.  A throw of the list call propagates (the
enclosing `catch` logs and rethrows).  The source returns nothing; the counters it
prints are returned here. -/
def clearCalendar {σ : Type} (S : Service σ) (calendarId : String) : Eff σ ClearCounts := do
  let items ← Eff.call (S.eventsList calendarId 2500) (Effect.eventsList calendarId 2500)
  deleteLoop S calendarId items ⟨0, 0⟩

/-- The loop `for (let i = 0; i < events.length; i++) { try { await insert; successCount++ }
catch { errorCount++ } }` of `insertEvents`. -/
def insertLoop {σ : Type} (S : Service σ) (calendarId : String) :
    List CalendarItem → InsertResults → Eff σ InsertResults
  | [], c => Eff.ret c
  | event :: rest, c => do
    let r ← Eff.attempt
      (Eff.call (S.eventsInsert calendarId event) (Effect.eventsInsert calendarId event))
    match r with
    | .ok _ => insertLoop S calendarId rest { c with successCount := c.successCount + 1 }
    | .error _ => insertLoop S calendarId rest { c with errorCount := c.errorCount + 1 }

/-- The method `insertEvents(events)`: returns `{ successCount, errorCount, skippedCount: 0 }`. -/
def insertEvents {σ : Type} (S : Service σ) (calendarId : String)
    (events : List CalendarItem) : Eff σ InsertResults :=
  insertLoop S calendarId events ⟨0, 0, 0⟩

/-! ## Reading a trace -/

/-- The items of the `events.insert` calls of a trace, in call order. -/
def insertAttempts : List Effect → List CalendarItem
  | [] => []
  | Effect.eventsInsert _ item _ :: rest => item :: insertAttempts rest
  | _ :: rest => insertAttempts rest

/-- Number of `events.insert` calls of a trace that threw. -/
def insertFailures : List Effect → Nat
  | [] => 0
  | Effect.eventsInsert _ _ false :: rest => insertFailures rest + 1
  | _ :: rest => insertFailures rest

/-- The event ids of the `events.delete` calls of a trace, in call order. -/
def deleteAttempts : List Effect → List String
  | [] => []
  | Effect.eventsDelete _ eventId _ :: rest => eventId :: deleteAttempts rest
  | _ :: rest => deleteAttempts rest

/-- Number of `events.delete` calls of a trace that threw. -/
def deleteFailures : List Effect → Nat
  | [] => 0
  | Effect.eventsDelete _ _ false :: rest => deleteFailures rest + 1
  | _ :: rest => deleteFailures rest

/-! ## The host: `Date`, locale formatting, string conversion -/

/-- What the JavaScript engine and its locale data decide: `Date.parse`, the local
time zone, and locale-dependent text. -/
structure Host where
  /-- The function `Date.parse`; `none` is `NaN`. -/
  dateParse : String → Option Int
  /-- The abstract operation `LocalTZA(t, isUTC)`: offset of local time in milliseconds. -/
  localTZA : Int → Bool → Int
  /-- The method `toLocaleDateString(locale)` of a valid date. -/
  toLocaleDateString : String → Int → String
  /-- The method `toLocaleString()` of a number. -/
  numberToLocaleString : Int → String
  /-- The method `toString()` of a valid date. -/
  dateToString : Int → String
  /-- The method `toLocaleString()` of a valid date. -/
  dateToLocaleString : Int → String

/-- Milliseconds per day. -/
def msPerDay : Int := 86400000

/-- `TimeClip`: a time value beyond ±8.64e15 ms is `NaN`. -/
def timeClip (t : Int) : Option Int :=
  if -8640000000000000 ≤ t ∧ t ≤ 8640000000000000 then some t else none

/-- `Day(t)`. -/
def day (t : Int) : Int := t / msPerDay

/-- `TimeWithinDay(t)`. -/
def timeWithinDay (t : Int) : Int := t % msPerDay

/-- Year, month (1 to 12) and day of month of a day number (days since 1970-01-01),
in the proleptic Gregorian calendar. -/
def civilFromDays (days : Int) : Int × Int × Int :=
  let z := days + 719468
  let era := z / 146097
  let doe := z - era * 146097
  let yoe := (doe - doe / 1460 + doe / 36524 - doe / 146096) / 365
  let doy := doe - (365 * yoe + yoe / 4 - yoe / 100)
  let mp := (5 * doy + 2) / 153
  let d := doy - (153 * mp + 2) / 5 + 1
  let m := if mp < 10 then mp + 3 else mp - 9
  let y := yoe + era * 400 + (if m ≤ 2 then 1 else 0)
  (y, m, d)

/-- Day number of a year, month (1 to 12) and day of month. -/
def daysFromCivil (y m d : Int) : Int :=
  let y1 := if m ≤ 2 then y - 1 else y
  let era := y1 / 400
  let yoe := y1 - era * 400
  let doy := (153 * (if m > 2 then m - 3 else m + 9) + 2) / 5 + d - 1
  let doe := yoe * 365 + yoe / 4 - yoe / 100 + doy
  era * 146097 + doe - 719468

/-- `YearFromTime(t)`. -/
def yearFromTime (t : Int) : Int := (civilFromDays (day t)).1

/-- `MonthFromTime(t)`, 0 to 11. -/
def monthFromTime (t : Int) : Int := (civilFromDays (day t)).2.1 - 1

/-- `DateFromTime(t)`, 1 to 31. -/
def dateFromTime (t : Int) : Int := (civilFromDays (day t)).2.2

/-- `HourFromTime(t)`. -/
def hourFromTime (t : Int) : Int := timeWithinDay t / 3600000

/-- `MinFromTime(t)`. -/
def minFromTime (t : Int) : Int := timeWithinDay t / 60000 % 60

/-- `SecFromTime(t)`. -/
def secFromTime (t : Int) : Int := timeWithinDay t / 1000 % 60

/-- `msFromTime(t)`. -/
def msFromTime (t : Int) : Int := timeWithinDay t % 1000

/-- `MakeTime(hour, min, sec, ms)`. -/
def makeTime (hour min sec ms : Int) : Int := hour * 3600000 + min * 60000 + sec * 1000 + ms

/-- `MakeDay(year, month, date)` with `month` counted from 0 and of any size. -/
def makeDay (year month date : Int) : Int :=
  daysFromCivil (year + month / 12) (month % 12 + 1) 1 + date - 1

/-- `MakeDate(day, time)`. -/
def makeDate (d time : Int) : Int := d * msPerDay + time

namespace Host

/-- `LocalTime(t)`. -/
def localTime (h : Host) (t : Int) : Int := t + h.localTZA t true

/-- `UTC(t)`. -/
def utc (h : Host) (t : Int) : Int := t - h.localTZA t false

end Host

/-- The time value of a `Date` object; `none` is an Invalid Date. -/
abbrev JsDate := Option Int

namespace JsDate

/-- The call `d.setHours(hour, min, sec, ms)`; a `none` argument is `NaN`. -/
def setHours (h : Host) (d : JsDate) (hour min sec ms : Option Int) : JsDate :=
  match d, hour, min, sec, ms with
  | some t0, some hr, some mi, some se, some m =>
    let t := h.localTime t0
    timeClip (h.utc (makeDate (day t) (makeTime hr mi se m)))
  | _, _, _, _, _ => none

/-- The call `d.getHours()`. -/
def getHours (h : Host) (d : JsDate) : Option Int :=
  d.map (fun t0 => hourFromTime (h.localTime t0))

/-- The call `d.setHours(hour)`: minutes, seconds and milliseconds keep their local values. -/
def setHoursOnly (h : Host) (d : JsDate) (hour : Option Int) : JsDate :=
  match d, hour with
  | some t0, some hr =>
    let t := h.localTime t0
    timeClip (h.utc (makeDate (day t) (makeTime hr (minFromTime t) (secFromTime t) (msFromTime t))))
  | _, _ => none

/-- The call `d.getDate()`. -/
def getDate (h : Host) (d : JsDate) : Option Int :=
  d.map (fun t0 => dateFromTime (h.localTime t0))

/-- The call `d.setDate(date)`. -/
def setDate (h : Host) (d : JsDate) (date : Option Int) : JsDate :=
  match d, date with
  | some t0, some dt =>
    let t := h.localTime t0
    timeClip (h.utc (makeDate (makeDay (yearFromTime t) (monthFromTime t) dt) (timeWithinDay t)))
  | _, _ => none

/-- Decimal digits of `n`, left-padded with zeros to `width`. -/
def pad (width : Nat) (n : Int) : String :=
  let ds := (Nat.toDigits 10 n.toNat)
  String.mk (List.replicate (width - ds.length) '0' ++ ds)

/-- The date part `YYYY-MM-DD` of the ISO text of a time value (years outside
0 to 9999 take a sign and six digits). -/
def isoDatePart (t : Int) : String :=
  let y := yearFromTime t
  let ys := if 0 ≤ y ∧ y ≤ 9999 then pad 4 y
    else (if y < 0 then "-" else "+") ++ pad 6 (if y < 0 then -y else y)
  ys ++ "-" ++ pad 2 (monthFromTime t + 1) ++ "-" ++ pad 2 (dateFromTime t)

/-- The time part `HH:mm:ss.sssZ` of the ISO text of a time value. -/
def isoTimePart (t : Int) : String :=
  pad 2 (hourFromTime t) ++ ":" ++ pad 2 (minFromTime t) ++ ":" ++ pad 2 (secFromTime t)
    ++ "." ++ pad 3 (msFromTime t) ++ "Z"

/-- The call `d.toISOString()`: throws a RangeError on an Invalid Date. -/
def toISOString (d : JsDate) : Except JsError String :=
  match d with
  | some t => .ok (isoDatePart t ++ "T" ++ isoTimePart t)
  | none => .error ⟨"RangeError", "Invalid time value"⟩

/-- The expression `d.toISOString().split('T')[0]`. -/
def toISODate (d : JsDate) : Except JsError String :=
  match d with
  | some t => .ok (isoDatePart t)
  | none => .error ⟨"RangeError", "Invalid time value"⟩

/-- The call `d.toLocaleDateString(locale)`. -/
def toLocaleDateString (h : Host) (locale : String) (d : JsDate) : String :=
  match d with
  | some t => h.toLocaleDateString locale t
  | none => "Invalid Date"

end JsDate

/-! ## Conversions of JavaScript values -/

deriving instance DecidableEq for Except

/-! ### Number values

A value `num n` of a record denotes the Number nearest to the integer `n`; text is
read by StringToNumber into the nearest double, kept as an exact binary fraction. -/

/-- Number of binary digits of a natural number, with fuel. -/
def bitLengthAux : Nat → Nat → Nat
  | 0, _ => 0
  | fuel + 1, n => if n = 0 then 0 else bitLengthAux fuel (n / 2) + 1

/-- Number of binary digits of a natural number: 0 for 0, and `k` for a number from
`2^(k-1)` to `2^k - 1`. -/
def bitLength (n : Nat) : Nat := bitLengthAux n n

/-- Power by repeated squaring, with fuel. -/
def natPowAux (b : Nat) : Nat → Nat → Nat
  | 0, _ => 1
  | fuel + 1, k =>
    if k = 0 then 1
    else if k % 2 = 0 then natPowAux b fuel (k / 2) * natPowAux b fuel (k / 2)
    else natPowAux b fuel (k / 2) * natPowAux b fuel (k / 2) * b

/-- The power `b ^ k`. -/
def natPow (b k : Nat) : Nat := natPowAux b k k

/-- The integer nearest to `n / d`, the even one of two that are equally near. -/
def roundHalfEven (n d : Nat) : Nat :=
  if 2 * (n % d) > d ∨ (2 * (n % d) = d ∧ (n / d) % 2 = 1) then n / d + 1 else n / d

/-- A Number value: `NaN`, an infinity, or the finite value `mant * 2 ^ exp`. -/
inductive JsNumber where
  | nan
  | posInf
  | negInf
  | finite (mant : Int) (exp : Int)
  deriving DecidableEq, Repr, Inhabited

/-- The double nearest to the fraction `a / b` of two positive numbers (round to
nearest, ties to even), as mantissa and binary exponent; `none` is `+Infinity`. -/
def nearestDouble (a b : Nat) : Option (Nat × Int) :=
  let e0 : Int := (bitLength a : Int) - (bitLength b : Int)
  let reaches : Bool := if e0 ≥ 0 then decide (a ≥ b * natPow 2 e0.toNat)
    else decide (a * natPow 2 (-e0).toNat ≥ b)
  let e : Int := if reaches then e0 else e0 - 1
  let u : Int := max e (-1022) - 52
  let m : Nat := if u ≥ 0 then roundHalfEven a (b * natPow 2 u.toNat)
    else roundHalfEven (a * natPow 2 (-u).toNat) b
  if (bitLength m : Int) + u ≥ 1025 then none else some (m, u)

/-- The double nearest to a natural number, as a natural number; `none` is
`+Infinity`.  Every natural number below `2^53` is a double. -/
def nearestDoubleNat (c : Nat) : Option Nat :=
  if c < 2 ^ 53 then some c
  else
    let u := bitLength c - 53
    let m := roundHalfEven c (natPow 2 u)
    if bitLength m + u ≥ 1025 then none else some (m * natPow 2 u)

/-- The Number value that a numeric literal of the integer `n` denotes. -/
def JsNumber.ofInt (n : Int) : JsNumber :=
  match nearestDoubleNat n.natAbs with
  | some v => .finite (if n < 0 then -(v : Int) else (v : Int)) 0
  | none => if n < 0 then .negInf else .posInf

/-- The Number value nearest to `m * 10 ^ e`, with the given sign. -/
def JsNumber.ofDecimal (negative : Bool) (m : Nat) (e : Int) : JsNumber :=
  if m = 0 then .finite 0 0
  else
    let digits : Int := ((Nat.toDigits 10 m).length : Int)
    if digits + e > 310 then (if negative then .negInf else .posInf)
    else if digits + e < -330 then .finite 0 0
    else
      let r := if e ≥ 0 then nearestDouble (m * natPow 10 e.toNat) 1
        else nearestDouble m (natPow 10 (-e).toNat)
      match r with
      | some (mant, exp) => .finite (if negative then -(mant : Int) else (mant : Int)) exp
      | none => if negative then .negInf else .posInf

/-- The comparison `x > n` of a Number with an integer that is a double. -/
def JsNumber.gtInt : JsNumber → Int → Bool
  | .nan, _ => false
  | .posInf, _ => true
  | .negInf, _ => false
  | .finite mant exp, n =>
    if exp ≥ 0 then decide (mant * (natPow 2 exp.toNat : Int) > n)
    else decide (mant > n * (natPow 2 (-exp).toNat : Int))

/-- Drop the zeros at the end of a list of digits. -/
def dropTrailingZeros (cs : List Char) : List Char :=
  (cs.reverse.dropWhile (fun c => c = '0')).reverse

/-- The natural number with the fewest significant decimal digits that reads as the
double `v` (a natural number of `digits` decimal digits), searched with `k`
significant digits for the `k` of the list in turn; of two candidates with the same
count the nearer to `v`, and of two equally near the one whose last digit is even. -/
def shortestDecimal (v digits : Nat) : List Nat → Nat
  | [] => v
  | k :: rest =>
    let p := natPow 10 (digits - k)
    let lo := v / p
    let okLo := nearestDoubleNat (lo * p) == some v
    let okHi := nearestDoubleNat ((lo + 1) * p) == some v
    if okLo && okHi then
      (if v - lo * p < (lo + 1) * p - v then lo * p
       else if v - lo * p > (lo + 1) * p - v then (lo + 1) * p
       else if lo % 2 = 0 then lo * p else (lo + 1) * p)
    else if okLo then lo * p
    else if okHi then (lo + 1) * p
    else shortestDecimal v digits rest

/-- The text of a natural number that is a double, as `Number.prototype.toString`
writes it: the fewest digits that read back as the same double, followed by zeros up
to 21 digits, and in exponent form from `1e21` on. -/
def doubleToString (v : Nat) : String :=
  if v < 2 ^ 53 then toString v
  else
    let c := shortestDecimal v (Nat.toDigits 10 v).length (List.range' 1 17)
    let all := Nat.toDigits 10 c
    if all.length ≤ 21 then String.mk all
    else
      match dropTrailingZeros all with
      | [] => "0"
      | [d] => String.mk [d] ++ "e+" ++ toString (all.length - 1)
      | d :: ds => String.mk (d :: '.' :: ds) ++ "e+" ++ toString (all.length - 1)

/-- The text of the Number that the integer `n` denotes. -/
def numberToString (n : Int) : String :=
  match nearestDoubleNat n.natAbs with
  | some v => (if n < 0 then "-" else "") ++ doubleToString v
  | none => if n < 0 then "-Infinity" else "Infinity"

namespace JsVal

mutual
/-- ToString, as a template literal `${v}` applies it.  A number prints as
`Number.prototype.toString` writes it; an object prints through the inherited
`Object.prototype.toString`. -/
def toStr (h : Host) : JsVal → String
  | undefined => "undefined"
  | null => "null"
  | bool b => if b then "true" else "false"
  | num n => numberToString n
  | str s => s
  | date none => "Invalid Date"
  | date (some t) => h.dateToString t
  | builtin name => "function " ++ name ++ "() \x7b [native code] \x7d"
  | arr items => joinStr h items
  | obj _ => "[object Object]"
termination_by structural v => v
/-- The method `Array.prototype.join(",")`: `undefined` and `null` elements print empty. -/
def joinStr (h : Host) : List JsVal → String
  | [] => ""
  | undefined :: rest => match rest with
    | [] => ""
    | _ :: _ => "," ++ joinStr h rest
  | null :: rest => match rest with
    | [] => ""
    | _ :: _ => "," ++ joinStr h rest
  | x :: rest => match rest with
    | [] => toStr h x
    | _ :: _ => toStr h x ++ "," ++ joinStr h rest
termination_by structural l => l
end

mutual
/-- The method call `v.toLocaleString()` on a truthy value. -/
def toLocaleStr (h : Host) : JsVal → String
  | undefined => "undefined"
  | null => "null"
  | bool b => if b then "true" else "false"
  | num n => h.numberToLocaleString n
  | str s => s
  | date none => "Invalid Date"
  | date (some t) => h.dateToLocaleString t
  | builtin name => "function " ++ name ++ "() \x7b [native code] \x7d"
  | arr items => joinLocaleStr h items
  | obj _ => "[object Object]"
termination_by structural v => v
/-- The method `Array.prototype.toLocaleString`. -/
def joinLocaleStr (h : Host) : List JsVal → String
  | [] => ""
  | undefined :: rest => match rest with
    | [] => ""
    | _ :: _ => "," ++ joinLocaleStr h rest
  | null :: rest => match rest with
    | [] => ""
    | _ :: _ => "," ++ joinLocaleStr h rest
  | x :: rest => match rest with
    | [] => toLocaleStr h x
    | _ :: _ => toLocaleStr h x ++ "," ++ joinLocaleStr h rest
termination_by structural l => l
end

/-- The constructor call `new Date(v)`: a `Date` is copied, a string goes through
`Date.parse`, a number is the time value, an object is first made a string. -/
def newDate (h : Host) : JsVal → JsDate
  | undefined => none
  | null => some 0
  | bool b => some (if b then 1 else 0)
  | num n => timeClip n
  | str s => h.dateParse s
  | date t => t
  | v => h.dateParse (toStr h v)

end JsVal

/-- White space as `parseInt` and ToNumber skip it. -/
def isJsSpace (c : Char) : Bool :=
  c.val ∈ [9, 10, 11, 12, 13, 32, 160, 5760, 8232, 8233, 8239, 8287, 12288, 65279]
    || (8192 ≤ c.val && c.val ≤ 8202)

/-- Value of a digit in the given radix. -/
def digitValue (radix : Nat) (c : Char) : Option Nat :=
  let v := if '0' ≤ c ∧ c ≤ '9' then some (c.toNat - 48)
    else if 'a' ≤ c ∧ c ≤ 'z' then some (c.toNat - 87)
    else if 'A' ≤ c ∧ c ≤ 'Z' then some (c.toNat - 55)
    else none
  v.bind (fun n => if n < radix then some n else none)

/-- Read the longest prefix of digits; `none` when there is no digit. -/
def readDigits (radix : Nat) : List Char → Option Nat → Option Nat
  | [], acc => acc
  | c :: rest, acc =>
    match digitValue radix c with
    | some d => readDigits radix rest (some (acc.getD 0 * radix + d))
    | none => acc

/-- Digits after an optional `0x` prefix, as `parseInt` with no radix reads them. -/
def parseIntBody (cs : List Char) : Option Nat :=
  match cs with
  | '0' :: 'x' :: rest => readDigits 16 rest none
  | '0' :: 'X' :: rest => readDigits 16 rest none
  | _ => readDigits 10 cs none

/-- The function `parseInt(s)` on a string; `none` is `NaN`. -/
def parseIntStr (s : String) : Option Int :=
  match s.data.dropWhile isJsSpace with
  | '-' :: rest => (parseIntBody rest).map (fun n => -(n : Int))
  | '+' :: rest => (parseIntBody rest).map (fun n => (n : Int))
  | cs => (parseIntBody cs).map (fun n => (n : Int))

/-- The function `parseInt(v)`: the argument is first made a string. -/
def parseInt (h : Host) (v : JsVal) : Option Int := parseIntStr (v.toStr h)

/-- All characters are digits of the radix, and there is at least one. -/
def readAllDigits (radix : Nat) (cs : List Char) : Option Nat :=
  if cs ≠ [] ∧ cs.all (fun c => (digitValue radix c).isSome) then readDigits radix cs none
  else none

/-- The characters are decimal digits, and there is at least one. -/
def allDecimalDigits (cs : List Char) : Bool := !cs.isEmpty && cs.all Char.isDigit

/-- The exponent part of a decimal literal, `e` or `E`, an optional sign and digits:
the exponent, `some 0` for no text at all, and `none` for any other text. -/
def exponentPart : List Char → Option Int
  | [] => some 0
  | c :: rest =>
    if c = 'e' ∨ c = 'E' then
      match rest with
      | '-' :: ds => if allDecimalDigits ds then some (-((readDigits 10 ds none).getD 0 : Int))
          else none
      | '+' :: ds => if allDecimalDigits ds then some ((readDigits 10 ds none).getD 0 : Int)
          else none
      | ds => if allDecimalDigits ds then some ((readDigits 10 ds none).getD 0 : Int) else none
    else none

/-- StrUnsignedDecimalLiteral: `Infinity`, or digits with an optional fraction and an
optional exponent (`12`, `12.`, `12.5`, `.5`, `1e5`, `1.5E-3`); `none` for any other
text. -/
def unsignedDecimal (negative : Bool) (cs : List Char) : Option JsNumber :=
  if cs = "Infinity".data then some (if negative then .negInf else .posInf)
  else
    let whole := cs.takeWhile Char.isDigit
    let afterWhole := cs.dropWhile Char.isDigit
    let fraction := match afterWhole with
      | '.' :: rest => rest.takeWhile Char.isDigit
      | _ => []
    let afterFraction := match afterWhole with
      | '.' :: rest => rest.dropWhile Char.isDigit
      | _ => afterWhole
    if whole.isEmpty && fraction.isEmpty then none
    else (exponentPart afterFraction).map (fun e =>
      JsNumber.ofDecimal negative ((readDigits 10 (whole ++ fraction) none).getD 0)
        (e - (fraction.length : Int)))

/-- StringToNumber: optional white space around a decimal literal with an optional
sign, or around an unsigned `0x`, `0o`, `0b` literal; text that is empty or white space
only is 0; any other text is `NaN`. -/
def stringToNumber (s : String) : JsNumber :=
  let cs := ((s.data.dropWhile isJsSpace).reverse.dropWhile isJsSpace).reverse
  let ofDigits (r : Option Nat) : JsNumber :=
    match r with
    | some n => JsNumber.ofInt (n : Int)
    | none => .nan
  match cs with
  | [] => .finite 0 0
  | '0' :: 'x' :: rest => ofDigits (readAllDigits 16 rest)
  | '0' :: 'X' :: rest => ofDigits (readAllDigits 16 rest)
  | '0' :: 'o' :: rest => ofDigits (readAllDigits 8 rest)
  | '0' :: 'O' :: rest => ofDigits (readAllDigits 8 rest)
  | '0' :: 'b' :: rest => ofDigits (readAllDigits 2 rest)
  | '0' :: 'B' :: rest => ofDigits (readAllDigits 2 rest)
  | '-' :: rest => (unsignedDecimal true rest).getD .nan
  | '+' :: rest => (unsignedDecimal false rest).getD .nan
  | _ => (unsignedDecimal false cs).getD .nan

/-- ToNumber. -/
def JsVal.toNumber (h : Host) : JsVal → JsNumber
  | .undefined => .nan
  | .null => .finite 0 0
  | .bool b => .finite (if b then 1 else 0) 0
  | .num n => JsNumber.ofInt n
  | .str s => stringToNumber s
  | .date (some t) => .finite t 0
  | .date none => .nan
  | v => stringToNumber (v.toStr h)

/-- The comparison `v > n` against the number literal of an integer that is a double
(here 0 and 10000). -/
def JsVal.gtNum (h : Host) (v : JsVal) (n : Int) : Bool := (v.toNumber h).gtInt n

/-- Lower-case form of a character: ASCII and Latin-1 letters; other characters are
left as they are. -/
def lowerChar (c : Char) : Char :=
  if ('A' ≤ c ∧ c ≤ 'Z') ∨ (192 ≤ c.val ∧ c.val ≤ 222 ∧ c.val ≠ 215) then Char.ofNat (c.toNat + 32)
  else c

/-- The method `toLowerCase()` of a string. -/
def toLowerCase (s : String) : String := String.mk (s.data.map lowerChar)

/-- The method call `v.toLowerCase()` on a truthy value: only a string has the method. -/
def JsVal.toLowerCase (v : JsVal) : Except JsError String :=
  match v with
  | .str s => .ok (CalSync.toLowerCase s)
  | _ => .error ⟨"TypeError", "toLowerCase is not a function"⟩

/-- Whether `pat` is a prefix of `cs`. -/
def isPrefixChars : List Char → List Char → Bool
  | [], _ => true
  | _ :: _, [] => false
  | p :: ps, c :: cs => p == c && isPrefixChars ps cs

/-- Whether `pat` occurs in `cs`. -/
def containsChars (pat : List Char) : List Char → Bool
  | [] => pat.isEmpty
  | c :: cs => isPrefixChars pat (c :: cs) || containsChars pat cs

/-- The method `s.includes(pat)` of a string. -/
def includes (s pat : String) : Bool := containsChars pat.data s.data

/-- Pieces of `cs` between occurrences of `sep`. -/
def splitChars (sep : Char) : List Char → List (List Char)
  | [] => [[]]
  | c :: cs =>
    match splitChars sep cs with
    | [] => [[]]
    | piece :: pieces => if c = sep then [] :: piece :: pieces else (c :: piece) :: pieces

/-- The method call `v.split(':')` on a truthy value: only a string has the method. -/
def JsVal.splitColon (v : JsVal) : Except JsError (List String) :=
  match v with
  | .str s => .ok ((splitChars ':' s.data).map String.mk)
  | _ => .error ⟨"TypeError", "split is not a function"⟩

/-! ## Category tags -/

/-- Names of the members every object literal inherits from `Object.prototype`. -/
def objectPrototypeNames : List String :=
  ["constructor", "__defineGetter__", "__defineSetter__", "hasOwnProperty",
   "__lookupGetter__", "__lookupSetter__", "isPrototypeOf", "propertyIsEnumerable",
   "toString", "valueOf", "toLocaleString"]

/-- The read `map[key]` on an object literal with the given own members: an own
member if there is one, else the member inherited from `Object.prototype`
(a function, or the prototype object for `__proto__`), else `undefined`. -/
def member (own : List (String × JsVal)) (key : String) : JsVal :=
  if own.any (fun kv => kv.1 = key) then JsVal.lookup key own
  else if key ∈ objectPrototypeNames then JsVal.builtin key
  else if key = "__proto__" then JsVal.obj []
  else JsVal.undefined

/-- The `colorMap` of `getColorForCategory`. -/
def categoryColorMap : List (String × JsVal) :=
  [("Concierto", .str "1"), ("Festival", .str "2"), ("Teatro", .str "3"), ("Deporte", .str "4"),
   ("Cultural", .str "5"), ("Comedia", .str "6"), ("Danza", .str "7"), ("Otro", .str "8"),
   ("default", .str "1")]

/-- The method `BookingCalendarUpdater.getColorForCategory(category)`:
`colorMap[category] || colorMap['default']`. -/
def getColorForCategory (h : Host) (category : JsVal) : JsVal :=
  (member categoryColorMap (category.toStr h)).or (member categoryColorMap "default")

/-- The `colorMap` of `getColorForGenre`. -/
def genreColorMap : List (String × JsVal) :=
  [("Pop", .str "1"), ("Rock", .str "2"), ("Hip Hop", .str "3"), ("Electronic", .str "4"),
   ("Jazz", .str "5"), ("Classical", .str "6"), ("Country", .str "7"), ("R&B", .str "8"),
   ("Reggae", .str "9"), ("Folk", .str "10"), ("default", .str "1")]

/-- The method `ServiceAccountCalendarUpdater.getColorForGenre(genre)`:
`colorMap[genre] || colorMap['default']`. -/
def getColorForGenre (h : Host) (genre : JsVal) : JsVal :=
  (member genreColorMap (genre.toStr h)).or (member genreColorMap "default")

/-- The `colorMap` of `getColorForReleaseType`. -/
def releaseTypeColorMap : List (String × JsVal) :=
  [("album", .str "1"), ("single", .str "2"), ("ep", .str "3"), ("mixtape", .str "4"),
   ("compilation", .str "5"), ("default", .str "6")]

/-- The method `ReleasesCalendarUpdater.getColorForReleaseType(type)`:
`colorMap[(type || '').toLowerCase()] || colorMap['default']`. -/
def getColorForReleaseType (type : JsVal) : Except JsError JsVal := do
  let normalizedType ← (type.or (.str "")).toLowerCase
  pure ((member releaseTypeColorMap normalizedType).or (member releaseTypeColorMap "default"))

/-- The method `ManagementCalendarUpdater.getColorForManagementEvent(event)`. -/
def getColorForManagementEvent (h : Host) (event : JsVal) : Except JsError String := do
  let nombreFesti ← event.get "nombre_festi"
  let formato ← event.get "formato"
  let aforo ← event.get "aforo"
  let status ← event.get "status"
  if nombreFesti.truthy then pure "2"
  else
    let acoustic ← (if formato.truthy then do
        let lower ← formato.toLowerCase
        pure (includes lower "acústico")
      else pure false)
    if acoustic then pure "5"
    else if aforo.truthy && aforo.gtNum h 10000 then pure "1"
    else match status with
      | .str "confirmed" => pure "10"
      | _ => pure "6"

/-! ## Record Transformers -/

/-- The expression `a + 1` on a number that may be `NaN`. -/
def addInt (a : Option Int) (k : Int) : Option Int := a.map (fun x => x + k)

/-- The method `ServiceAccountCalendarUpdater.formatShowToEvent(show)`. -/
def formatShowToEvent (h : Host) (sh : JsVal) : Except JsError CalendarItem := do
  let showDate := JsVal.newDate h (← sh.get "show_date")
  let startTime := JsDate.setHours h showDate (some 21) (some 0) (some 0) (some 0)
  let endTime := JsDate.setHours h
    (JsDate.setDate h showDate (addInt (JsDate.getDate h showDate) 1))
    (some 0) (some 0) (some 0) (some 0)
  let artist ← sh.get "artist"
  let artistName ← artist.get "name"
  let venue ← sh.get "venue"
  let venueName ← venue.get "name"
  let summary := artistName.toStr h ++ " - " ++ venueName.toStr h
  let city ← sh.get "city"
  let country ← sh.get "country"
  let status ← sh.get "status"
  let ticketera ← sh.get "ticketera"
  let ticketeraName ← ticketera.get "name"
  let ticketeraUrl ← ticketera.get "url"
  let genre ← artist.get "genre"
  let description := "🎤 Artista: " ++ artistName.toStr h
    ++ "\n🏟️ Venue: " ++ venueName.toStr h
    ++ "\n📍 Ciudad: " ++ city.toStr h ++ ", " ++ country.toStr h
    ++ "\n📊 Status: " ++ (status.or (.str "N/A")).toStr h
    ++ "\n🎫 Ticketera: " ++ ticketeraName.toStr h
    ++ "\n🔗 URL: " ++ ticketeraUrl.toStr h
    ++ "\n⭐ Género: " ++ genre.toStr h
  let startIso ← startTime.toISOString
  let endIso ← endTime.toISOString
  let address ← venue.get "address"
  pure {
    summary := .str summary
    description := description
    start := .timed startIso "America/Argentina/Buenos_Aires"
    end_ := .timed endIso "America/Argentina/Buenos_Aires"
    location := address.or
      (.str (venueName.toStr h ++ ", " ++ city.toStr h ++ ", " ++ country.toStr h))
    status := "confirmed"
    visibility := "public"
    colorId := getColorForGenre h genre }

/-- One optional line of the management description: `if (v) description += label + v + '\n'`. -/
def optLine (h : Host) (label : String) (v : JsVal) : String :=
  if v.truthy then label ++ v.toStr h ++ "\n" else ""

/-- The method `ManagementCalendarUpdater.formatManagementEventToCalendar(event)`. -/
def formatManagementEventToCalendar (h : Host) (event : JsVal) : Except JsError CalendarItem := do
  let showDate := JsVal.newDate h (← event.get "show_date")
  let startDateStr ← showDate.toISODate
  let endDate := JsDate.setDate h showDate (addInt (JsDate.getDate h showDate) 1)
  let endDateStr ← endDate.toISODate
  let artistName ← event.get "artist_name"
  let venueName ← event.get "venue_name"
  let city ← event.get "city"
  let country ← event.get "country"
  let status ← event.get "status"
  let aforo ← event.get "aforo"
  let nombreFesti ← event.get "nombre_festi"
  let description := "🎤 Artista: " ++ (artistName.or (.str "N/A")).toStr h ++ "\n"
    ++ "🏟️ Venue: " ++ (venueName.or (.str "N/A")).toStr h ++ "\n"
    ++ "📍 Ciudad: " ++ city.toStr h ++ ", " ++ country.toStr h ++ "\n"
    ++ "📅 Fecha: " ++ JsDate.toLocaleDateString h "es-AR" showDate ++ "\n"
    ++ "📊 Status: " ++ (status.or (.str "N/A")).toStr h ++ "\n"
    ++ optLine h "🎵 Género: " (← event.get "artist_genre")
    ++ (if aforo.truthy then "👥 Aforo: " ++ aforo.toLocaleStr h ++ "\n" else "")
    ++ optLine h "🎭 Formato: " (← event.get "formato")
    ++ optLine h "🎪 Festival: " nombreFesti
    ++ optLine h "💰 Garantía: " (← event.get "garantia")
    ++ optLine h "📋 Acuerdo: " (← event.get "acuerdo")
    ++ optLine h "📈 Overage: " (← event.get "overage")
    ++ optLine h "🤝 Com. Promotor: " (← event.get "com_promotor")
    ++ optLine h "⚖️ Spliteo: " (← event.get "spliteo")
  let eventTitle := if nombreFesti.truthy
    then artistName.toStr h ++ " - " ++ nombreFesti.toStr h
    else artistName.toStr h ++ " - " ++ venueName.toStr h
  let venueAddress ← event.get "venue_address"
  let colorId ← getColorForManagementEvent h event
  pure {
    summary := .str eventTitle
    description := description
    start := .allDay startDateStr
    end_ := .allDay endDateStr
    location := venueAddress.or
      (.str (venueName.toStr h ++ ", " ++ city.toStr h ++ ", " ++ country.toStr h))
    status := "confirmed"
    visibility := "public"
    colorId := .str colorId }

/-- One optional entry of `parts` in `buildEventDescription`: `if (v) parts.push(label + v)`. -/
def optPart (h : Host) (label : String) (v : JsVal) : List String :=
  if v.truthy then [label ++ v.toStr h] else []

/-- One optional date entry of `parts`:
`if (v) parts.push(label + new Date(v).toLocaleDateString('es-AR'))`. -/
def optDatePart (h : Host) (label : String) (v : JsVal) : List String :=
  if v.truthy then [label ++ JsDate.toLocaleDateString h "es-AR" (JsVal.newDate h v)] else []

/-- The method `BookingCalendarUpdater.buildEventDescription(bookingEvent)`. -/
def buildEventDescription (h : Host) (bookingEvent : JsVal) : Except JsError String := do
  let city ← bookingEvent.get "city"
  let country ← bookingEvent.get "country"
  let price ← bookingEvent.get "price"
  let currency ← bookingEvent.get "currency"
  let parts : List String :=
    optPart h "🎤 Artista: " (← bookingEvent.get "artist_name")
    ++ optPart h "🏟️ Venue: " (← bookingEvent.get "venue_name")
    ++ (if (city.and country).truthy
        then ["📍 Ubicación: " ++ city.toStr h ++ ", " ++ country.toStr h] else [])
    ++ optPart h "🎭 Tipo: " (← bookingEvent.get "show_type")
    ++ optPart h "🎪 Festival: " (← bookingEvent.get "festival_name")
    ++ optPart h "📂 Categoría: " (← bookingEvent.get "category")
    ++ optPart h "📊 Status: " (← bookingEvent.get "status")
    ++ optPart h "👥 Capacidad: " (← bookingEvent.get "capacity")
    ++ optPart h "🎫 Tickets vendidos: " (← bookingEvent.get "tickets_sold")
    ++ (if (price.and currency).truthy
        then ["💰 Precio: " ++ currency.toStr h ++ " " ++ price.toStr h] else [])
    ++ optPart h "🎟️ Ticketera: " (← bookingEvent.get "ticketera_name")
    ++ optPart h "🔗 URL: " (← bookingEvent.get "ticketera_url")
    ++ optDatePart h "📅 Fecha de venta: " (← bookingEvent.get "sale_date")
    ++ optDatePart h "🎫 Preventa: " (← bookingEvent.get "fecha_preventa")
    ++ optPart h "💬 Comentarios: " (← bookingEvent.get "comments")
  pure ("\n".intercalate parts)

/-- The method `BookingCalendarUpdater.formatBookingEventToCalendarEvent(bookingEvent)`. -/
def formatBookingEventToCalendarEvent (h : Host) (bookingEvent : JsVal) :
    Except JsError CalendarItem := do
  let eventDate := JsVal.newDate h (← bookingEvent.get "start_date")
  let horaSalida ← bookingEvent.get "hora_salida"
  let startTime ← (if horaSalida.truthy then do
      let parts ← horaSalida.splitColon
      pure (JsDate.setHours h eventDate ((parts.get? 0).bind parseIntStr)
        ((parts.get? 1).bind parseIntStr) (some 0) (some 0))
    else pure (JsDate.setHours h eventDate (some 21) (some 0) (some 0) (some 0)))
  let endTime := JsDate.setHoursOnly h startTime (addInt (JsDate.getHours h startTime) 2)
  let artistName ← bookingEvent.get "artist_name"
  let venueName ← bookingEvent.get "venue_name"
  let title : JsVal :=
    if artistName.truthy then
      if venueName.truthy then .str (artistName.toStr h ++ " - " ++ venueName.toStr h)
      else artistName
    else .str "Evento de Booking"
  let description ← buildEventDescription h bookingEvent
  let venueAddress ← bookingEvent.get "venue_address"
  let city ← bookingEvent.get "city"
  let country ← bookingEvent.get "country"
  let location0 : JsVal :=
    if venueAddress.truthy then venueAddress
    else if venueName.truthy then venueName
    else .str ""
  let location : JsVal :=
    if (city.and country).truthy then
      if location0.truthy
      then .str (location0.toStr h ++ ", " ++ city.toStr h ++ ", " ++ country.toStr h)
      else .str (location0.toStr h ++ city.toStr h ++ ", " ++ country.toStr h)
    else location0
  let startIso ← startTime.toISOString
  let endIso ← endTime.toISOString
  pure {
    summary := title.or (.str "Evento de Booking")
    description := description
    start := .timed startIso "America/Argentina/Buenos_Aires"
    end_ := .timed endIso "America/Argentina/Buenos_Aires"
    location := location
    status := "confirmed"
    visibility := "public"
    colorId := getColorForCategory h (← bookingEvent.get "category") }

/-- The expression `release.release_date || release.date || release.created_at`. -/
def releaseDateOf (release : JsVal) : Except JsError JsVal := do
  pure (((← release.get "release_date").or (← release.get "date")).or (← release.get "created_at"))

/-- The method `ReleasesCalendarUpdater.formatReleaseToEvent(release)`. -/
def formatReleaseToEvent (h : Host) (release : JsVal) : Except JsError CalendarItem := do
  let artist ← release.get "artist"
  let artistName := ((artist.getOpt "name").or (← release.get "artist_name")).or
    (.str "Artista Desconocido")
  let releaseTitle := ((← release.get "title").or (← release.get "name")).or
    (.str "Título Desconocido")
  let releaseType := ((← release.get "type").or (← release.get "release_type")).or (.str "Release")
  let releaseDate ← releaseDateOf release
  let genre := ((← release.get "genre").or (artist.getOpt "genre")).or (.str "N/A")
  let label := ((← release.get "label").or (← release.get "label_name")).or (.str "N/A")
  let description := ((← release.get "description").or (← release.get "overview")).or (.str "")
  let coverUrl := (((← release.get "cover").or (← release.get "cover_url")).or
    (← release.get "artwork_url")).or (.str "")
  let externalUrls ← release.get "external_urls"
  let spotifyUrl := ((← release.get "spotify_url").or (externalUrls.getOpt "spotify")).or (.str "")
  let appleUrl := ((← release.get "apple_url").or (externalUrls.getOpt "apple")).or (.str "")
  if !releaseDate.truthy then
    throw ⟨"Error", "Release sin fecha: " ++ artistName.toStr h ++ " - " ++ releaseTitle.toStr h⟩
  let releaseDateObj := JsVal.newDate h releaseDate
  if releaseDateObj.isNone then
    throw ⟨"Error", "Fecha inválida para release: " ++ artistName.toStr h ++ " - "
      ++ releaseTitle.toStr h ++ " (" ++ releaseDate.toStr h ++ ")"⟩
  let startDateStr ← releaseDateObj.toISODate
  let endDate := JsDate.setDate h releaseDateObj (addInt (JsDate.getDate h releaseDateObj) 1)
  let endDateStr ← endDate.toISODate
  let eventDescription := "🎵 Artista: " ++ artistName.toStr h
    ++ "\n📀 Título: " ++ releaseTitle.toStr h
    ++ "\n📋 Tipo: " ++ releaseType.toStr h
    ++ "\n🎭 Género: " ++ genre.toStr h
    ++ "\n🏷️  Sello: " ++ label.toStr h
    ++ (if description.truthy then "\n\n📝 Descripción:\n" ++ description.toStr h else "")
    ++ (if spotifyUrl.truthy then "\n\n🎧 Spotify: " ++ spotifyUrl.toStr h else "")
    ++ (if appleUrl.truthy then "\n🍎 Apple Music: " ++ appleUrl.toStr h else "")
    ++ (if coverUrl.truthy then "\n\n🖼️  Portada: " ++ coverUrl.toStr h else "")
  let colorId ← getColorForReleaseType releaseType
  pure {
    summary := .str (artistName.toStr h ++ " - " ++ releaseTitle.toStr h)
    description := eventDescription
    start := .allDay startDateStr
    end_ := .allDay endDateStr
    location := .undefined
    status := "confirmed"
    visibility := "public"
    colorId := colorId }

/-! ## Configuration, authentication and calendar resolution -/

/-- The fields of a `calendar-config*.js` module that the jobs read. -/
structure CalendarConfig where
  calendarId : String
  calendarName : String
  forceCalendarId : Bool
  deriving DecidableEq, Repr, Inhabited

/-- The module `calendar-config.js` (Live). -/
def liveConfig : CalendarConfig :=
  { calendarId := "c_b1cdbb35e2e538d44729a8d7c06c6ae7349402a3eea9509b4332c5060ddd4d26@group.calendar.google.com"
    calendarName := "Live (malbec@daleplay.la)"
    forceCalendarId := true }

/-- The module `calendar-config-mgm.js` (Management). -/
def mgmConfig : CalendarConfig :=
  { calendarId := "c_7a6a9470388a244b85562ecb7268a773ca6d005d8bb142088a4d9abcd510e377@group.calendar.google.com"
    calendarName := "Management (malbec@daleplay.la)"
    forceCalendarId := true }

/-- The module `calendar-config-booking.js` (Booking). -/
def bookingConfig : CalendarConfig :=
  { calendarId := "c_7fba15b73d470d9bfbf3e8708bf13f219cfe5128b3aec41415ff0bf3a6ca0f7e@group.calendar.google.com"
    calendarName := "Booking"
    forceCalendarId := true }

/-- The module `calendar-config-releases.js` (Releases). -/
def releasesConfig : CalendarConfig :=
  { calendarId := "c_65f6f9dd7e6a17e03a9b3e50836b041dafb42f81bcdba13ac19a94ee75762592@group.calendar.google.com"
    calendarName := "Records"
    forceCalendarId := true }

/-- The constant `CONFIG.showsApiUrl`. -/
def showsApiUrl : String := "https://malbec-tcsm.vercel.app/api/calendar/events-shows"

/-- The constant `calendarConfig.api.url` of the Releases job. -/
def releasesApiUrl : String := "https://malbec-records2-0.vercel.app/api/releases"

/-- The method `setupAuthentication` (the same in the four classes): throws when
`loadServiceAccount` gives `null`, else awaits `auth.authorize()`. -/
def setupAuthentication {σ : Type} (S : Service σ) : Eff σ Unit := fun s =>
  if S.credentialsLoad s then Eff.call S.authorize Effect.authorize s
  else Eff.throw ⟨"Error", "No se pudieron cargar las credenciales del Service Account"⟩ s

/-- The call `calendars.get({calendarId})`. -/
def calendarsGet {σ : Type} (S : Service σ) (calendarId : String) : Eff σ CalendarInfo :=
  Eff.call (S.calendarsGet calendarId) (Effect.calendarsGet calendarId)

/-- The loop over `possibleIds` in `findMalbecCalendar`: the first id whose
`calendars.get` returns is taken; a throw moves on to the next id. -/
def tryPossibleIds {σ : Type} (S : Service σ) : List String → Eff σ (Option String)
  | [] => Eff.ret none
  | calendarId :: rest => do
    let r ← Eff.attempt (calendarsGet S calendarId)
    match r with
    | .ok info => pure (some info.id)
    | .error _ => tryPossibleIds S rest

/-- The predicate of `calendars.data.items.find(...)` in `findMalbecCalendar`. -/
def isMalbecCalendar (cal : CalendarListEntry) : Bool :=
  cal.summary = "Live" || cal.id = "malbec@daleplay.la" || cal.summary = "malbec@daleplay.la"
    || cal.summary = "malbec Tech" || includes cal.id "malbec@daleplay.la"
    || includes cal.summary "malbec"

/-- The method `ServiceAccountCalendarUpdater.findMalbecCalendar`; the value is the
id stored in `this.calendarId`. -/
def findMalbecCalendar {σ : Type} (S : Service σ) (cfg : CalendarConfig) : Eff σ String := do
  let forced ← (if cfg.forceCalendarId then do
      let r ← Eff.attempt (calendarsGet S cfg.calendarId)
      match r with
      | .ok info => pure (some info.id)
      | .error _ => pure none
    else pure none)
  match forced with
  | some calendarId => pure calendarId
  | none =>
    let direct ← tryPossibleIds S
      [cfg.calendarId, "malbec@daleplay.la", "primary",
       "malbec@daleplay.la#live@group.calendar.google.com"]
    match direct with
    | some calendarId => pure calendarId
    | none =>
      let calendars ← Eff.call S.calendarListList Effect.calendarListList
      match calendars.find? isMalbecCalendar with
      | some cal => pure cal.id
      | none => Eff.throw ⟨"Error", "Calendario de malbec@daleplay.la no encontrado"⟩

/-- The method `ManagementCalendarUpdater.findManagementCalendar`. -/
def findManagementCalendar {σ : Type} (S : Service σ) (cfg : CalendarConfig) : Eff σ String := do
  let info ← calendarsGet S cfg.calendarId
  pure info.id

/-- The method `BookingCalendarUpdater.findBookingCalendar`. -/
def findBookingCalendar {σ : Type} (S : Service σ) (cfg : CalendarConfig) : Eff σ String := do
  if cfg.forceCalendarId then
    let info ← calendarsGet S cfg.calendarId
    pure info.id
  else Eff.throw ⟨"Error", "No se pudo encontrar el calendario Booking"⟩

/-- The predicate of `calendars.data.items.find(...)` in `findReleasesCalendar`. -/
def isReleasesCalendar (cal : CalendarListEntry) : Bool :=
  cal.summary = "Records" || cal.summary = "Releases"
    || includes (toLowerCase cal.summary) "record" || includes (toLowerCase cal.summary) "release"

/-- The method `ReleasesCalendarUpdater.findReleasesCalendar`. -/
def findReleasesCalendar {σ : Type} (S : Service σ) (cfg : CalendarConfig) : Eff σ String := do
  if cfg.forceCalendarId then
    let info ← calendarsGet S cfg.calendarId
    pure info.id
  else
    let calendars ← Eff.call S.calendarListList Effect.calendarListList
    match calendars.find? isReleasesCalendar with
    | some cal => pure cal.id
    | none => Eff.throw ⟨"Error", "Calendario Records no encontrado"⟩

/-- The method `showCalendarInfo` (Live, Booking, Releases): `calendars.get` then
`getExistingEvents`; a throw of either is caught and logged. -/
def showCalendarInfo {σ : Type} (S : Service σ) (calendarId : String) : Eff σ Unit := do
  let _ ← Eff.attempt (do
    let _ ← calendarsGet S calendarId
    Eff.call (S.eventsList calendarId 2500) (Effect.eventsList calendarId 2500))
  pure ()

/-! ## Source Readers and Record Filters -/

/-- The receiver of `.filter(...)`: the method exists on an array only. -/
def asArray (v : JsVal) : Except JsError (List JsVal) :=
  match v with
  | .arr items => .ok items
  | .undefined => .error ⟨"TypeError", "Cannot read properties of undefined (reading 'filter')"⟩
  | .null => .error ⟨"TypeError", "Cannot read properties of null (reading 'filter')"⟩
  | _ => .error ⟨"TypeError", "filter is not a function"⟩

/-- The method `Array.prototype.filter` with a callback that may throw. -/
def filterE (p : JsVal → Except JsError Bool) : List JsVal → Except JsError (List JsVal)
  | [] => .ok []
  | x :: rest => do
    let keep ← p x
    let tail ← filterE p rest
    pure (if keep then x :: tail else tail)

/-- The method `Array.prototype.map` with a callback that may throw. -/
def mapE {α : Type} (f : JsVal → Except JsError α) : List JsVal → Except JsError (List α)
  | [] => .ok []
  | x :: rest => do
    let y ← f x
    let tail ← mapE f rest
    pure (y :: tail)

/-- The method `ServiceAccountCalendarUpdater.getShows`: the body of the GET; reading
`shows.length` for the log throws on `undefined` and `null`. -/
def getShows {σ : Type} (S : Service σ) : Eff σ JsVal := do
  let shows ← Eff.call (S.httpGet showsApiUrl) (Effect.httpGet showsApiUrl)
  match shows with
  | .undefined =>
    Eff.throw ⟨"TypeError", "Cannot read properties of undefined (reading 'length')"⟩
  | .null => Eff.throw ⟨"TypeError", "Cannot read properties of null (reading 'length')"⟩
  | _ => pure shows

/-- The callback of `validShows = allShows.filter(...)` (Live):
`show.artist?.name && show.venue?.name && show.show_date && show.city && show.country`. -/
def isValidShow (sh : JsVal) : Except JsError Bool := do
  let artist ← sh.get "artist"
  let venue ← sh.get "venue"
  pure (((((artist.getOpt "name").and (venue.getOpt "name")).and (← sh.get "show_date")).and
    (← sh.get "city")).and (← sh.get "country")).truthy

/-- The method `ManagementCalendarUpdater.getManagementEvents`: one query on its own
pool, closed in a `finally`. -/
def getManagementEvents {σ : Type} (S : Service σ) : Eff σ (List JsVal) := do
  let rows ← Eff.tryFinally
    (Eff.call (S.dbQuery "mgm_events") (Effect.dbQuery "mgm_events"))
    (Eff.call S.poolEnd Effect.poolEnd)
  pure (rows.map JsVal.obj)

/-- The callback of `validEvents = allEvents.filter(...)` (Management):
`event.artist_name && event.show_date && event.city && event.country`. -/
def isValidManagementEvent (event : JsVal) : Except JsError Bool := do
  pure ((((← event.get "artist_name").and (← event.get "show_date")).and (← event.get "city")).and
    (← event.get "country")).truthy

/-- The method `BookingCalendarUpdater.getBookingEvents`: one query on `this.dbPool`. -/
def getBookingEvents {σ : Type} (S : Service σ) : Eff σ (List JsVal) := do
  let rows ← Eff.call (S.dbQuery "booking_events") (Effect.dbQuery "booking_events")
  pure (rows.map JsVal.obj)

/-- The callback of `validEvents = allBookingEvents.filter(...)` (Booking):
`event.start_date && !event.deleted_at`. -/
def isValidBookingEvent (event : JsVal) : Except JsError Bool := do
  let startDate ← event.get "start_date"
  let deletedAt ← event.get "deleted_at"
  pure (startDate.truthy && !deletedAt.truthy)

/-- The reads of one pass of the debug loop of `getReleases`; they throw on an
element that is `undefined` or `null`. -/
def debugRelease (release : JsVal) : Except JsError Unit := do
  let _ ← release.get "title"
  pure ()

/-- The method `ReleasesCalendarUpdater.getReleases`: the body of the GET when it is
an array, else `releases.data || releases.releases || []`; then the debug print of
the first three entries. -/
def getReleases {σ : Type} (S : Service σ) (h : Host) : Eff σ JsVal := do
  let releases ← Eff.call (S.httpGet releasesApiUrl) (Effect.httpGet releasesApiUrl)
  let releasesArray ← Eff.ofExcept (match releases with
    | .arr _ => pure releases
    | _ => do pure (((← releases.get "data").or (← releases.get "releases")).or (.arr [])))
  match releasesArray with
  | .arr items =>
    let _ ← Eff.ofExcept (mapE debugRelease (items.take 3))
    pure releasesArray
  | .str _ => Eff.throw ⟨"TypeError", "forEach is not a function"⟩
  | .obj fields =>
    if (JsVal.lookup "length" fields).gtNum h 0
    then Eff.throw ⟨"TypeError", "slice is not a function"⟩
    else pure releasesArray
  | _ => pure releasesArray

/-- The title printed in the warnings of the Releases filter:
`release.title || release.name || 'Sin título'`. -/
def warnTitle (h : Host) (release : JsVal) : Except JsError String := do
  pure ((((← release.get "title").or (← release.get "name")).or (.str "Sin título")).toStr h)

/-- The loop of `validReleases = allReleases.filter(...)` (Releases): an entry whose
`release_date || date || created_at` is falsy is dropped with a `console.warn`; an
entry whose date does not give a valid `Date` is dropped; the others are kept. -/
def filterValidReleases {σ : Type} (h : Host) : List JsVal → Eff σ (List JsVal)
  | [] => Eff.ret []
  | release :: rest => do
    let releaseDate ← Eff.ofExcept (releaseDateOf release)
    if !releaseDate.truthy then
      Eff.warn ("⚠️  Release sin fecha ignorado: " ++ (← Eff.ofExcept (warnTitle h release)))
      filterValidReleases h rest
    else if (JsVal.newDate h releaseDate).isSome then
      let tail ← filterValidReleases h rest
      pure (release :: tail)
    else filterValidReleases h rest

/-! ## The four jobs -/

/-- What a job prints at its end: the number of valid records, the past and future
counts (when the job computes them) and the counters of the load (`none` when the
job returned before loading). -/
structure RunReport where
  validCount : Nat
  pastCount : Option Nat
  futureCount : Option Nat
  results : Option InsertResults
  deriving DecidableEq, Repr, Inhabited

/-- What steps 1 to 4 of an `updateCalendar` leave for the rest of the method:
`this.calendarId`, the valid records, and the past and future counts. -/
structure Prepared where
  calendarId : String
  valid : List JsVal
  pastCount : Option Nat
  futureCount : Option Nat

/-- The statement `const now = new Date()`. -/
def currentTime {σ : Type} (S : Service σ) : Eff σ Int := fun s => ⟨.ok (S.now s), s, []⟩

/-- The comparison `new Date(v) < now`. -/
def isBefore (h : Host) (now : Int) (v : JsVal) : Bool :=
  match JsVal.newDate h v with
  | some t => decide (t < now)
  | none => false

/-- The comparison `new Date(v) >= now`. -/
def isNotBefore (h : Host) (now : Int) (v : JsVal) : Bool :=
  match JsVal.newDate h v with
  | some t => decide (t ≥ now)
  | none => false

namespace ServiceAccountCalendarUpdater

/-- Steps 1 to 4 of `ServiceAccountCalendarUpdater.updateCalendar`: authentication,
calendar resolution, source read, Record Filter and the past / future split. -/
def readValid {σ : Type} (S : Service σ) (h : Host) : Eff σ Prepared := do
  setupAuthentication S
  let calendarId ← findMalbecCalendar S liveConfig
  let allShows ← getShows S
  let now ← currentTime S
  let validShows ← Eff.ofExcept (do filterE isValidShow (← asArray allShows))
  let pastShows ← Eff.ofExcept
    (filterE (fun sh => do pure (isBefore h now (← sh.get "show_date"))) validShows)
  let futureShows ← Eff.ofExcept
    (filterE (fun sh => do pure (isNotBefore h now (← sh.get "show_date"))) validShows)
  pure ⟨calendarId, validShows, some pastShows.length, some futureShows.length⟩

/-- The method `ServiceAccountCalendarUpdater.updateCalendar` (Live): steps 1 to 4,
then `clearCalendar`, the unguarded `map` of the transformer, `insertEvents` and
`showCalendarInfo`. -/
def updateCalendar {σ : Type} (S : Service σ) (h : Host) : Eff σ RunReport := do
  let p ← readValid S h
  let _ ← clearCalendar S p.calendarId
  let calendarEvents ← Eff.ofExcept (mapE (formatShowToEvent h) p.valid)
  let results ← insertEvents S p.calendarId calendarEvents
  showCalendarInfo S p.calendarId
  pure ⟨p.valid.length, p.pastCount, p.futureCount, some results⟩

end ServiceAccountCalendarUpdater

namespace ManagementCalendarUpdater

/-- Steps 1 to 4 of `ManagementCalendarUpdater.updateCalendar`. -/
def readValid {σ : Type} (S : Service σ) (h : Host) : Eff σ Prepared := do
  setupAuthentication S
  let calendarId ← findManagementCalendar S mgmConfig
  let allEvents ← getManagementEvents S
  let now ← currentTime S
  let validEvents ← Eff.ofExcept (filterE isValidManagementEvent allEvents)
  let pastEvents ← Eff.ofExcept
    (filterE (fun e => do pure (isBefore h now (← e.get "show_date"))) validEvents)
  let futureEvents ← Eff.ofExcept
    (filterE (fun e => do pure (isNotBefore h now (← e.get "show_date"))) validEvents)
  pure ⟨calendarId, validEvents, some pastEvents.length, some futureEvents.length⟩

/-- The method `ManagementCalendarUpdater.updateCalendar`: steps 1 to 4, then
`clearCalendar`, the unguarded `map` of the transformer and `insertEvents`. -/
def updateCalendar {σ : Type} (S : Service σ) (h : Host) : Eff σ RunReport := do
  let p ← readValid S h
  let _ ← clearCalendar S p.calendarId
  let calendarEvents ← Eff.ofExcept (mapE (formatManagementEventToCalendar h) p.valid)
  let results ← insertEvents S p.calendarId calendarEvents
  pure ⟨p.valid.length, p.pastCount, p.futureCount, some results⟩

end ManagementCalendarUpdater

namespace BookingCalendarUpdater

/-- Steps 2 to 5 of `BookingCalendarUpdater.updateCalendar` (step 1 builds the pool
object): authentication, calendar resolution, source read and Record Filter. -/
def readValid {σ : Type} (S : Service σ) : Eff σ Prepared := do
  setupAuthentication S
  let calendarId ← findBookingCalendar S bookingConfig
  let allBookingEvents ← getBookingEvents S
  let validEvents ← Eff.ofExcept (filterE isValidBookingEvent allBookingEvents)
  pure ⟨calendarId, validEvents, none, none⟩

/-- The `try` block of `BookingCalendarUpdater.updateCalendar`. -/
def updateCalendarBody {σ : Type} (S : Service σ) (h : Host) : Eff σ RunReport := do
  let p ← readValid S
  let _ ← clearCalendar S p.calendarId
  let calendarEvents ← Eff.ofExcept (mapE (formatBookingEventToCalendarEvent h) p.valid)
  let results ← insertEvents S p.calendarId calendarEvents
  showCalendarInfo S p.calendarId
  pure ⟨p.valid.length, p.pastCount, p.futureCount, some results⟩

/-- The method `BookingCalendarUpdater.updateCalendar`: the body runs in a `try`
whose `finally` closes the pool. -/
def updateCalendar {σ : Type} (S : Service σ) (h : Host) : Eff σ RunReport :=
  Eff.tryFinally (updateCalendarBody S h) (Eff.call S.poolEnd Effect.poolEnd)

end BookingCalendarUpdater

namespace ReleasesCalendarUpdater

/-- The loop `for (const release of validReleases) { try { push(format) } catch
{ skippedCount++; console.warn } }` of `updateCalendar`. -/
def formatLoop {σ : Type} (h : Host) : List JsVal → Eff σ (List CalendarItem × Nat)
  | [] => Eff.ret ([], 0)
  | release :: rest =>
    match formatReleaseToEvent h release with
    | .ok event => do
      let r ← formatLoop h rest
      pure (event :: r.1, r.2)
    | .error e => do
      Eff.warn ("⚠️  Error formateando release, saltado: " ++ e.message)
      let r ← formatLoop h rest
      pure (r.1, r.2 + 1)

/-- Steps 1 to 4 of `ReleasesCalendarUpdater.updateCalendar`. -/
def readValid {σ : Type} (S : Service σ) (h : Host) : Eff σ Prepared := do
  setupAuthentication S
  let calendarId ← findReleasesCalendar S releasesConfig
  let allReleases ← getReleases S h
  let now ← currentTime S
  let validReleases ← filterValidReleases h (← Eff.ofExcept (asArray allReleases))
  let pastReleases ← Eff.ofExcept
    (filterE (fun r => do pure (isBefore h now (← releaseDateOf r))) validReleases)
  let futureReleases ← Eff.ofExcept
    (filterE (fun r => do pure (isNotBefore h now (← releaseDateOf r))) validReleases)
  pure ⟨calendarId, validReleases, some pastReleases.length, some futureReleases.length⟩

/-- The method `ReleasesCalendarUpdater.updateCalendar`: steps 1 to 4; with no valid
release it returns at once; else `clearCalendar`, the guarded transform loop,
`insertEvents` (whose `skippedCount` is then overwritten) and `showCalendarInfo`. -/
def updateCalendar {σ : Type} (S : Service σ) (h : Host) : Eff σ RunReport := do
  let p ← readValid S h
  if p.valid.length = 0 then
    pure ⟨p.valid.length, p.pastCount, p.futureCount, none⟩
  else
    let _ ← clearCalendar S p.calendarId
    let formatted ← formatLoop h p.valid
    let results ← insertEvents S p.calendarId formatted.1
    showCalendarInfo S p.calendarId
    pure ⟨p.valid.length, p.pastCount, p.futureCount,
      some { results with skippedCount := formatted.2 }⟩

end ReleasesCalendarUpdater

/-- The four sync jobs. -/
inductive Job where
  | live
  | management
  | booking
  | releases
  deriving DecidableEq, Repr, Inhabited

namespace Job

/-- Steps of `updateCalendar` up to the Record Filter, per job. -/
def readValid {σ : Type} (S : Service σ) (h : Host) : Job → Eff σ Prepared
  | live => ServiceAccountCalendarUpdater.readValid S h
  | management => ManagementCalendarUpdater.readValid S h
  | booking => BookingCalendarUpdater.readValid S
  | releases => ReleasesCalendarUpdater.readValid S h

/-- The method `updateCalendar` of the job's updater class. -/
def updateCalendar {σ : Type} (S : Service σ) (h : Host) : Job → Eff σ RunReport
  | live => ServiceAccountCalendarUpdater.updateCalendar S h
  | management => ManagementCalendarUpdater.updateCalendar S h
  | booking => BookingCalendarUpdater.updateCalendar S h
  | releases => ReleasesCalendarUpdater.updateCalendar S h

end Job

/-! ## The orchestrator -/

/-- The object `results` of `updateAllCalendars`. -/
structure Scoreboard where
  live : Bool
  management : Bool
  booking : Bool
  releases : Bool
  deriving DecidableEq, Repr, Inhabited

/-- What `updateAllCalendars` prints in its summary. -/
structure Summary where
  results : Scoreboard
  successCount : Nat
  deriving DecidableEq, Repr, Inhabited

namespace AllCalendarsUpdater

/-- The method `AllCalendarsUpdater.updateAllCalendars`, with the `updateCalendar`
methods of its four updater objects as arguments.  Without the credential file it
returns at once (`none`); else each job runs in its own `try`/`catch`, which
records `true` or `false`, and the summary is printed. -/
def updateAllCalendarsWith {σ α β γ δ : Type} (S : Service σ)
    (liveUpdater : Eff σ α) (mgmtUpdater : Eff σ β) (bookingUpdater : Eff σ γ)
    (releasesUpdater : Eff σ δ) : Eff σ (Option Summary) := fun s =>
  if S.credentialFileExists s then
    (do
      let live ← Eff.attempt liveUpdater
      let management ← Eff.attempt mgmtUpdater
      let booking ← Eff.attempt bookingUpdater
      let releases ← Eff.attempt releasesUpdater
      let results : Scoreboard :=
        ⟨live.toBool, management.toBool, booking.toBool, releases.toBool⟩
      let successCount := (if results.live then 1 else 0) + (if results.management then 1 else 0)
        + (if results.booking then 1 else 0) + (if results.releases then 1 else 0)
      pure (some (Summary.mk results successCount))) s
  else Eff.ret none s

/-- The method `AllCalendarsUpdater.updateAllCalendars` on the four updaters that
the constructor creates. -/
def updateAllCalendars {σ : Type} (S : Service σ) (h : Host) : Eff σ (Option Summary) :=
  updateAllCalendarsWith S
    (ServiceAccountCalendarUpdater.updateCalendar S h)
    (ManagementCalendarUpdater.updateCalendar S h)
    (BookingCalendarUpdater.updateCalendar S h)
    (ReleasesCalendarUpdater.updateCalendar S h)

end AllCalendarsUpdater

/-! ## Kinds of effects -/

namespace Effect

/-- An `events.insert` call. -/
def isInsert : Effect → Bool
  | eventsInsert _ _ _ => true
  | _ => false

/-- An `events.delete` call. -/
def isDelete : Effect → Bool
  | eventsDelete _ _ _ => true
  | _ => false

/-- An `events.list` call. -/
def isList : Effect → Bool
  | eventsList _ _ _ => true
  | _ => false

/-- A call on the events of a calendar: list, delete or insert. -/
def isEventCall (e : Effect) : Bool := e.isInsert || e.isDelete || e.isList

end Effect

/-- Every effect of every run of `m` satisfies `p`. -/
def Eff.Only {σ α : Type} (p : Effect → Bool) (m : Eff σ α) : Prop :=
  ∀ s, ∀ e ∈ (m s).log, p e = true

/-! ## The Record Filter in the words of the specification -/

/-- A record has a field when the field holds a truthy value (not `undefined`, `null`,
`""`, `0` or `false`). -/
def hasField (record : List (String × JsVal)) (key : String) : Bool :=
  (JsVal.lookup key record).truthy

/-- A record has the member `inner` of its field `outer`. -/
def hasNestedField (record : List (String × JsVal)) (outer inner : String) : Bool :=
  ((JsVal.lookup outer record).getOpt inner).truthy

/-- Live: `artist.name`, `venue.name`, `show_date`, `city` and `country` are present. -/
def liveMandatory (record : List (String × JsVal)) : Bool :=
  hasNestedField record "artist" "name" && hasNestedField record "venue" "name"
    && hasField record "show_date" && hasField record "city" && hasField record "country"

/-- Management: `artist_name`, `show_date`, `city` and `country` are present. -/
def managementMandatory (record : List (String × JsVal)) : Bool :=
  hasField record "artist_name" && hasField record "show_date" && hasField record "city"
    && hasField record "country"

/-- Booking: `start_date` is present and `deleted_at` is absent. -/
def bookingMandatory (record : List (String × JsVal)) : Bool :=
  hasField record "start_date" && !hasField record "deleted_at"

/-- Releases: one of `release_date`, `date`, `created_at` is present. -/
def releasesMandatory (record : List (String × JsVal)) : Bool :=
  hasField record "release_date" || hasField record "date" || hasField record "created_at"

/-- The first present one of `release_date`, `date`, `created_at`, in that order. -/
def firstReleaseDate (record : List (String × JsVal)) : JsVal :=
  if hasField record "release_date" then JsVal.lookup "release_date" record
  else if hasField record "date" then JsVal.lookup "date" record
  else JsVal.lookup "created_at" record

/-- Releases: one of `release_date`, `date`, `created_at` is present, and the first
present one parses to a valid date. -/
def releasesDated (h : Host) (record : List (String × JsVal)) : Bool :=
  releasesMandatory record && (JsVal.newDate h (firstReleaseDate record)).isSome

/-- The title a record shows in the warning of the Releases filter: its `title`, else
its `name`, else `Sin título`. -/
def releaseWarnTitle (h : Host) (record : List (String × JsVal)) : String :=
  if hasField record "title" then (JsVal.lookup "title" record).toStr h
  else if hasField record "name" then (JsVal.lookup "name" record).toStr h
  else "Sin título"

/-- Number of records whose transformation by `formatReleaseToEvent` throws. -/
def formatFailures (h : Host) (releases : List JsVal) : Nat :=
  (releases.filter (fun r => !(formatReleaseToEvent h r).toBool)).length

/-- The calendar items of the records that `formatReleaseToEvent` transforms without
throwing, in order. -/
def formattedItems (h : Host) (releases : List JsVal) : List CalendarItem :=
  releases.filterMap (fun r => (formatReleaseToEvent h r).toOption)

/-! ## A concrete host -/

/-- Value of a run of decimal digits; `none` when a character is not a digit. -/
def decimalValue (cs : List Char) : Option Nat :=
  if cs.all Char.isDigit then readDigits 10 cs none else none

/-- Time value of a calendar date at a time of day; `none` when a part is out of range.
As in V8, a day of month up to 31 is read in every month and runs over into the next
month (`2024-02-30` is 1 March 2024). -/
def isoTime (y m d hh mi ss ms : Nat) : Option Int :=
  if 1 ≤ m ∧ m ≤ 12 ∧ 1 ≤ d ∧ d ≤ 31 ∧ hh ≤ 23 ∧ mi ≤ 59 ∧ ss ≤ 59 then
    some (makeDate (daysFromCivil y m 1 + ((d : Int) - 1)) (makeTime hh mi ss ms))
  else none

/-- A `Date.parse` that reads the ISO forms `YYYY-MM-DD`, `YYYY-MM-DDTHH:mm:ssZ` and
`YYYY-MM-DDTHH:mm:ss.sssZ` as V8 reads them, and answers `NaN` to any other text (the
further forms that V8 reads are not part of this host). -/
def isoDateParse (s : String) : Option Int :=
  match s.data with
  | [y1, y2, y3, y4, '-', m1, m2, '-', d1, d2] => do
    isoTime (← decimalValue [y1, y2, y3, y4]) (← decimalValue [m1, m2]) (← decimalValue [d1, d2])
      0 0 0 0
  | [y1, y2, y3, y4, '-', m1, m2, '-', d1, d2, 'T', h1, h2, ':', i1, i2, ':', s1, s2, 'Z'] => do
    isoTime (← decimalValue [y1, y2, y3, y4]) (← decimalValue [m1, m2]) (← decimalValue [d1, d2])
      (← decimalValue [h1, h2]) (← decimalValue [i1, i2]) (← decimalValue [s1, s2]) 0
  | [y1, y2, y3, y4, '-', m1, m2, '-', d1, d2, 'T', h1, h2, ':', i1, i2, ':', s1, s2, '.',
      f1, f2, f3, 'Z'] => do
    isoTime (← decimalValue [y1, y2, y3, y4]) (← decimalValue [m1, m2]) (← decimalValue [d1, d2])
      (← decimalValue [h1, h2]) (← decimalValue [i1, i2]) (← decimalValue [s1, s2])
      (← decimalValue [f1, f2, f3])
  | _ => none

/-- Text `d/M/yyyy` of the UTC date of a time value. -/
def dayMonthYear (t : Int) : String :=
  toString (dateFromTime t) ++ "/" ++ toString (monthFromTime t + 1) ++ "/"
    ++ toString (yearFromTime t)

/-- A host whose local time zone is UTC, whose `Date.parse` is `isoDateParse`, and
whose locale texts are plain (`d/M/yyyy` dates, ungrouped digits, ISO date-times). -/
def utcHost : Host where
  dateParse := isoDateParse
  localTZA _ _ := 0
  toLocaleDateString _ t := dayMonthYear t
  numberToLocaleString n := toString n
  dateToString t := JsDate.isoDatePart t ++ "T" ++ JsDate.isoTimePart t
  dateToLocaleString t := JsDate.isoDatePart t ++ "T" ++ JsDate.isoTimePart t

/-! ## An in-memory calendar service -/

/-- World of the in-memory service: the events of every calendar in listing order,
the event ids whose delete is refused, the body each URL answers with, the rows of
each table, the clock, and whether the credential file is there. -/
structure MemWorld where
  events : String → List ExistingItem
  locked : List String
  nextId : Nat
  feed : String → Except JsError JsVal
  rows : String → Except JsError (List (List (String × JsVal)))
  clock : Int
  credentials : Bool

/-- Remove the first event with the given id. -/
def removeEvent (eventId : String) : List ExistingItem → List ExistingItem
  | [] => []
  | e :: rest => if e.id = eventId then rest else e :: removeEvent eventId rest

/-- The summary a stored event shows for an inserted item. -/
def storedSummary : JsVal → Option String
  | JsVal.str s => some s
  | _ => none

/-- The in-memory calendar service.  `events.list` answers with one page: at most
`maxResults` events and never more than 2500, the page-size ceiling of the
calendar API.  `events.delete` removes the event, and throws when the id is
locked or not there.  `events.insert` stores the item under a fresh id. -/
def memService : Service MemWorld where
  credentialFileExists w := w.credentials
  credentialsLoad w := w.credentials
  authorize w := (.ok (), w)
  calendarsGet calendarId w := (.ok ⟨calendarId, calendarId, "UTC"⟩, w)
  calendarListList w := (.ok [], w)
  eventsList calendarId maxResults w := (.ok ((w.events calendarId).take (min maxResults 2500)), w)
  eventsDelete calendarId eventId w :=
    if eventId ∈ w.locked then (.error ⟨"Error", "Forbidden"⟩, w)
    else if eventId ∈ (w.events calendarId).map ExistingItem.id then
      (.ok (), { w with events := fun c =>
        if c = calendarId then removeEvent eventId (w.events c) else w.events c })
    else (.error ⟨"Error", "Not Found"⟩, w)
  eventsInsert calendarId item w :=
    let id := "event-" ++ toString w.nextId
    let stored : ExistingItem := match item.start with
      | .timed dt _ => ⟨id, storedSummary item.summary, some dt, none⟩
      | .allDay d => ⟨id, storedSummary item.summary, none, some d⟩
    (.ok ⟨id, none⟩, { w with nextId := w.nextId + 1, events := fun c =>
        if c = calendarId then w.events c ++ [stored] else w.events c })
  httpGet url w := (w.feed url, w)
  dbQuery table w := (w.rows table, w)
  poolEnd w := (.ok (), w)
  now w := w.clock

/-- A world whose calendar `"cal"` holds the `n` events `event-0 … event-(n-1)`,
none of them locked. -/
def worldWithEvents (n : Nat) : MemWorld where
  events c := if c = "cal" then (List.range n).map (fun i => ⟨"event-" ++ toString i, none, none, none⟩)
    else []
  locked := []
  nextId := n
  feed _ := .ok (JsVal.arr [])
  rows _ := .ok []
  clock := 0
  credentials := true


/-- A world whose calendar `"cal"` holds `event-0` and `event-1`, the second of
which cannot be deleted. -/
def worldWithLockedEvent : MemWorld :=
  { worldWithEvents 2 with locked := ["event-1"] }

/-- An event left in a calendar by an earlier run. -/
def staleEvent : ExistingItem := ⟨"old-1", some "Old show", none, some "2020-01-01"⟩

/-- A show of the Live API with every field the Live job reads. -/
def goodShow : JsVal :=
  .obj [("artist", .obj [("name", .str "A"), ("genre", .str "Rock")]),
        ("venue", .obj [("name", .str "V")]),
        ("show_date", .str "2024-05-01"), ("city", .str "Buenos Aires"), ("country", .str "AR"),
        ("status", .str "confirmed"),
        ("ticketera", .obj [("name", .str "T"), ("url", .str "https://t.example")])]

/-- The same show with a `show_date` that is no date. -/
def malformedShow : JsVal :=
  .obj [("artist", .obj [("name", .str "A"), ("genre", .str "Rock")]),
        ("venue", .obj [("name", .str "V")]),
        ("show_date", .str "not-a-date"), ("city", .str "Buenos Aires"), ("country", .str "AR"),
        ("status", .str "confirmed"),
        ("ticketera", .obj [("name", .str "T"), ("url", .str "https://t.example")])]

/-- A world where every calendar holds `staleEvent`, the shows API answers with
`shows` and the releases API with `releases`; both tables are empty. -/
def worldWithFeeds (shows releases : JsVal) : MemWorld where
  events _ := [staleEvent]
  locked := []
  nextId := 0
  feed url := if url = showsApiUrl then .ok shows else .ok releases
  rows _ := .ok []
  clock := 1700000000000
  credentials := true

/-- The response `{releases: [{title: "A", artist_name: "B"}]}` of the end-to-end
scenario: one release, with no date field. -/
def undatedResponse : JsVal :=
  .obj [("releases", .arr [.obj [("title", .str "A"), ("artist_name", .str "B")]])]

/-- The `console.warn` lines of a trace, in order. -/
def warnings : List Effect → List String
  | [] => []
  | Effect.warn line :: rest => line :: warnings rest
  | _ :: rest => warnings rest

/-- The calendar ids of the `events.list` calls of a trace, in order. -/
def listCalls : List Effect → List String
  | [] => []
  | Effect.eventsList calendarId _ _ :: rest => calendarId :: listCalls rest
  | _ :: rest => listCalls rest

/-- A release with a title and an artist but no date field. -/
def undatedRelease : JsVal := .obj [("title", .str "A"), ("artist_name", .str "B")]

/-- A release with a date that parses. -/
def datedRelease : JsVal :=
  .obj [("title", .str "C"), ("artist_name", .str "D"), ("release_date", .str "2024-05-01")]


/-! ## More hosts -/

/-- A host like `utcHost` but in a local time zone with the given offsets; its
`toLocaleDateString` writes the local date. -/
def zoneHost (localTZA : Int → Bool → Int) : Host :=
  { utcHost with
    localTZA := localTZA
    toLocaleDateString := fun _ t => dayMonthYear (t + localTZA t true) }

/-- A host in a zone at the fixed offset UTC-3 at every instant (the zone `Etc/GMT+3`).
America/Argentina/Buenos_Aires has had this offset since 2009 and had others before. -/
def utcMinus3Host : Host := zoneHost (fun _ _ => -10800000)

/-- The instant 2024-03-10T07:00:00Z, when clocks in America/New_York go from 02:00
(UTC-5) to 03:00 (UTC-4). -/
def newYorkSpringForward : Int := 1710054000000

/-- A host in the zone America/New_York around its daylight-saving change of
10 March 2024: UTC-5 before `newYorkSpringForward`, UTC-4 from then on.  A local time
in the skipped hour is read with the offset before the change. -/
def newYorkHost : Host :=
  zoneHost (fun t isUTC =>
    if isUTC then (if t < newYorkSpringForward then -18000000 else -14400000)
    else (if t < newYorkSpringForward - 14400000 then -18000000 else -14400000))

/-! ## The Record Transformers in the words of the specification -/

/-- The transformer of a job. -/
def Job.transformer (h : Host) : Job → JsVal → Except JsError CalendarItem
  | .live => formatShowToEvent h
  | .management => formatManagementEventToCalendar h
  | .booking => formatBookingEventToCalendarEvent h
  | .releases => formatReleaseToEvent h

/-- The top-level fields of a record that the job's transformer reads. -/
def Job.readFields : Job → List String
  | .live => ["show_date", "artist", "venue", "city", "country", "status", "ticketera"]
  | .management => ["show_date", "artist_name", "venue_name", "city", "country", "status",
      "artist_genre", "aforo", "formato", "nombre_festi", "garantia", "acuerdo", "overage",
      "com_promotor", "spliteo", "venue_address"]
  | .booking => ["start_date", "hora_salida", "artist_name", "venue_name", "city", "country",
      "show_type", "festival_name", "category", "status", "capacity", "tickets_sold", "price",
      "currency", "ticketera_name", "ticketera_url", "sale_date", "fecha_preventa", "comments",
      "venue_address"]
  | .releases => ["artist", "artist_name", "title", "name", "type", "release_type",
      "release_date", "date", "created_at", "genre", "label", "label_name", "description",
      "overview", "cover", "cover_url", "artwork_url", "external_urls", "spotify_url",
      "apple_url"]

/-- The title of a booking item: artist name, ` - `, venue name when both names are
present; the artist name alone when only it is present; else the fallback label. -/
def bookingTitle (h : Host) (record : List (String × JsVal)) : JsVal :=
  if hasField record "artist_name" then
    if hasField record "venue_name" then
      .str ((JsVal.lookup "artist_name" record).toStr h ++ " - "
        ++ (JsVal.lookup "venue_name" record).toStr h)
    else JsVal.lookup "artist_name" record
  else .str "Evento de Booking"

/-- The text `HH:MM` of an hour and a minute. -/
def hhmm (hour minute : Nat) : String := JsDate.pad 2 hour ++ ":" ++ JsDate.pad 2 minute

/-- The composed location `venue, city, country`. -/
def composedLocation (h : Host) (venueName city country : JsVal) : JsVal :=
  .str (venueName.toStr h ++ ", " ++ city.toStr h ++ ", " ++ country.toStr h)

/-- The location of an item, per job.  Live and Management: the venue address when
present, else the composed `venue, city, country`.  Booking: the venue address when
present, else the venue name when present, else nothing; and when city and country
are both present, `, city, country` is appended to it (`city, country` alone when
there was nothing).  Releases: no location. -/
def Job.location (h : Host) : Job → List (String × JsVal) → JsVal
  | .live, record =>
    if ((JsVal.lookup "venue" record).getOpt "address").truthy
    then (JsVal.lookup "venue" record).getOpt "address"
    else composedLocation h ((JsVal.lookup "venue" record).getOpt "name")
      (JsVal.lookup "city" record) (JsVal.lookup "country" record)
  | .management, record =>
    if hasField record "venue_address" then JsVal.lookup "venue_address" record
    else composedLocation h (JsVal.lookup "venue_name" record)
      (JsVal.lookup "city" record) (JsVal.lookup "country" record)
  | .booking, record =>
    let place : JsVal :=
      if hasField record "venue_address" then JsVal.lookup "venue_address" record
      else if hasField record "venue_name" then JsVal.lookup "venue_name" record
      else .str ""
    if hasField record "city" && hasField record "country" then
      .str (place.toStr h ++ (if place.truthy then ", " else "")
        ++ (JsVal.lookup "city" record).toStr h ++ ", " ++ (JsVal.lookup "country" record).toStr h)
    else place
  | .releases, _ => .undefined

/-- The location in the three tiers of the specification: the venue address when
present, else the venue name when present, else the composed `venue, city, country`. -/
def threeTierLocation (h : Host) (address venueName city country : JsVal) : JsVal :=
  if address.truthy then address
  else if venueName.truthy then venueName
  else composedLocation h venueName city country

/-- The booking row of the end-to-end scenario of the specification. -/
def bookingScenario : List (String × JsVal) :=
  [("artist_name", .str "X"), ("venue_name", .str "Y"), ("start_date", .str "2024-05-01"),
   ("hora_salida", .str "22:30")]

/-- The item that the booking transformer builds from `bookingScenario` in a process
whose zone is `utcMinus3Host`: 22:30 local is 01:30 UTC. -/
def bookingScenarioItem : CalendarItem :=
  { summary := .str "X - Y"
    description := "🎤 Artista: X\n🏟️ Venue: Y"
    start := .timed "2024-05-01T01:30:00.000Z" "America/Argentina/Buenos_Aires"
    end_ := .timed "2024-05-01T03:30:00.000Z" "America/Argentina/Buenos_Aires"
    location := .str "Y"
    status := "confirmed"
    visibility := "public"
    colorId := .str "1" }

/-! ## The body of an item in the words of the specification -/

/-- One labeled entry of a body: its label, whether the record has what the entry
shows, and the text after the label. -/
structure BodyEntry where
  label : String
  present : Bool
  text : String

/-- The line of an entry: its label followed by its text. -/
def BodyEntry.line (e : BodyEntry) : String := e.label ++ e.text

/-- The lines of the entries that are present, in the order of the entries. -/
def presentLines (entries : List BodyEntry) : List String :=
  (entries.filter (fun e => e.present)).map BodyEntry.line

/-- The text of a field. -/
def fieldText (h : Host) (record : List (String × JsVal)) (key : String) : String :=
  (JsVal.lookup key record).toStr h

/-- The date of a field as the locale `es-AR` writes it. -/
def fieldDateText (h : Host) (record : List (String × JsVal)) (key : String) : String :=
  JsDate.toLocaleDateString h "es-AR" (JsVal.newDate h (JsVal.lookup key record))

/-- The fixed ordered sequence of labels of a booking body. -/
def bookingLabels : List String :=
  ["🎤 Artista: ", "🏟️ Venue: ", "📍 Ubicación: ", "🎭 Tipo: ", "🎪 Festival: ",
   "📂 Categoría: ", "📊 Status: ", "👥 Capacidad: ", "🎫 Tickets vendidos: ", "💰 Precio: ",
   "🎟️ Ticketera: ", "🔗 URL: ", "📅 Fecha de venta: ", "🎫 Preventa: ", "💬 Comentarios: "]

/-- The fifteen entries of a booking body: each is present when its field is, the
place when both city and country are, the price when both price and currency are. -/
def bookingEntries (h : Host) (record : List (String × JsVal)) : List BodyEntry :=
  [ ⟨"🎤 Artista: ", hasField record "artist_name", fieldText h record "artist_name"⟩,
    ⟨"🏟️ Venue: ", hasField record "venue_name", fieldText h record "venue_name"⟩,
    ⟨"📍 Ubicación: ", hasField record "city" && hasField record "country",
      fieldText h record "city" ++ ", " ++ fieldText h record "country"⟩,
    ⟨"🎭 Tipo: ", hasField record "show_type", fieldText h record "show_type"⟩,
    ⟨"🎪 Festival: ", hasField record "festival_name", fieldText h record "festival_name"⟩,
    ⟨"📂 Categoría: ", hasField record "category", fieldText h record "category"⟩,
    ⟨"📊 Status: ", hasField record "status", fieldText h record "status"⟩,
    ⟨"👥 Capacidad: ", hasField record "capacity", fieldText h record "capacity"⟩,
    ⟨"🎫 Tickets vendidos: ", hasField record "tickets_sold", fieldText h record "tickets_sold"⟩,
    ⟨"💰 Precio: ", hasField record "price" && hasField record "currency",
      fieldText h record "currency" ++ " " ++ fieldText h record "price"⟩,
    ⟨"🎟️ Ticketera: ", hasField record "ticketera_name", fieldText h record "ticketera_name"⟩,
    ⟨"🔗 URL: ", hasField record "ticketera_url", fieldText h record "ticketera_url"⟩,
    ⟨"📅 Fecha de venta: ", hasField record "sale_date", fieldDateText h record "sale_date"⟩,
    ⟨"🎫 Preventa: ", hasField record "fecha_preventa", fieldDateText h record "fecha_preventa"⟩,
    ⟨"💬 Comentarios: ", hasField record "comments", fieldText h record "comments"⟩ ]

/-- A booking row whose show starts at 01:30 on the night when clocks in
America/New_York skip from 02:00 to 03:00. -/
def springForwardBooking : List (String × JsVal) :=
  [("artist_name", .str "X"), ("start_date", .str "2024-03-10T12:00:00Z"),
   ("hora_salida", .str "01:30")]

/-- A booking row whose `start_date` is the last instant a `Date` can hold. -/
def lastInstantBooking : List (String × JsVal) :=
  [("artist_name", .str "X"), ("start_date", .date (some 8640000000000000))]

/-- A release dated 10 March 2024. -/
def springForwardRelease : List (String × JsVal) :=
  [("title", .str "T"), ("artist_name", .str "X"), ("release_date", .str "2024-03-10")]

/-- A management row dated 10 March 2024. -/
def springForwardManagementEvent : List (String × JsVal) :=
  [("show_date", .str "2024-03-10"), ("artist_name", .str "X"), ("venue_name", .str "Y"),
   ("city", .str "Z"), ("country", .str "AR")]

/-- The start and the end of the item a transformer returns. -/
def timeWindow (r : Except JsError CalendarItem) : Except JsError (EventTime × EventTime) :=
  r.map (fun item => (item.start, item.end_))

/-- The first present value of a list of candidates, else the placeholder. -/
def firstPresent : List JsVal → JsVal → JsVal
  | [], placeholder => placeholder
  | v :: vs, placeholder => if v.truthy then v else firstPresent vs placeholder

/-- The text of the member `inner` of the field `outer`. -/
def nestedText (h : Host) (record : List (String × JsVal)) (outer inner : String) : String :=
  ((JsVal.lookup outer record).getOpt inner).toStr h

/-- The lines that the body of a job's item always has, whatever fields the record
has.  An absent field shows as its placeholder where the line has one (`N/A`,
`Artista Desconocido`, `Título Desconocido`, `Release`) and as the text of the
absent value (`undefined`) where it has none. -/
def Job.fixedLines (h : Host) : Job → List (String × JsVal) → List String
  | .live, record =>
    [ "🎤 Artista: " ++ nestedText h record "artist" "name",
      "🏟️ Venue: " ++ nestedText h record "venue" "name",
      "📍 Ciudad: " ++ fieldText h record "city" ++ ", " ++ fieldText h record "country",
      "📊 Status: " ++ (firstPresent [JsVal.lookup "status" record] (.str "N/A")).toStr h,
      "🎫 Ticketera: " ++ nestedText h record "ticketera" "name",
      "🔗 URL: " ++ nestedText h record "ticketera" "url",
      "⭐ Género: " ++ nestedText h record "artist" "genre" ]
  | .management, record =>
    [ "🎤 Artista: " ++ (firstPresent [JsVal.lookup "artist_name" record] (.str "N/A")).toStr h,
      "🏟️ Venue: " ++ (firstPresent [JsVal.lookup "venue_name" record] (.str "N/A")).toStr h,
      "📍 Ciudad: " ++ fieldText h record "city" ++ ", " ++ fieldText h record "country",
      "📅 Fecha: " ++ fieldDateText h record "show_date",
      "📊 Status: " ++ (firstPresent [JsVal.lookup "status" record] (.str "N/A")).toStr h ]
  | .booking, _ => []
  | .releases, record =>
    [ "🎵 Artista: " ++ (firstPresent [(JsVal.lookup "artist" record).getOpt "name",
        JsVal.lookup "artist_name" record] (.str "Artista Desconocido")).toStr h,
      "📀 Título: " ++ (firstPresent [JsVal.lookup "title" record, JsVal.lookup "name" record]
        (.str "Título Desconocido")).toStr h,
      "📋 Tipo: " ++ (firstPresent [JsVal.lookup "type" record,
        JsVal.lookup "release_type" record] (.str "Release")).toStr h,
      "🎭 Género: " ++ (firstPresent [JsVal.lookup "genre" record,
        (JsVal.lookup "artist" record).getOpt "genre"] (.str "N/A")).toStr h,
      "🏷️  Sello: " ++ (firstPresent [JsVal.lookup "label" record,
        JsVal.lookup "label_name" record] (.str "N/A")).toStr h ]

/-- The long text of a release: `description`, else `overview`. -/
def releaseText (record : List (String × JsVal)) : JsVal :=
  firstPresent [JsVal.lookup "description" record, JsVal.lookup "overview" record] (.str "")

/-- The Spotify link of a release: `spotify_url`, else `external_urls.spotify`. -/
def releaseSpotify (record : List (String × JsVal)) : JsVal :=
  firstPresent [JsVal.lookup "spotify_url" record,
    (JsVal.lookup "external_urls" record).getOpt "spotify"] (.str "")

/-- The Apple Music link of a release: `apple_url`, else `external_urls.apple`. -/
def releaseApple (record : List (String × JsVal)) : JsVal :=
  firstPresent [JsVal.lookup "apple_url" record,
    (JsVal.lookup "external_urls" record).getOpt "apple"] (.str "")

/-- The cover of a release: `cover`, else `cover_url`, else `artwork_url`. -/
def releaseCover (record : List (String × JsVal)) : JsVal :=
  firstPresent [JsVal.lookup "cover" record, JsVal.lookup "cover_url" record,
    JsVal.lookup "artwork_url" record] (.str "")

/-- The entries that the body of a job's item has only when the record has their
field, in the order of the body.  An entry of a release with an empty label and an
empty text is a blank line. -/
def Job.optionalEntries (h : Host) : Job → List (String × JsVal) → List BodyEntry
  | .live, _ => []
  | .management, record =>
    [ ⟨"🎵 Género: ", hasField record "artist_genre", fieldText h record "artist_genre"⟩,
      ⟨"👥 Aforo: ", hasField record "aforo", (JsVal.lookup "aforo" record).toLocaleStr h⟩,
      ⟨"🎭 Formato: ", hasField record "formato", fieldText h record "formato"⟩,
      ⟨"🎪 Festival: ", hasField record "nombre_festi", fieldText h record "nombre_festi"⟩,
      ⟨"💰 Garantía: ", hasField record "garantia", fieldText h record "garantia"⟩,
      ⟨"📋 Acuerdo: ", hasField record "acuerdo", fieldText h record "acuerdo"⟩,
      ⟨"📈 Overage: ", hasField record "overage", fieldText h record "overage"⟩,
      ⟨"🤝 Com. Promotor: ", hasField record "com_promotor", fieldText h record "com_promotor"⟩,
      ⟨"⚖️ Spliteo: ", hasField record "spliteo", fieldText h record "spliteo"⟩ ]
  | .booking, record => bookingEntries h record
  | .releases, record =>
    [ ⟨"", (releaseText record).truthy, ""⟩,
      ⟨"📝 Descripción:", (releaseText record).truthy, ""⟩,
      ⟨"", (releaseText record).truthy, (releaseText record).toStr h⟩,
      ⟨"", (releaseSpotify record).truthy, ""⟩,
      ⟨"🎧 Spotify: ", (releaseSpotify record).truthy, (releaseSpotify record).toStr h⟩,
      ⟨"🍎 Apple Music: ", (releaseApple record).truthy, (releaseApple record).toStr h⟩,
      ⟨"", (releaseCover record).truthy, ""⟩,
      ⟨"🖼️  Portada: ", (releaseCover record).truthy, (releaseCover record).toStr h⟩ ]

/-- Every line followed by a newline. -/
def terminatedLines : List String → String
  | [] => ""
  | line :: rest => line ++ "\n" ++ terminatedLines rest

/-- Every line preceded by a newline. -/
def prefixedLines : List String → String
  | [] => ""
  | line :: rest => "\n" ++ line ++ prefixedLines rest

/-- How a job makes a body of its lines: Management ends every line with a newline,
the other jobs put one newline between two lines. -/
def Job.joinBody : Job → List String → String
  | .management, lines => terminatedLines lines
  | _, lines => "\n".intercalate lines

/-- The number of lines that the body of a job's item always has. -/
def Job.fixedLineCount : Job → Nat
  | .live => 7
  | .management => 5
  | .booking => 0
  | .releases => 5

/-- A release that has a date and no other field. -/
def bareRelease : List (String × JsVal) := [("release_date", .str "2024-05-01")]

/-- A booking row with an address, a city and a country. -/
def addressedBooking : List (String × JsVal) :=
  [("artist_name", .str "X"), ("venue_name", .str "Y"), ("venue_address", .str "Calle 1"),
   ("city", .str "Z"), ("country", .str "AR"), ("start_date", .str "2024-05-01")]

/-- A live show dated 10 March 2024. -/
def springForwardShow : List (String × JsVal) :=
  [("show_date", .str "2024-03-10"), ("artist", .obj [("name", .str "X"), ("genre", .str "Rock")]),
   ("venue", .obj [("name", .str "Y")]), ("city", .str "Z"), ("country", .str "AR"),
   ("ticketera", .obj [("name", .str "T"), ("url", .str "https://t.example")])]

/-- The array of records in a response body, in the words of the specification: the
body itself when it is an array; else what its `data` field holds when that is
present, else what its `releases` field holds when that is present, else the empty
array. -/
def unwrapReleases (body : JsVal) : JsVal :=
  match body with
  | .arr items => .arr items
  | _ => firstPresent [body.getOpt "data", body.getOpt "releases"] (.arr [])

/-- The response `{data: {total: 0}}`: a wrapping object whose `data` is not an array. -/
def nestedResponse : JsVal := .obj [("data", .obj [("total", .num 0)])]

/-- The response `{releases: [datedRelease]}`. -/
def wrappedResponse : JsVal := .obj [("releases", .arr [datedRelease])]

/-- The booking row of the end-to-end scenario with two more columns, which the
transformer does not read. -/
def bookingScenarioWithIds : List (String × JsVal) :=
  ("id", .num 7) :: bookingScenario ++ [("updated_at", .str "2024-04-01T10:00:00Z")]

/-! ## Services that fail -/

/-- The in-memory service, except that `calendars.get` throws for the given ids. -/
def memServiceWithout (missing : List String) : Service MemWorld :=
  { memService with
    calendarsGet := fun calendarId w =>
      if calendarId ∈ missing then (.error ⟨"Error", "Not Found"⟩, w)
      else memService.calendarsGet calendarId w }

/-- The in-memory service, except that `pool.end()` throws. -/
def memServiceFailingPoolEnd : Service MemWorld :=
  { memService with poolEnd := fun w => (.error ⟨"Error", "pool is closed"⟩, w) }

/-- The calendar ids of the `events.delete` and `events.insert` calls of a trace, in
call order. -/
def mutatedCalendars : List Effect → List String
  | [] => []
  | Effect.eventsDelete calendarId _ _ :: rest => calendarId :: mutatedCalendars rest
  | Effect.eventsInsert calendarId _ _ :: rest => calendarId :: mutatedCalendars rest
  | _ :: rest => mutatedCalendars rest

/-- A world like `worldWithFeeds`, whose tables `mgm_events` and `booking_events` hold
the given rows and whose two APIs answer with an empty array. -/
def worldWithRows (management booking : List (List (String × JsVal))) : MemWorld :=
  { worldWithFeeds (.arr []) (.arr []) with
    rows := fun table => if table = "mgm_events" then .ok management else .ok booking }

/-- A world like `worldWithFeeds`, whose two APIs and two tables all fail. -/
def worldWithFailingSources : MemWorld :=
  { worldWithFeeds (.arr []) (.arr []) with
    feed := fun _ => .error ⟨"Error", "Request failed with status code 500"⟩
    rows := fun _ => .error ⟨"Error", "connection refused"⟩ }

/-! ## Duplicates among the existing events (Live) -/

/-- The member `dateTime` of the `start` of an item. -/
def EventTime.dateTime? : EventTime → Option String
  | .timed dateTime _ => some dateTime
  | .allDay _ => none

/-- The comparison `existing.summary === newEvent.summary`. -/
def sameSummary (existing : Option String) (summary : JsVal) : Bool :=
  match existing, summary with
  | some a, .str b => decide (a = b)
  | none, .undefined => true
  | _, _ => false

/-- The method `ServiceAccountCalendarUpdater.eventExists(newEvent, existingEvents)`:
`existingEvents.some(existing => existing.summary === newEvent.summary &&
existing.start?.dateTime === newEvent.start?.dateTime)`. -/
def eventExists (newEvent : CalendarItem) (existingEvents : List ExistingItem) : Bool :=
  existingEvents.any (fun existing =>
    sameSummary existing.summary newEvent.summary
      && decide (existing.startDateTime = newEvent.start.dateTime?))

/-- The text of `event.summary` in a template literal. -/
def ExistingItem.summaryText (e : ExistingItem) : String :=
  match e.summary with
  | some s => s
  | none => "undefined"

/-- The text of `event.start?.dateTime || event.start?.date` in a template literal. -/
def ExistingItem.startText (e : ExistingItem) : String :=
  let start : Option String :=
    match e.startDateTime with
    | some dateTime => if dateTime ≠ "" then some dateTime else e.startDate
    | none => e.startDate
  match start with
  | some s => s
  | none => "undefined"

/-- The key of `clearDuplicateEvents`:
`${event.summary}|${event.start?.dateTime || event.start?.date}`. -/
def eventKey (e : ExistingItem) : String := e.summaryText ++ "|" ++ e.startText

/-- The loop `for (const event of existingEvents) { if (seen.has(key))
duplicates.push(event); else seen.add(key) }` of `clearDuplicateEvents`, from a given
`seen`: the events pushed to `duplicates`. -/
def duplicatesOf : List ExistingItem → List String → List ExistingItem
  | [], _ => []
  | event :: rest, seen =>
    if eventKey event ∈ seen then event :: duplicatesOf rest seen
    else duplicatesOf rest (eventKey event :: seen)

/-- The events that the same loop does not push to `duplicates`. -/
def keptOf : List ExistingItem → List String → List ExistingItem
  | [], _ => []
  | event :: rest, seen =>
    if eventKey event ∈ seen then keptOf rest seen
    else event :: keptOf rest (eventKey event :: seen)

/-- The loop `for (const duplicate of duplicates) { try { await delete; deletedCount++ }
catch { log } }` of `clearDuplicateEvents`. -/
def deleteDuplicates {σ : Type} (S : Service σ) (calendarId : String) :
    List ExistingItem → Nat → Eff σ Nat
  | [], deletedCount => Eff.ret deletedCount
  | duplicate :: rest, deletedCount => do
    let r ← Eff.attempt
      (Eff.call (S.eventsDelete calendarId duplicate.id)
        (Effect.eventsDelete calendarId duplicate.id))
    match r with
    | .ok _ => deleteDuplicates S calendarId rest (deletedCount + 1)
    | .error _ => deleteDuplicates S calendarId rest deletedCount

/-- The method `ServiceAccountCalendarUpdater.clearDuplicateEvents`: `getExistingEvents`
(one `events.list` call with `maxResults: 2500`), the search for duplicates, and the
delete loop when there is one.  The source returns nothing; the `deletedCount` it
prints is returned here (0 when it returns early). -/
def clearDuplicateEvents {σ : Type} (S : Service σ) (calendarId : String) : Eff σ Nat := do
  let existingEvents ← Eff.call (S.eventsList calendarId 2500)
    (Effect.eventsList calendarId 2500)
  let duplicates := duplicatesOf existingEvents []
  if duplicates.length = 0 then pure 0
  else deleteDuplicates S calendarId duplicates 0

/-- An event has a title, and the text of its start has no `|`. -/
def ExistingItem.wellFormed (e : ExistingItem) : Prop :=
  e.summary.isSome = true ∧ '|' ∉ e.startText.data

/-- An all-day event without title on 1 May 2024. -/
def untitledEvent : ExistingItem := ⟨"e1", none, none, some "2024-05-01"⟩

/-- An all-day event titled `undefined` on 1 May 2024. -/
def eventTitledUndefined : ExistingItem := ⟨"e2", some "undefined", none, some "2024-05-01"⟩

/-- Three all-day events titled `X - Y`: two on 1 May 2024 and one on 1 June 2024. -/
def repeatedEvents : List ExistingItem :=
  [⟨"a1", some "X - Y", none, some "2024-05-01"⟩, ⟨"a2", some "X - Y", none, some "2024-06-01"⟩,
   ⟨"a3", some "X - Y", none, some "2024-05-01"⟩]

/-- A world whose calendar `"cal"` holds the given events, none of them locked. -/
def worldHolding (events : List ExistingItem) : MemWorld :=
  { worldWithEvents 0 with events := fun c => if c = "cal" then events else [] }

/-- An all-day item titled `X - Y` on 1 June 2024. -/
def juneItem : CalendarItem :=
  { summary := .str "X - Y"
    description := ""
    start := .allDay "2024-06-01"
    end_ := .allDay "2024-06-02"
    location := .undefined
    status := "confirmed"
    visibility := "public"
    colorId := .str "6" }

/-- A timed item titled `X - Y` that starts on 1 June 2024 at 21:00 UTC. -/
def juneEveningItem : CalendarItem :=
  { juneItem with
    start := .timed "2024-06-01T21:00:00.000Z" "America/Argentina/Buenos_Aires"
    end_ := .timed "2024-06-02T00:00:00.000Z" "America/Argentina/Buenos_Aires" }

/-! ## The category tag of a management event in the words of the specification -/

/-- The `formato` of a management event contains `acústico`, ignoring case. -/
def isAcoustic (record : List (String × JsVal)) : Bool :=
  match JsVal.lookup "formato" record with
  | .str s => includes (toLowerCase s) "acústico"
  | _ => false

/-- The `aforo` of a management event is present and greater than 10000. -/
def isLargeEvent (h : Host) (record : List (String × JsVal)) : Bool :=
  hasField record "aforo" && (JsVal.lookup "aforo" record).gtNum h 10000

/-- A management row of a confirmed acoustic show in a theatre. -/
def acousticEvent : List (String × JsVal) :=
  [("artist_name", .str "X"), ("show_date", .str "2024-05-01"), ("city", .str "Z"),
   ("country", .str "AR"), ("formato", .str "Set ACÚSTICO"), ("aforo", .num 20000),
   ("status", .str "confirmed")]

/-! ## The steps of a job before the Record Filter -/

namespace Job

/-- The calendar resolution of a job, with the job's configuration. -/
def resolve {σ : Type} (S : Service σ) : Job → Eff σ String
  | live => findMalbecCalendar S liveConfig
  | management => findManagementCalendar S mgmConfig
  | booking => findBookingCalendar S bookingConfig
  | releases => findReleasesCalendar S releasesConfig

/-- The Source Reader of a job, run for its outcome. -/
def readSource {σ : Type} (S : Service σ) (h : Host) : Job → Eff σ Unit
  | live => do let _ ← getShows S; pure ()
  | management => do let _ ← getManagementEvents S; pure ()
  | booking => do let _ ← getBookingEvents S; pure ()
  | releases => do let _ ← getReleases S h; pure ()

/-- The state in which a job calls its Source Reader: after authentication and
calendar resolution. -/
def stateBeforeRead {σ : Type} (S : Service σ) (j : Job) (s : σ) : σ :=
  (j.resolve S (setupAuthentication S s).st).st

/-- The member of the scoreboard that `updateAllCalendars` sets for a job. -/
def slot : Job → Scoreboard → Bool
  | live, b => b.live
  | management, b => b.management
  | booking, b => b.booking
  | releases, b => b.releases

/-- The state in which `updateAllCalendars` starts a job: the state that the jobs
before it leave. -/
def startState {σ : Type} (S : Service σ) (h : Host) (s : σ) : Job → σ
  | live => s
  | management => (ServiceAccountCalendarUpdater.updateCalendar S h s).st
  | booking => (ManagementCalendarUpdater.updateCalendar S h
      (ServiceAccountCalendarUpdater.updateCalendar S h s).st).st
  | releases => (BookingCalendarUpdater.updateCalendar S h
      (ManagementCalendarUpdater.updateCalendar S h
        (ServiceAccountCalendarUpdater.updateCalendar S h s).st).st).st

end Job

/-! ## Records that the filters accept and the transformers refuse -/

/-- A management row with the four mandatory fields, whose `show_date` is no date. -/
def malformedManagementEvent : List (String × JsVal) :=
  [("artist_name", .str "A"), ("show_date", .str "not-a-date"), ("city", .str "Buenos Aires"),
   ("country", .str "AR")]

/-- A management row with the four mandatory fields and nothing else. -/
def bareManagementEvent : List (String × JsVal) :=
  [("artist_name", .str "A"), ("show_date", .str "2024-05-01"), ("city", .str "Buenos Aires"),
   ("country", .str "AR")]

/-- The same row as the database hands it over: the absent columns are `null`. -/
def bareManagementRow : List (String × JsVal) :=
  bareManagementEvent ++ [("venue_name", .null), ("nombre_festi", .null)]

/-- A booking row whose `start_date` is no date. -/
def malformedBooking : List (String × JsVal) := [("start_date", .str "not-a-date")]

/-- A show with the five mandatory fields of the Live filter and no `ticketera`. -/
def showWithoutTicketera : JsVal :=
  .obj [("artist", .obj [("name", .str "A"), ("genre", .str "Rock")]),
        ("venue", .obj [("name", .str "V")]),
        ("show_date", .str "2024-05-01"), ("city", .str "Buenos Aires"), ("country", .str "AR")]

/-- The counts that steps 1 to 4 of a job print: valid, past and future records. -/
def Prepared.counts (p : Prepared) : Nat × Option Nat × Option Nat :=
  (p.valid.length, p.pastCount, p.futureCount)

/-! ## Releases that the filter accepts -/

/-- The release type that `formatReleaseToEvent` shows: `type`, else `release_type`,
else `Release`. -/
def releaseTypeOf (record : List (String × JsVal)) : JsVal :=
  firstPresent [JsVal.lookup "type" record, JsVal.lookup "release_type" record] (.str "Release")

/-- The release type of a record is a text. -/
def releaseTypeIsText (record : List (String × JsVal)) : Bool :=
  match releaseTypeOf record with
  | .str _ => true
  | _ => false

/-- The day after the date of a release, as `formatReleaseToEvent` computes it:
`endDate.setDate(endDate.getDate() + 1)` on a copy of the release date. -/
def releaseEndDate (h : Host) (record : List (String × JsVal)) : JsDate :=
  JsDate.setDate h (JsVal.newDate h (firstReleaseDate record))
    (addInt (JsDate.getDate h (JsVal.newDate h (firstReleaseDate record))) 1)

/-- A host like `utcHost` whose `Date.parse` also reads the expanded-year text of the
last instant of `Date`, 8640000000000000 ms. -/
def expandedYearHost : Host :=
  { utcHost with
    dateParse := fun s =>
      if s = "+275760-09-13T00:00:00.000Z" then some 8640000000000000 else isoDateParse s }

/-- A release dated on the last day a `Date` can hold. -/
def lastDayRelease : List (String × JsVal) :=
  [("title", .str "T"), ("artist_name", .str "X"), ("type", .str "album"),
   ("release_date", .str "+275760-09-13T00:00:00.000Z")]

/-! ## A calendar that refuses every write -/

/-- The in-memory service, except that every `events.delete` and every
`events.insert` call throws. -/
def memServiceRefusingWrites : Service MemWorld :=
  { memService with
    eventsDelete := fun _ _ w => (.error ⟨"Error", "Forbidden"⟩, w)
    eventsInsert := fun _ _ w => (.error ⟨"Error", "Forbidden"⟩, w) }

/-! ## Item Loader and Collection Resetter in the words of the specification

The insert and delete calls that the specification asks for, written as calls on the
service with no reference to the loops of the source: the loops are compared with
them. -/

/-- The calls `events.insert` for the items of a list, issued on the service one
after another, each in the state that the call before it left: whether each call
returned (`true`) or threw (`false`). -/
def insertOutcomes {σ : Type} (S : Service σ) (calendarId : String) :
    List CalendarItem → σ → List Bool
  | [], _ => []
  | item :: rest, s =>
    (S.eventsInsert calendarId item s).1.toBool
      :: insertOutcomes S calendarId rest (S.eventsInsert calendarId item s).2

/-- The state in which those insert calls leave the service. -/
def stateAfterInserts {σ : Type} (S : Service σ) (calendarId : String) :
    List CalendarItem → σ → σ
  | [], s => s
  | item :: rest, s => stateAfterInserts S calendarId rest (S.eventsInsert calendarId item s).2

/-- The calls `events.delete` for the items of a listing, issued on the service one
after another, each in the state that the call before it left: whether each call
returned (`true`) or threw (`false`). -/
def deleteOutcomes {σ : Type} (S : Service σ) (calendarId : String) :
    List ExistingItem → σ → List Bool
  | [], _ => []
  | item :: rest, s =>
    (S.eventsDelete calendarId item.id s).1.toBool
      :: deleteOutcomes S calendarId rest (S.eventsDelete calendarId item.id s).2

/-- The state in which those delete calls leave the service. -/
def stateAfterDeletes {σ : Type} (S : Service σ) (calendarId : String) :
    List ExistingItem → σ → σ
  | [], s => s
  | item :: rest, s =>
    stateAfterDeletes S calendarId rest (S.eventsDelete calendarId item.id s).2

/-- The in-memory service, except that it refuses to insert an all-day item. -/
def memServiceTimedOnly : Service MemWorld :=
  { memService with
    eventsInsert := fun calendarId item w =>
      match item.start with
      | .allDay _ => (.error ⟨"Error", "Bad Request"⟩, w)
      | .timed _ _ => memService.eventsInsert calendarId item w }

/-! ## What a job sends, in the words of the specification -/

/-- The items that a job sends to the calendar for its valid records, each record
transformed on its own by the job's transformer: in the Releases job the items of the
records whose transformation returns; in the other jobs the items of all the records,
and no item at all when a transformation throws. -/
def Job.itemsOf (h : Host) (j : Job) (valid : List JsVal) : List CalendarItem :=
  match j with
  | .releases => formattedItems h valid
  | _ => (mapE (j.transformer h) valid).toOption.getD []

/-- The world that a first run of the Live job on one well-formed show leaves, at a
later time of the clock (in 2027, when the show of 2024 is past). -/
def worldAfterFirstRun : MemWorld :=
  { (ServiceAccountCalendarUpdater.updateCalendar memService utcHost
      (worldWithFeeds (.arr [goodShow]) (.arr []))).st with clock := 1800000000000 }

/-! ## Records for the category tag of a management event -/

/-- A management row whose `formato` is the number 5. -/
def numericFormatoEvent : List (String × JsVal) :=
  [("artist_name", .str "X"), ("show_date", .str "2024-05-01"), ("city", .str "Z"),
   ("country", .str "AR"), ("formato", .num 5), ("status", .str "confirmed")]

/-- A confirmed management row whose `aforo` is the given value. -/
def eventWithAforo (aforo : JsVal) : List (String × JsVal) :=
  [("artist_name", .str "X"), ("show_date", .str "2024-05-01"), ("city", .str "Z"),
   ("country", .str "AR"), ("aforo", aforo), ("status", .str "confirmed")]

/-! ## The lines of a body, in the words of the specification -/

/-- The lines of a text: its pieces between line breaks. -/
def textLines (s : String) : List String := (splitChars '\n' s.data).map String.mk

/-- The lines of a text that are not empty. -/
def nonBlankLines (s : String) : List String :=
  (textLines s).filter (fun line => decide (line ≠ ""))

/-- The labeled fields of a booking body. -/
def bookingFields : List String :=
  ["artist_name", "venue_name", "city", "country", "show_type", "festival_name", "category",
   "status", "capacity", "tickets_sold", "price", "currency", "ticketera_name",
   "ticketera_url", "sale_date", "fecha_preventa", "comments"]

/-- The number of labeled fields of a booking body that a record has. -/
def presentFieldCount (record : List (String × JsVal)) : Nat :=
  (bookingFields.filter (fun key => hasField record key)).length

/-- A booking row whose comment has two lines. -/
def bookingWithTwoLineComment : List (String × JsVal) :=
  [("start_date", .str "2024-05-01"), ("comments", .str "first\nsecond")]

/-! ## Theorems: the loops of the Collection Resetter and the Item Loader -/

theorem insertLoop_spec {σ : Type} (S : Service σ) (calendarId : String)
    (events : List CalendarItem) (c : InsertResults) (s : σ) :
    ∃ r : InsertResults, (insertLoop S calendarId events c s).out = .ok r ∧
      insertAttempts (insertLoop S calendarId events c s).log = events ∧
      (insertLoop S calendarId events c s).log.length = events.length ∧
      r.successCount + r.errorCount = c.successCount + c.errorCount + events.length ∧
      r.errorCount = c.errorCount + insertFailures (insertLoop S calendarId events c s).log ∧
      r.skippedCount = c.skippedCount := by
  induction events generalizing c s with
  | nil => exact ⟨c, rfl, rfl, rfl, rfl, rfl, rfl⟩
  | cons event rest ih =>
    cases h : (S.eventsInsert calendarId event s).1 with
    | ok resp =>
      obtain ⟨r, h1, h2, h3, h4, h5, h6⟩ :=
        ih { c with successCount := c.successCount + 1 } (S.eventsInsert calendarId event s).2
      refine ⟨r, ?_, ?_, ?_, ?_, ?_, ?_⟩ <;>
        simp_all [insertLoop, bind, Eff.bind, Eff.attempt, Eff.call, insertAttempts,
          insertFailures, Except.toBool]
      all_goals omega
    | error e =>
      obtain ⟨r, h1, h2, h3, h4, h5, h6⟩ :=
        ih { c with errorCount := c.errorCount + 1 } (S.eventsInsert calendarId event s).2
      refine ⟨r, ?_, ?_, ?_, ?_, ?_, ?_⟩ <;>
        simp_all [insertLoop, bind, Eff.bind, Eff.attempt, Eff.call, insertAttempts,
          insertFailures, Except.toBool]
      all_goals omega

theorem insertEvents_spec {σ : Type} (S : Service σ) (calendarId : String)
    (events : List CalendarItem) (s : σ) :
    ∃ r : InsertResults, (insertEvents S calendarId events s).out = .ok r ∧
      insertAttempts (insertEvents S calendarId events s).log = events ∧
      (insertEvents S calendarId events s).log.length = events.length ∧
      r.successCount + r.errorCount = events.length ∧
      r.errorCount = insertFailures (insertEvents S calendarId events s).log ∧
      r.successCount + insertFailures (insertEvents S calendarId events s).log = events.length ∧
      r.skippedCount = 0 := by
  obtain ⟨r, h1, h2, h3, h4, h5, h6⟩ := insertLoop_spec S calendarId events ⟨0, 0, 0⟩ s
  refine ⟨r, h1, h2, h3, ?_, ?_, ?_, h6⟩
  · simpa using h4
  · simpa using h5
  · simp at h4 h5; rw [insertEvents]; omega

theorem deleteLoop_spec {σ : Type} (S : Service σ) (calendarId : String)
    (items : List ExistingItem) (c : ClearCounts) (s : σ) :
    ∃ r : ClearCounts, (deleteLoop S calendarId items c s).out = .ok r ∧
      deleteAttempts (deleteLoop S calendarId items c s).log = items.map ExistingItem.id ∧
      (deleteLoop S calendarId items c s).log.length = items.length ∧
      r.deletedCount + r.errorCount = c.deletedCount + c.errorCount + items.length ∧
      r.errorCount = c.errorCount + deleteFailures (deleteLoop S calendarId items c s).log := by
  induction items generalizing c s with
  | nil => exact ⟨c, rfl, rfl, rfl, rfl, rfl⟩
  | cons event rest ih =>
    cases h : (S.eventsDelete calendarId event.id s).1 with
    | ok resp =>
      obtain ⟨r, h1, h2, h3, h4, h5⟩ :=
        ih { c with deletedCount := c.deletedCount + 1 } (S.eventsDelete calendarId event.id s).2
      refine ⟨r, ?_, ?_, ?_, ?_, ?_⟩ <;>
        simp_all [deleteLoop, bind, Eff.bind, Eff.attempt, Eff.call, deleteAttempts,
          deleteFailures, Except.toBool]
      all_goals omega
    | error e =>
      obtain ⟨r, h1, h2, h3, h4, h5⟩ :=
        ih { c with errorCount := c.errorCount + 1 } (S.eventsDelete calendarId event.id s).2
      refine ⟨r, ?_, ?_, ?_, ?_, ?_⟩ <;>
        simp_all [deleteLoop, bind, Eff.bind, Eff.attempt, Eff.call, deleteAttempts,
          deleteFailures, Except.toBool]
      all_goals omega

/-- On the in-memory service, deleting the first events of a calendar one by one
(none locked) leaves exactly the events after them. -/
theorem deleteLoop_mem (calendarId : String) (ys zs : List ExistingItem) (c : ClearCounts)
    (w : MemWorld) (hw : w.events calendarId = ys ++ zs) (hl : w.locked = []) :
    ((deleteLoop memService calendarId ys c w).st.events calendarId = zs) ∧
    (deleteLoop memService calendarId ys c w).out
      = .ok ⟨c.deletedCount + ys.length, c.errorCount⟩ ∧
    deleteFailures (deleteLoop memService calendarId ys c w).log = 0 := by
  induction ys generalizing c w with
  | nil => simp_all [deleteLoop, Eff.ret, deleteFailures]
  | cons y rest ih =>
    have hstep : memService.eventsDelete calendarId y.id w
        = (.ok (), { w with events := fun c =>
            if c = calendarId then removeEvent y.id (w.events c) else w.events c }) := by
      simp [memService, hl, hw]
    obtain ⟨h1, h2, h3⟩ := ih { c with deletedCount := c.deletedCount + 1 }
      { w with events := fun c =>
            if c = calendarId then removeEvent y.id (w.events c) else w.events c }
      (by simp [hw, removeEvent]) hl
    refine ⟨?_, ?_, ?_⟩
    · simpa [deleteLoop, bind, Eff.bind, Eff.attempt, Eff.call, hstep] using h1
    · simp [deleteLoop, bind, Eff.bind, Eff.attempt, Eff.call, hstep, h2]; omega
    · simpa [deleteLoop, bind, Eff.bind, Eff.attempt, Eff.call, hstep, deleteFailures,
        Except.toBool] using h3

theorem clearCalendar_mem (calendarId : String) (w : MemWorld) (hl : w.locked = []) :
    (clearCalendar memService calendarId w).st.events calendarId
      = (w.events calendarId).drop 2500 ∧
    (clearCalendar memService calendarId w).out
      = .ok ⟨min (w.events calendarId).length 2500, 0⟩ ∧
    deleteFailures (clearCalendar memService calendarId w).log = 0 := by
  have hsplit : w.events calendarId
      = (w.events calendarId).take 2500 ++ (w.events calendarId).drop 2500 :=
    (List.take_append_drop _ _).symm
  obtain ⟨h1, h2, h3⟩ := deleteLoop_mem calendarId _ _ ⟨0, 0⟩ w hsplit hl
  refine ⟨?_, ?_, ?_⟩
  · simpa [clearCalendar, bind, Eff.bind, Eff.call, memService] using h1
  · simpa [clearCalendar, bind, Eff.bind, Eff.call, memService, Nat.min_comm] using h2
  · simpa [clearCalendar, bind, Eff.bind, Eff.call, memService, deleteFailures] using h3


/-! ## Theorems: Item Loader and Collection Resetter (C1, C2, C3) -/

theorem insertLoop_outcomes {σ : Type} (S : Service σ) (calendarId : String)
    (events : List CalendarItem) (c : InsertResults) (s : σ) :
    (insertLoop S calendarId events c s).out
      = .ok ⟨c.successCount + (insertOutcomes S calendarId events s).count true,
          c.errorCount + (insertOutcomes S calendarId events s).count false, c.skippedCount⟩ ∧
    (insertLoop S calendarId events c s).log
      = List.zipWith (fun item ok => Effect.eventsInsert calendarId item ok) events
          (insertOutcomes S calendarId events s) ∧
    (insertLoop S calendarId events c s).st = stateAfterInserts S calendarId events s ∧
    (insertOutcomes S calendarId events s).length = events.length := by
  induction events generalizing c s with
  | nil => exact ⟨rfl, rfl, rfl, rfl⟩
  | cons event rest ih =>
    cases h : (S.eventsInsert calendarId event s).1 with
    | ok resp =>
      obtain ⟨h1, h2, h3, h4⟩ :=
        ih { c with successCount := c.successCount + 1 } (S.eventsInsert calendarId event s).2
      refine ⟨?_, ?_, ?_, ?_⟩
      · simp only [insertLoop, bind, Eff.bind, Eff.attempt, Eff.call, h, h1, insertOutcomes,
          Except.toBool]
        simp [List.count_cons]
        omega
      · simp only [insertLoop, bind, Eff.bind, Eff.attempt, Eff.call, h, h2, insertOutcomes,
          Except.toBool, List.zipWith_cons_cons, List.singleton_append]
      · simp only [insertLoop, bind, Eff.bind, Eff.attempt, Eff.call, h, h3, stateAfterInserts]
      · simp only [insertOutcomes, List.length_cons, h4]
    | error e =>
      obtain ⟨h1, h2, h3, h4⟩ :=
        ih { c with errorCount := c.errorCount + 1 } (S.eventsInsert calendarId event s).2
      refine ⟨?_, ?_, ?_, ?_⟩
      · simp only [insertLoop, bind, Eff.bind, Eff.attempt, Eff.call, h, h1, insertOutcomes,
          Except.toBool]
        simp [List.count_cons]
        omega
      · simp only [insertLoop, bind, Eff.bind, Eff.attempt, Eff.call, h, h2, insertOutcomes,
          Except.toBool, List.zipWith_cons_cons, List.singleton_append]
      · simp only [insertLoop, bind, Eff.bind, Eff.attempt, Eff.call, h, h3, stateAfterInserts]
      · simp only [insertOutcomes, List.length_cons, h4]

theorem deleteLoop_outcomes {σ : Type} (S : Service σ) (calendarId : String)
    (items : List ExistingItem) (c : ClearCounts) (s : σ) :
    (deleteLoop S calendarId items c s).out
      = .ok ⟨c.deletedCount + (deleteOutcomes S calendarId items s).count true,
          c.errorCount + (deleteOutcomes S calendarId items s).count false⟩ ∧
    (deleteLoop S calendarId items c s).log
      = List.zipWith (fun item ok => Effect.eventsDelete calendarId item.id ok) items
          (deleteOutcomes S calendarId items s) ∧
    (deleteLoop S calendarId items c s).st = stateAfterDeletes S calendarId items s ∧
    (deleteOutcomes S calendarId items s).length = items.length := by
  induction items generalizing c s with
  | nil => exact ⟨rfl, rfl, rfl, rfl⟩
  | cons event rest ih =>
    cases h : (S.eventsDelete calendarId event.id s).1 with
    | ok resp =>
      obtain ⟨h1, h2, h3, h4⟩ :=
        ih { c with deletedCount := c.deletedCount + 1 } (S.eventsDelete calendarId event.id s).2
      refine ⟨?_, ?_, ?_, ?_⟩
      · simp only [deleteLoop, bind, Eff.bind, Eff.attempt, Eff.call, h, h1, deleteOutcomes,
          Except.toBool]
        simp [List.count_cons]
        omega
      · simp only [deleteLoop, bind, Eff.bind, Eff.attempt, Eff.call, h, h2, deleteOutcomes,
          Except.toBool, List.zipWith_cons_cons, List.singleton_append]
      · simp only [deleteLoop, bind, Eff.bind, Eff.attempt, Eff.call, h, h3, stateAfterDeletes]
      · simp only [deleteOutcomes, List.length_cons, h4]
    | error e =>
      obtain ⟨h1, h2, h3, h4⟩ :=
        ih { c with errorCount := c.errorCount + 1 } (S.eventsDelete calendarId event.id s).2
      refine ⟨?_, ?_, ?_, ?_⟩
      · simp only [deleteLoop, bind, Eff.bind, Eff.attempt, Eff.call, h, h1, deleteOutcomes,
          Except.toBool]
        simp [List.count_cons]
        omega
      · simp only [deleteLoop, bind, Eff.bind, Eff.attempt, Eff.call, h, h2, deleteOutcomes,
          Except.toBool, List.zipWith_cons_cons, List.singleton_append]
      · simp only [deleteLoop, bind, Eff.bind, Eff.attempt, Eff.call, h, h3, stateAfterDeletes]
      · simp only [deleteOutcomes, List.length_cons, h4]

theorem count_true_add_count_false (l : List Bool) :
    l.count true + l.count false = l.length := by
  induction l with
  | nil => rfl
  | cons b rest ih => cases b <;> simp [List.count_cons] <;> omega

theorem count_false_eq_zero (l : List Bool) (hall : ∀ ok ∈ l, ok = true) :
    l.count false = 0 := by
  rw [List.count_eq_zero]
  intro hmem
  exact absurd (hall false hmem) (by decide)

theorem removeEvent_append {kept : List ExistingItem} (y : ExistingItem)
    (rest : List ExistingItem) (hk : ∀ e ∈ kept, e.id ≠ y.id) :
    removeEvent y.id (kept ++ y :: rest) = kept ++ rest := by
  induction kept with
  | nil => simp [removeEvent]
  | cons k ks ih =>
    have hk1 : k.id ≠ y.id := hk k (List.mem_cons_self _ _)
    have := ih (fun e he => hk e (List.mem_cons_of_mem _ he))
    simp [removeEvent, hk1, this]

/-- On the in-memory service the delete loop removes the events it is given, except
those whose delete is refused: these stay where they were, and are counted as
failed. -/
theorem deleteLoop_mem_locked (calendarId : String) (kept ys zs : List ExistingItem)
    (c : ClearCounts) (w : MemWorld) (hw : w.events calendarId = kept ++ (ys ++ zs))
    (hk : ∀ e ∈ kept, e.id ∈ w.locked) :
    (deleteLoop memService calendarId ys c w).st.events calendarId
      = kept ++ (ys.filter (fun e => decide (e.id ∈ w.locked)) ++ zs) ∧
    (deleteLoop memService calendarId ys c w).out
      = .ok ⟨c.deletedCount + (ys.filter (fun e => !decide (e.id ∈ w.locked))).length,
          c.errorCount + (ys.filter (fun e => decide (e.id ∈ w.locked))).length⟩ := by
  induction ys generalizing kept c w with
  | nil => simp [deleteLoop, Eff.ret, hw]
  | cons y rest ih =>
    by_cases hy : y.id ∈ w.locked
    · have hstep : memService.eventsDelete calendarId y.id w
          = (.error ⟨"Error", "Forbidden"⟩, w) := by
        simp [memService, hy]
      obtain ⟨h1, h2⟩ := ih (kept ++ [y]) { c with errorCount := c.errorCount + 1 } w
        (by simp [hw]) (by
          intro e he
          rcases List.mem_append.1 he with he | he
          · exact hk e he
          · rw [List.mem_singleton.1 he]; exact hy)
      refine ⟨?_, ?_⟩
      · simp only [deleteLoop, bind, Eff.bind, Eff.attempt, Eff.call, hstep, h1]
        simp [hy]
      · simp only [deleteLoop, bind, Eff.bind, Eff.attempt, Eff.call, hstep, h2]
        simp [hy]
        omega
    · have hmem : y.id ∈ (w.events calendarId).map ExistingItem.id := by
        rw [hw]; simp
      have hstep : memService.eventsDelete calendarId y.id w
          = (.ok (), { w with events := fun c =>
              if c = calendarId then removeEvent y.id (w.events c) else w.events c }) := by
        simp only [memService, hy, if_false, hmem, if_true]
      have hrem : removeEvent y.id (w.events calendarId) = kept ++ (rest ++ zs) := by
        rw [hw]
        exact removeEvent_append y (rest ++ zs) (fun e he hid => hy (hid ▸ hk e he))
      obtain ⟨h1, h2⟩ := ih kept { c with deletedCount := c.deletedCount + 1 }
        { w with events := fun c =>
              if c = calendarId then removeEvent y.id (w.events c) else w.events c }
        (by simp [hrem]) hk
      refine ⟨?_, ?_⟩
      · simp only [deleteLoop, bind, Eff.bind, Eff.attempt, Eff.call, hstep, h1]
        simp [hy]
      · simp only [deleteLoop, bind, Eff.bind, Eff.attempt, Eff.call, hstep, h2]
        simp [hy]
        omega

/-- On the in-memory service `clearCalendar` leaves, of the events of the first page,
exactly those whose delete is refused, and leaves the events beyond the page. -/
theorem clearCalendar_mem_locked (calendarId : String) (w : MemWorld) :
    (clearCalendar memService calendarId w).st.events calendarId
      = ((w.events calendarId).take 2500).filter (fun e => decide (e.id ∈ w.locked))
        ++ (w.events calendarId).drop 2500 ∧
    (clearCalendar memService calendarId w).out
      = .ok ⟨(((w.events calendarId).take 2500).filter
            (fun e => !decide (e.id ∈ w.locked))).length,
          (((w.events calendarId).take 2500).filter
            (fun e => decide (e.id ∈ w.locked))).length⟩ := by
  have hsplit : w.events calendarId
      = [] ++ ((w.events calendarId).take 2500 ++ (w.events calendarId).drop 2500) := by
    simp
  obtain ⟨h1, h2⟩ := deleteLoop_mem_locked calendarId [] _ _ ⟨0, 0⟩ w hsplit (by simp)
  refine ⟨?_, ?_⟩
  · simpa [clearCalendar, bind, Eff.bind, Eff.call, memService] using h1
  · simpa [clearCalendar, bind, Eff.bind, Eff.call, memService] using h2

/-- C1: for every list of calendar items and every service, `insertEvents` returns
normally; it issues on the service exactly the insert calls of the items, one per
item and in order, each in the state the call before it left (a call that throws
does not stop the later ones), and leaves the service in the state after those calls;
it returns `successCount` the number of calls that returned, `errorCount` the number
of calls that threw and `skippedCount = 0`, so `successCount + errorCount = K`, and
`successCount = K`, `errorCount = 0` when every call returned. -/
theorem insertEvents_attempts_every_item {σ : Type} (S : Service σ) (calendarId : String)
    (events : List CalendarItem) (s : σ) :
    (insertEvents S calendarId events s).out
      = .ok ⟨(insertOutcomes S calendarId events s).count true,
          (insertOutcomes S calendarId events s).count false, 0⟩ ∧
    (insertEvents S calendarId events s).log
      = List.zipWith (fun item ok => Effect.eventsInsert calendarId item ok) events
          (insertOutcomes S calendarId events s) ∧
    (insertEvents S calendarId events s).st = stateAfterInserts S calendarId events s ∧
    (insertOutcomes S calendarId events s).length = events.length ∧
    insertAttempts (insertEvents S calendarId events s).log = events ∧
    (insertOutcomes S calendarId events s).count true
      + (insertOutcomes S calendarId events s).count false = events.length ∧
    ((∀ ok ∈ insertOutcomes S calendarId events s, ok = true) →
      (insertEvents S calendarId events s).out = .ok ⟨events.length, 0, 0⟩) := by
  obtain ⟨h1, h2, h3, h4⟩ := insertLoop_outcomes S calendarId events ⟨0, 0, 0⟩ s
  obtain ⟨_, _, h5, _⟩ := insertEvents_spec S calendarId events s
  have hsum := count_true_add_count_false (insertOutcomes S calendarId events s)
  have hout : (insertEvents S calendarId events s).out
      = .ok ⟨(insertOutcomes S calendarId events s).count true,
          (insertOutcomes S calendarId events s).count false, 0⟩ := by
    rw [insertEvents, h1]; simp
  refine ⟨hout, h2, h3, h4, ?_, by rw [hsum, h4], ?_⟩
  · obtain ⟨_, _, h5, _⟩ := insertEvents_spec S calendarId events s
    exact h5
  · intro hall
    have hzero := count_false_eq_zero _ hall
    rw [hout, hzero]
    rw [hzero, h4] at hsum
    simp only [Nat.add_zero] at hsum
    rw [hsum]

/-- C1, witness: two items on a calendar that refuses the first (all-day) and takes
the second (timed): one success, one failure, and the calendar holds the second. -/
theorem insertEvents_attempts_every_item_witness :
    insertOutcomes memServiceTimedOnly "cal" [juneItem, juneEveningItem] (worldWithEvents 0)
      = [false, true] ∧
    (insertEvents memServiceTimedOnly "cal" [juneItem, juneEveningItem] (worldWithEvents 0)).out
      = .ok ⟨1, 1, 0⟩ ∧
    (insertEvents memServiceTimedOnly "cal" [juneItem, juneEveningItem]
        (worldWithEvents 0)).st.events "cal"
      = [⟨"event-0", some "X - Y", some "2024-06-01T21:00:00.000Z", none⟩] ∧
    (insertEvents memServiceRefusingWrites "cal" [juneItem, juneEveningItem]
        (worldWithEvents 0)).out = .ok ⟨0, 2, 0⟩ ∧
    (insertEvents memService "cal" [juneItem, juneEveningItem] (worldWithEvents 0)).out
      = .ok ⟨2, 0, 0⟩ :=
  ⟨by decide,
    (insertEvents_attempts_every_item memServiceTimedOnly "cal" [juneItem, juneEveningItem]
      (worldWithEvents 0)).1.trans (by decide),
    by decide, by decide,
    (insertEvents_attempts_every_item memService "cal" [juneItem, juneEveningItem]
      (worldWithEvents 0)).2.2.2.2.2.2 (by decide)⟩

/-- C2: whenever the list call of `clearCalendar` returns the items `items`, for
every service: `clearCalendar` returns normally; after the list call it issues on the
service exactly the delete calls of the listed items, one per item and in listing
order, each in the state the call before it left (a call that throws does not stop
the loop), and leaves the service in the state after those calls; it reports
`deletedCount` the number of calls that returned and `errorCount` the number `M` of
calls that threw, so `deletedCount + errorCount = N` and `deletedCount = N - M`.  On
the in-memory calendar exactly the listed events whose delete returned are removed:
what is left of the page are the `M` events whose delete was refused. -/
theorem clearCalendar_one_delete_per_listed_item {σ : Type} (S : Service σ)
    (calendarId : String) (s : σ) (items : List ExistingItem)
    (hlist : (S.eventsList calendarId 2500 s).1 = .ok items) :
    (clearCalendar S calendarId s).out
      = .ok ⟨(deleteOutcomes S calendarId items (S.eventsList calendarId 2500 s).2).count true,
          (deleteOutcomes S calendarId items (S.eventsList calendarId 2500 s).2).count false⟩ ∧
    (clearCalendar S calendarId s).log
      = Effect.eventsList calendarId 2500 true
        :: List.zipWith (fun item ok => Effect.eventsDelete calendarId item.id ok) items
            (deleteOutcomes S calendarId items (S.eventsList calendarId 2500 s).2) ∧
    (clearCalendar S calendarId s).st
      = stateAfterDeletes S calendarId items (S.eventsList calendarId 2500 s).2 ∧
    (deleteOutcomes S calendarId items (S.eventsList calendarId 2500 s).2).length
      = items.length ∧
    deleteAttempts (clearCalendar S calendarId s).log = items.map ExistingItem.id ∧
    (deleteOutcomes S calendarId items (S.eventsList calendarId 2500 s).2).count true
      = items.length
        - (deleteOutcomes S calendarId items (S.eventsList calendarId 2500 s).2).count false ∧
    (∀ w : MemWorld,
      (clearCalendar memService calendarId w).st.events calendarId
        = ((w.events calendarId).take 2500).filter (fun e => decide (e.id ∈ w.locked))
          ++ (w.events calendarId).drop 2500 ∧
      (clearCalendar memService calendarId w).out
        = .ok ⟨(((w.events calendarId).take 2500).filter
              (fun e => !decide (e.id ∈ w.locked))).length,
            (((w.events calendarId).take 2500).filter
              (fun e => decide (e.id ∈ w.locked))).length⟩) := by
  obtain ⟨h1, h2, h3, h4⟩ :=
    deleteLoop_outcomes S calendarId items ⟨0, 0⟩ (S.eventsList calendarId 2500 s).2
  obtain ⟨_, _, h5, _⟩ :=
    deleteLoop_spec S calendarId items ⟨0, 0⟩ (S.eventsList calendarId 2500 s).2
  have hsum := count_true_add_count_false
    (deleteOutcomes S calendarId items (S.eventsList calendarId 2500 s).2)
  refine ⟨?_, ?_, ?_, h4, ?_, by omega, fun w => clearCalendar_mem_locked calendarId w⟩
  · simp only [clearCalendar, bind, Eff.bind, Eff.call, hlist, h1]
    simp
  · simp only [clearCalendar, bind, Eff.bind, Eff.call, hlist, h2, Except.toBool,
      List.singleton_append]
  · simp only [clearCalendar, bind, Eff.bind, Eff.call, hlist, h3]
  · simpa [clearCalendar, bind, Eff.bind, Eff.call, hlist, deleteAttempts] using h5

/-- C2, witness: a calendar of two events, the second of which refuses its delete: two
deletes are issued, the first event is removed and the second is left and counted as
failed. -/
theorem clearCalendar_one_delete_per_listed_item_witness :
    (memService.eventsList "cal" 2500 worldWithLockedEvent).1
      = .ok [⟨"event-0", none, none, none⟩, ⟨"event-1", none, none, none⟩] ∧
    deleteOutcomes memService "cal"
        [⟨"event-0", none, none, none⟩, ⟨"event-1", none, none, none⟩]
        (memService.eventsList "cal" 2500 worldWithLockedEvent).2 = [true, false] ∧
    (clearCalendar memService "cal" worldWithLockedEvent).out = .ok ⟨1, 1⟩ ∧
    (clearCalendar memService "cal" worldWithLockedEvent).log
      = [Effect.eventsList "cal" 2500 true, Effect.eventsDelete "cal" "event-0" true,
         Effect.eventsDelete "cal" "event-1" false] ∧
    (clearCalendar memService "cal" worldWithLockedEvent).st.events "cal"
      = [⟨"event-1", none, none, none⟩] ∧
    (clearCalendar memServiceRefusingWrites "cal" worldWithLockedEvent).out = .ok ⟨0, 2⟩ :=
  ⟨by decide, by decide,
    (clearCalendar_one_delete_per_listed_item memService "cal" worldWithLockedEvent
      [⟨"event-0", none, none, none⟩, ⟨"event-1", none, none, none⟩] (by decide)).1.trans
      (by decide),
    by rfl, by decide, by decide⟩

/-- C3 (evaluation at the failing input): on a calendar that holds 2501 events, with
every delete succeeding, `clearCalendar` lists one page of 2500, deletes those 2500
without a failure, and a list call afterwards still returns one event, `event-2500`. -/
theorem clearCalendar_leaves_events_beyond_one_page :
    ((worldWithEvents 2501).events "cal").length = 2501 ∧
    (clearCalendar memService "cal" (worldWithEvents 2501)).out = .ok ⟨2500, 0⟩ ∧
    deleteFailures (clearCalendar memService "cal" (worldWithEvents 2501)).log = 0 ∧
    (memService.eventsList "cal" 2500
        (clearCalendar memService "cal" (worldWithEvents 2501)).st).1
      = .ok [⟨"event-2500", none, none, none⟩] := by
  obtain ⟨h1, h2, h3⟩ := clearCalendar_mem "cal" (worldWithEvents 2501) rfl
  have hlen : ((worldWithEvents 2501).events "cal").length = 2501 := by
    simp [worldWithEvents]
  refine ⟨hlen, ?_, h3, ?_⟩
  · rw [h2, hlen]; rfl
  · have hdrop : ((worldWithEvents 2501).events "cal").drop 2500
        = [⟨"event-2500", none, none, none⟩] := by
      simp only [worldWithEvents, if_true, ← List.map_drop]
      have : (List.range 2501).drop 2500 = [2500] := by
        rw [show (2501 : Nat) = 2500 + 1 from rfl, List.range_succ]
        exact List.drop_left' (List.length_range 2500)
      rw [this]; rfl
    show Except.ok (List.take (min 2500 2500)
      ((clearCalendar memService "cal" (worldWithEvents 2501)).st.events "cal")) = _
    rw [h1, hdrop]; rfl
/-! ## Theorems: the orchestrator (C5, C6) -/

/-- The run of `updateAllCalendars` on four updaters, when the credential file exists:
its trace, its final state and the summary it prints. -/
theorem updateAllCalendarsWith_run {σ α β γ δ : Type} (S : Service σ)
    (liveUpdater : Eff σ α) (mgmtUpdater : Eff σ β) (bookingUpdater : Eff σ γ)
    (releasesUpdater : Eff σ δ) (s : σ) (hcred : S.credentialFileExists s = true) :
    (AllCalendarsUpdater.updateAllCalendarsWith S liveUpdater mgmtUpdater bookingUpdater
        releasesUpdater s).log
      = (liveUpdater s).log ++ (mgmtUpdater (liveUpdater s).st).log
        ++ (bookingUpdater (mgmtUpdater (liveUpdater s).st).st).log
        ++ (releasesUpdater (bookingUpdater (mgmtUpdater (liveUpdater s).st).st).st).log ∧
    (AllCalendarsUpdater.updateAllCalendarsWith S liveUpdater mgmtUpdater bookingUpdater
        releasesUpdater s).st
      = (releasesUpdater (bookingUpdater (mgmtUpdater (liveUpdater s).st).st).st).st ∧
    (AllCalendarsUpdater.updateAllCalendarsWith S liveUpdater mgmtUpdater bookingUpdater
        releasesUpdater s).out
      = .ok (some ⟨⟨(liveUpdater s).out.toBool, (mgmtUpdater (liveUpdater s).st).out.toBool,
          (bookingUpdater (mgmtUpdater (liveUpdater s).st).st).out.toBool,
          (releasesUpdater (bookingUpdater (mgmtUpdater (liveUpdater s).st).st).st).out.toBool⟩,
          (if (liveUpdater s).out.toBool then 1 else 0)
          + (if (mgmtUpdater (liveUpdater s).st).out.toBool then 1 else 0)
          + (if (bookingUpdater (mgmtUpdater (liveUpdater s).st).st).out.toBool then 1 else 0)
          + (if (releasesUpdater
              (bookingUpdater (mgmtUpdater (liveUpdater s).st).st).st).out.toBool
              then 1 else 0)⟩) := by
  simp [AllCalendarsUpdater.updateAllCalendarsWith, hcred, bind, Eff.bind, Eff.attempt, pure,
    Eff.ret, List.append_assoc]

/-- The number that `updateAllCalendars` prints counts the marks of its scoreboard. -/
theorem successCount_of_marks (a b c d : Bool) :
    (if a then 1 else 0) + (if b then 1 else 0) + (if c then 1 else 0) + (if d then 1 else 0)
      = ([a, b, c, d].filter (fun x => x)).length ∧
    (if a then 1 else 0) + (if b then 1 else 0) + (if c then 1 else 0) + (if d then 1 else 0)
      ≤ 4 ∧
    ((if a then 1 else 0) + (if b then 1 else 0) + (if c then 1 else 0) + (if d then 1 else 0)
      = 4 ↔ a = true ∧ b = true ∧ c = true ∧ d = true) := by
  cases a <;> cases b <;> cases c <;> cases d <;> decide

/-- C5: when the credential file exists, `updateAllCalendars` runs the `updateCalendar`
of the Live, the Management, the Booking and the Releases updater, each exactly once
and in this order, each from the state the one before left, whether the earlier ones
returned or threw: its trace is the four traces one after another, its final state is
the one the Releases job leaves, and it returns without throwing.  The same holds of
the method on any four updaters, whatever each of them does. -/
theorem updateAllCalendars_runs_four_jobs_in_order {σ : Type} (S : Service σ) (h : Host)
    (s : σ) (hcred : S.credentialFileExists s = true) :
    (AllCalendarsUpdater.updateAllCalendars S h s).log
      = (Job.live.updateCalendar S h (Job.live.startState S h s)).log
        ++ (Job.management.updateCalendar S h (Job.management.startState S h s)).log
        ++ (Job.booking.updateCalendar S h (Job.booking.startState S h s)).log
        ++ (Job.releases.updateCalendar S h (Job.releases.startState S h s)).log ∧
    Job.live.startState S h s = s ∧
    Job.management.startState S h s
      = (Job.live.updateCalendar S h (Job.live.startState S h s)).st ∧
    Job.booking.startState S h s
      = (Job.management.updateCalendar S h (Job.management.startState S h s)).st ∧
    Job.releases.startState S h s
      = (Job.booking.updateCalendar S h (Job.booking.startState S h s)).st ∧
    (AllCalendarsUpdater.updateAllCalendars S h s).st
      = (Job.releases.updateCalendar S h (Job.releases.startState S h s)).st ∧
    (∃ summary : Summary,
      (AllCalendarsUpdater.updateAllCalendars S h s).out = .ok (some summary)) ∧
    (∀ (α β γ δ : Type) (liveUpdater : Eff σ α) (mgmtUpdater : Eff σ β)
      (bookingUpdater : Eff σ γ) (releasesUpdater : Eff σ δ),
      (AllCalendarsUpdater.updateAllCalendarsWith S liveUpdater mgmtUpdater bookingUpdater
          releasesUpdater s).log
        = (liveUpdater s).log ++ (mgmtUpdater (liveUpdater s).st).log
          ++ (bookingUpdater (mgmtUpdater (liveUpdater s).st).st).log
          ++ (releasesUpdater (bookingUpdater (mgmtUpdater (liveUpdater s).st).st).st).log ∧
      ∃ summary : Summary,
        (AllCalendarsUpdater.updateAllCalendarsWith S liveUpdater mgmtUpdater bookingUpdater
          releasesUpdater s).out = .ok (some summary)) := by
  obtain ⟨h1, h2, h3⟩ := updateAllCalendarsWith_run S
    (ServiceAccountCalendarUpdater.updateCalendar S h)
    (ManagementCalendarUpdater.updateCalendar S h)
    (BookingCalendarUpdater.updateCalendar S h)
    (ReleasesCalendarUpdater.updateCalendar S h) s hcred
  refine ⟨h1, rfl, rfl, rfl, rfl, h2, ⟨_, h3⟩, ?_⟩
  intro α β γ δ liveUpdater mgmtUpdater bookingUpdater releasesUpdater
  obtain ⟨g1, _, g3⟩ := updateAllCalendarsWith_run S liveUpdater mgmtUpdater bookingUpdater
    releasesUpdater s hcred
  exact ⟨g1, _, g3⟩

/-- C5, witness: on a pool whose `end()` throws, the Management job throws in its
Source Reader and the Booking job throws after its reset; the Booking and Releases
jobs still run, and the method returns. -/
theorem updateAllCalendars_runs_four_jobs_in_order_witness :
    memServiceFailingPoolEnd.credentialFileExists
        (worldWithFeeds (.arr [goodShow]) (.arr [datedRelease])) = true ∧
    (AllCalendarsUpdater.updateAllCalendars memServiceFailingPoolEnd utcHost
        (worldWithFeeds (.arr [goodShow]) (.arr [datedRelease]))).log
      = (Job.live.updateCalendar memServiceFailingPoolEnd utcHost
          (Job.live.startState memServiceFailingPoolEnd utcHost
            (worldWithFeeds (.arr [goodShow]) (.arr [datedRelease])))).log
        ++ (Job.management.updateCalendar memServiceFailingPoolEnd utcHost
          (Job.management.startState memServiceFailingPoolEnd utcHost
            (worldWithFeeds (.arr [goodShow]) (.arr [datedRelease])))).log
        ++ (Job.booking.updateCalendar memServiceFailingPoolEnd utcHost
          (Job.booking.startState memServiceFailingPoolEnd utcHost
            (worldWithFeeds (.arr [goodShow]) (.arr [datedRelease])))).log
        ++ (Job.releases.updateCalendar memServiceFailingPoolEnd utcHost
          (Job.releases.startState memServiceFailingPoolEnd utcHost
            (worldWithFeeds (.arr [goodShow]) (.arr [datedRelease])))).log ∧
    mutatedCalendars (AllCalendarsUpdater.updateAllCalendars memServiceFailingPoolEnd utcHost
        (worldWithFeeds (.arr [goodShow]) (.arr [datedRelease]))).log
      = [liveConfig.calendarId, liveConfig.calendarId, bookingConfig.calendarId,
         releasesConfig.calendarId, releasesConfig.calendarId] ∧
    (AllCalendarsUpdater.updateAllCalendars memServiceFailingPoolEnd utcHost
        (worldWithFeeds (.arr [goodShow]) (.arr [datedRelease]))).out
      = .ok (some ⟨⟨true, false, false, true⟩, 2⟩) :=
  ⟨by decide,
    (updateAllCalendars_runs_four_jobs_in_order memServiceFailingPoolEnd utcHost
      (worldWithFeeds (.arr [goodShow]) (.arr [datedRelease])) (by decide)).1,
    by decide, by decide⟩

/-- C6: when the credential file exists, the scoreboard of `updateAllCalendars` marks
each of the four jobs successful exactly when its `updateCalendar`, run from the state
the jobs before it left, returned without throwing; `successCount` is the number of
such jobs, at most 4, and 4 exactly when no job threw.  The same holds of the method
on any four updaters, so for every combination of job outcomes. -/
theorem updateAllCalendars_scoreboard {σ : Type} (S : Service σ) (h : Host) (s : σ)
    (hcred : S.credentialFileExists s = true) :
    (∃ summary : Summary,
      (AllCalendarsUpdater.updateAllCalendars S h s).out = .ok (some summary) ∧
      (∀ j : Job, j.slot summary.results
        = (j.updateCalendar S h (j.startState S h s)).out.toBool) ∧
      summary.successCount
        = ([Job.live, Job.management, Job.booking, Job.releases].filter
            (fun j => (j.updateCalendar S h (j.startState S h s)).out.toBool)).length ∧
      summary.successCount ≤ 4 ∧
      (summary.successCount = 4 ↔
        ∀ j : Job, (j.updateCalendar S h (j.startState S h s)).out.toBool = true)) ∧
    (∀ (α β γ δ : Type) (liveUpdater : Eff σ α) (mgmtUpdater : Eff σ β)
      (bookingUpdater : Eff σ γ) (releasesUpdater : Eff σ δ),
      ∃ summary : Summary,
        (AllCalendarsUpdater.updateAllCalendarsWith S liveUpdater mgmtUpdater bookingUpdater
          releasesUpdater s).out = .ok (some summary) ∧
        summary.results.live = (liveUpdater s).out.toBool ∧
        summary.results.management = (mgmtUpdater (liveUpdater s).st).out.toBool ∧
        summary.results.booking
          = (bookingUpdater (mgmtUpdater (liveUpdater s).st).st).out.toBool ∧
        summary.results.releases
          = (releasesUpdater
              (bookingUpdater (mgmtUpdater (liveUpdater s).st).st).st).out.toBool ∧
        summary.successCount
          = ([summary.results.live, summary.results.management, summary.results.booking,
              summary.results.releases].filter (fun b => b)).length ∧
        summary.successCount ≤ 4 ∧
        (summary.successCount = 4 ↔
          summary.results.live = true ∧ summary.results.management = true ∧
          summary.results.booking = true ∧ summary.results.releases = true)) := by
  refine ⟨?_, ?_⟩
  · obtain ⟨_, _, h3⟩ := updateAllCalendarsWith_run S
      (ServiceAccountCalendarUpdater.updateCalendar S h)
      (ManagementCalendarUpdater.updateCalendar S h)
      (BookingCalendarUpdater.updateCalendar S h)
      (ReleasesCalendarUpdater.updateCalendar S h) s hcred
    obtain ⟨m1, m2, m3⟩ := successCount_of_marks
      (Job.live.updateCalendar S h (Job.live.startState S h s)).out.toBool
      (Job.management.updateCalendar S h (Job.management.startState S h s)).out.toBool
      (Job.booking.updateCalendar S h (Job.booking.startState S h s)).out.toBool
      (Job.releases.updateCalendar S h (Job.releases.startState S h s)).out.toBool
    refine ⟨_, h3, ?_, ?_, m2, ?_⟩
    · intro j; cases j <;> rfl
    · refine m1.trans ?_
      simp only [List.filter]
      cases (Job.live.updateCalendar S h (Job.live.startState S h s)).out.toBool <;>
      cases (Job.management.updateCalendar S h (Job.management.startState S h s)).out.toBool <;>
      cases (Job.booking.updateCalendar S h (Job.booking.startState S h s)).out.toBool <;>
      cases (Job.releases.updateCalendar S h (Job.releases.startState S h s)).out.toBool <;>
      rfl
    · refine m3.trans ⟨fun hall j => ?_, fun hall => ⟨hall .live, hall .management,
        hall .booking, hall .releases⟩⟩
      cases j
      · exact hall.1
      · exact hall.2.1
      · exact hall.2.2.1
      · exact hall.2.2.2
  · intro α β γ δ liveUpdater mgmtUpdater bookingUpdater releasesUpdater
    obtain ⟨_, _, g3⟩ := updateAllCalendarsWith_run S liveUpdater mgmtUpdater bookingUpdater
      releasesUpdater s hcred
    obtain ⟨m1, m2, m3⟩ := successCount_of_marks (liveUpdater s).out.toBool
      (mgmtUpdater (liveUpdater s).st).out.toBool
      (bookingUpdater (mgmtUpdater (liveUpdater s).st).st).out.toBool
      (releasesUpdater (bookingUpdater (mgmtUpdater (liveUpdater s).st).st).st).out.toBool
    exact ⟨_, g3, rfl, rfl, rfl, rfl, m1, m2, m3⟩

/-- C6, witness: on a pool whose `end()` throws the Management and Booking jobs throw
and the two others return: the scoreboard marks exactly Live and Releases, and 2 jobs
are counted.  When every source fails no job is marked, and on a sound service all
four are. -/
theorem updateAllCalendars_scoreboard_witness :
    (Job.live.updateCalendar memServiceFailingPoolEnd utcHost
      (Job.live.startState memServiceFailingPoolEnd utcHost
        (worldWithFeeds (.arr [goodShow]) (.arr [datedRelease])))).out.toBool = true ∧
    (Job.management.updateCalendar memServiceFailingPoolEnd utcHost
      (Job.management.startState memServiceFailingPoolEnd utcHost
        (worldWithFeeds (.arr [goodShow]) (.arr [datedRelease])))).out.toBool = false ∧
    (Job.booking.updateCalendar memServiceFailingPoolEnd utcHost
      (Job.booking.startState memServiceFailingPoolEnd utcHost
        (worldWithFeeds (.arr [goodShow]) (.arr [datedRelease])))).out.toBool = false ∧
    (Job.releases.updateCalendar memServiceFailingPoolEnd utcHost
      (Job.releases.startState memServiceFailingPoolEnd utcHost
        (worldWithFeeds (.arr [goodShow]) (.arr [datedRelease])))).out.toBool = true ∧
    (∃ summary : Summary,
      (AllCalendarsUpdater.updateAllCalendars memServiceFailingPoolEnd utcHost
        (worldWithFeeds (.arr [goodShow]) (.arr [datedRelease]))).out = .ok (some summary) ∧
      ∀ j : Job, j.slot summary.results
        = (j.updateCalendar memServiceFailingPoolEnd utcHost
            (j.startState memServiceFailingPoolEnd utcHost
              (worldWithFeeds (.arr [goodShow]) (.arr [datedRelease])))).out.toBool) ∧
    (AllCalendarsUpdater.updateAllCalendars memServiceFailingPoolEnd utcHost
        (worldWithFeeds (.arr [goodShow]) (.arr [datedRelease]))).out
      = .ok (some ⟨⟨true, false, false, true⟩, 2⟩) ∧
    (AllCalendarsUpdater.updateAllCalendars memService utcHost worldWithFailingSources).out
      = .ok (some ⟨⟨false, false, false, false⟩, 0⟩) ∧
    (AllCalendarsUpdater.updateAllCalendars memService utcHost
        (worldWithFeeds (.arr [goodShow]) (.arr [datedRelease]))).out
      = .ok (some ⟨⟨true, true, true, true⟩, 4⟩) :=
  ⟨by decide, by decide, by decide, by decide,
    (updateAllCalendars_scoreboard memServiceFailingPoolEnd utcHost
      (worldWithFeeds (.arr [goodShow]) (.arr [datedRelease])) (by decide)).1.imp
      (fun _ hs => ⟨hs.1, hs.2.1⟩),
    by decide, by decide, by decide⟩

/-! ## Theorems: which effects a method can have -/

namespace Eff

variable {σ α β : Type} {p : Effect → Bool}

theorem only_pure (a : α) : Only p (pure a : Eff σ α) := by
  intro s e he; simp [pure, ret] at he

theorem only_ret (a : α) : Only p (ret a : Eff σ α) := by
  intro s e he; simp [ret] at he

theorem only_throw (err : JsError) : Only p (throw err : Eff σ α) := by
  intro s e he; simp [throw] at he

theorem only_ofExcept (x : Except JsError α) : Only p (ofExcept x : Eff σ α) := by
  intro s e he; simp [ofExcept] at he

theorem only_warn (line : String) (hp : p (Effect.warn line) = true) :
    Only p (warn line : Eff σ Unit) := by
  intro s e he; simp [warn] at he; subst he; exact hp

theorem only_call (op : σ → Except JsError α × σ) (mk : Bool → Effect)
    (hp : ∀ b, p (mk b) = true) : Only p (call op mk) := by
  intro s e he; simp [call] at he; subst he; exact hp _

theorem only_bind {m : Eff σ α} {f : α → Eff σ β} (hm : Only p m) (hf : ∀ a, Only p (f a)) :
    Only p (m >>= f) := by
  intro s e he
  simp only [Bind.bind, bind] at he
  cases hout : (m s).out with
  | ok a =>
    simp only [hout, List.mem_append] at he
    rcases he with he | he
    · exact hm s e he
    · exact hf a _ e he
  | error err =>
    simp only [hout] at he
    exact hm s e he

theorem only_attempt {m : Eff σ α} (hm : Only p m) : Only p (attempt m) := by
  intro s e he; exact hm s e (by simpa [attempt] using he)

theorem only_tryFinally {m : Eff σ α} {fin : Eff σ Unit} (hm : Only p m) (hfin : Only p fin) :
    Only p (tryFinally m fin) := by
  intro s e he
  have hmem : e ∈ (m s).log ∨ e ∈ (fin (m s).st).log := by
    simp only [tryFinally] at he
    cases hout : (fin (m s).st).out <;> simp only [hout, List.mem_append] at he <;> exact he
  rcases hmem with h1 | h1
  · exact hm s e h1
  · exact hfin _ e h1

end Eff

theorem only_setupAuthentication {σ : Type} (S : Service σ) {p : Effect → Bool}
    (hp : ∀ b, p (Effect.authorize b) = true) : Eff.Only p (setupAuthentication S) := by
  intro s e he
  unfold setupAuthentication at he
  split at he
  · exact Eff.only_call _ _ hp s e he
  · exact Eff.only_throw _ s e he

theorem only_calendarsGet {σ : Type} (S : Service σ) (calendarId : String) {p : Effect → Bool}
    (hp : ∀ c b, p (Effect.calendarsGet c b) = true) : Eff.Only p (calendarsGet S calendarId) :=
  Eff.only_call _ _ (hp _)

theorem only_tryPossibleIds {σ : Type} (S : Service σ) (ids : List String) {p : Effect → Bool}
    (hp : ∀ c b, p (Effect.calendarsGet c b) = true) : Eff.Only p (tryPossibleIds S ids) := by
  induction ids with
  | nil => exact Eff.only_ret _
  | cons calendarId rest ih =>
    unfold tryPossibleIds
    refine Eff.only_bind (Eff.only_attempt (only_calendarsGet S _ hp)) (fun r => ?_)
    cases r with
    | ok info => exact Eff.only_pure _
    | error err => exact ih

theorem only_findMalbecCalendar {σ : Type} (S : Service σ) (cfg : CalendarConfig)
    {p : Effect → Bool} (hp : ∀ c b, p (Effect.calendarsGet c b) = true)
    (hl : ∀ b, p (Effect.calendarListList b) = true) :
    Eff.Only p (findMalbecCalendar S cfg) := by
  unfold findMalbecCalendar
  refine Eff.only_bind ?_ (fun forced => ?_)
  · split
    · refine Eff.only_bind (Eff.only_attempt (only_calendarsGet S _ hp)) (fun r => ?_)
      cases r <;> exact Eff.only_pure _
    · exact Eff.only_pure _
  · cases forced with
    | some calendarId => exact Eff.only_pure _
    | none =>
      refine Eff.only_bind (only_tryPossibleIds S _ hp) (fun direct => ?_)
      cases direct with
      | some calendarId => exact Eff.only_pure _
      | none =>
        refine Eff.only_bind (Eff.only_call _ _ hl) (fun calendars => ?_)
        split
        · exact Eff.only_pure _
        · exact Eff.only_throw _

theorem only_findManagementCalendar {σ : Type} (S : Service σ) (cfg : CalendarConfig)
    {p : Effect → Bool} (hp : ∀ c b, p (Effect.calendarsGet c b) = true) :
    Eff.Only p (findManagementCalendar S cfg) := by
  unfold findManagementCalendar
  exact Eff.only_bind (only_calendarsGet S _ hp) (fun _ => Eff.only_pure _)

theorem only_findBookingCalendar {σ : Type} (S : Service σ) (cfg : CalendarConfig)
    {p : Effect → Bool} (hp : ∀ c b, p (Effect.calendarsGet c b) = true) :
    Eff.Only p (findBookingCalendar S cfg) := by
  unfold findBookingCalendar
  split
  · exact Eff.only_bind (only_calendarsGet S _ hp) (fun _ => Eff.only_pure _)
  · exact Eff.only_throw _

theorem only_findReleasesCalendar {σ : Type} (S : Service σ) (cfg : CalendarConfig)
    {p : Effect → Bool} (hp : ∀ c b, p (Effect.calendarsGet c b) = true)
    (hl : ∀ b, p (Effect.calendarListList b) = true) :
    Eff.Only p (findReleasesCalendar S cfg) := by
  unfold findReleasesCalendar
  split
  · exact Eff.only_bind (only_calendarsGet S _ hp) (fun _ => Eff.only_pure _)
  · refine Eff.only_bind (Eff.only_call _ _ hl) (fun calendars => ?_)
    split
    · exact Eff.only_pure _
    · exact Eff.only_throw _

theorem only_currentTime {σ : Type} (S : Service σ) {p : Effect → Bool} :
    Eff.Only p (currentTime S) := by
  intro s e he; simp [currentTime] at he

theorem only_getShows {σ : Type} (S : Service σ) {p : Effect → Bool}
    (hp : ∀ u b, p (Effect.httpGet u b) = true) : Eff.Only p (getShows S) := by
  unfold getShows
  refine Eff.only_bind (Eff.only_call _ _ (hp _)) (fun shows => ?_)
  split
  · exact Eff.only_throw _
  · exact Eff.only_throw _
  · exact Eff.only_pure _

theorem only_getManagementEvents {σ : Type} (S : Service σ) {p : Effect → Bool}
    (hq : ∀ t b, p (Effect.dbQuery t b) = true) (he : ∀ b, p (Effect.poolEnd b) = true) :
    Eff.Only p (getManagementEvents S) := by
  unfold getManagementEvents
  exact Eff.only_bind (Eff.only_tryFinally (Eff.only_call _ _ (hq _)) (Eff.only_call _ _ he))
    (fun _ => Eff.only_pure _)

theorem only_getBookingEvents {σ : Type} (S : Service σ) {p : Effect → Bool}
    (hq : ∀ t b, p (Effect.dbQuery t b) = true) : Eff.Only p (getBookingEvents S) := by
  unfold getBookingEvents
  exact Eff.only_bind (Eff.only_call _ _ (hq _)) (fun _ => Eff.only_pure _)

theorem only_getReleases {σ : Type} (S : Service σ) (h : Host) {p : Effect → Bool}
    (hp : ∀ u b, p (Effect.httpGet u b) = true) : Eff.Only p (getReleases S h) := by
  unfold getReleases
  refine Eff.only_bind (Eff.only_call _ _ (hp _)) (fun releases => ?_)
  refine Eff.only_bind (Eff.only_ofExcept _) (fun releasesArray => ?_)
  split
  · exact Eff.only_bind (Eff.only_ofExcept _) (fun _ => Eff.only_pure _)
  · exact Eff.only_throw _
  · split
    · exact Eff.only_throw _
    · exact Eff.only_pure _
  · exact Eff.only_pure _

theorem only_filterValidReleases {σ : Type} (h : Host) (releases : List JsVal)
    {p : Effect → Bool} (hw : ∀ l, p (Effect.warn l) = true) :
    Eff.Only p (filterValidReleases h releases : Eff σ (List JsVal)) := by
  induction releases with
  | nil => exact Eff.only_ret _
  | cons release rest ih =>
    unfold filterValidReleases
    refine Eff.only_bind (Eff.only_ofExcept _) (fun releaseDate => ?_)
    split
    · refine Eff.only_bind (Eff.only_ofExcept _) (fun _ => ?_)
      exact Eff.only_bind (Eff.only_warn _ (hw _)) (fun _ => ih)
    · split
      · exact Eff.only_bind ih (fun _ => Eff.only_pure _)
      · exact ih

/-- The effects of the steps of `updateCalendar` before the reset are never calls on
the events of a calendar. -/
theorem only_readValid {σ : Type} (S : Service σ) (h : Host) (j : Job) :
    Eff.Only (fun e => !e.isEventCall) (j.readValid S h) := by
  cases j with
  | live =>
    show Eff.Only _ (ServiceAccountCalendarUpdater.readValid S h)
    unfold ServiceAccountCalendarUpdater.readValid
    refine Eff.only_bind (only_setupAuthentication S (fun _ => rfl)) (fun _ => ?_)
    refine Eff.only_bind (only_findMalbecCalendar S _ (fun _ _ => rfl) (fun _ => rfl)) (fun _ => ?_)
    refine Eff.only_bind (only_getShows S (fun _ _ => rfl)) (fun _ => ?_)
    refine Eff.only_bind (only_currentTime S) (fun _ => ?_)
    refine Eff.only_bind (Eff.only_ofExcept _) (fun _ => ?_)
    refine Eff.only_bind (Eff.only_ofExcept _) (fun _ => ?_)
    exact Eff.only_bind (Eff.only_ofExcept _) (fun _ => Eff.only_pure _)
  | management =>
    show Eff.Only _ (ManagementCalendarUpdater.readValid S h)
    unfold ManagementCalendarUpdater.readValid
    refine Eff.only_bind (only_setupAuthentication S (fun _ => rfl)) (fun _ => ?_)
    refine Eff.only_bind (only_findManagementCalendar S _ (fun _ _ => rfl)) (fun _ => ?_)
    refine Eff.only_bind (only_getManagementEvents S (fun _ _ => rfl) (fun _ => rfl)) (fun _ => ?_)
    refine Eff.only_bind (only_currentTime S) (fun _ => ?_)
    refine Eff.only_bind (Eff.only_ofExcept _) (fun _ => ?_)
    refine Eff.only_bind (Eff.only_ofExcept _) (fun _ => ?_)
    exact Eff.only_bind (Eff.only_ofExcept _) (fun _ => Eff.only_pure _)
  | booking =>
    show Eff.Only _ (BookingCalendarUpdater.readValid S)
    unfold BookingCalendarUpdater.readValid
    refine Eff.only_bind (only_setupAuthentication S (fun _ => rfl)) (fun _ => ?_)
    refine Eff.only_bind (only_findBookingCalendar S _ (fun _ _ => rfl)) (fun _ => ?_)
    refine Eff.only_bind (only_getBookingEvents S (fun _ _ => rfl)) (fun _ => ?_)
    exact Eff.only_bind (Eff.only_ofExcept _) (fun _ => Eff.only_pure _)
  | releases =>
    show Eff.Only _ (ReleasesCalendarUpdater.readValid S h)
    unfold ReleasesCalendarUpdater.readValid
    refine Eff.only_bind (only_setupAuthentication S (fun _ => rfl)) (fun _ => ?_)
    refine Eff.only_bind (only_findReleasesCalendar S _ (fun _ _ => rfl) (fun _ => rfl)) (fun _ => ?_)
    refine Eff.only_bind (only_getReleases S h (fun _ _ => rfl)) (fun _ => ?_)
    refine Eff.only_bind (only_currentTime S) (fun _ => ?_)
    refine Eff.only_bind (Eff.only_ofExcept _) (fun _ => ?_)
    refine Eff.only_bind (only_filterValidReleases h _ (fun _ => rfl)) (fun _ => ?_)
    refine Eff.only_bind (Eff.only_ofExcept _) (fun _ => ?_)
    exact Eff.only_bind (Eff.only_ofExcept _) (fun _ => Eff.only_pure _)

/-! ## Theorems: reset before load (C4) -/

theorem Eff.bind_log_of_ok {σ α β : Type} (m : Eff σ α) (f : α → Eff σ β) (s : σ) (a : α)
    (hm : (m s).out = .ok a) :
    ((m >>= f) s).log = (m s).log ++ (f a (m s).st).log ∧
    ((m >>= f) s).out = (f a (m s).st).out ∧
    ((m >>= f) s).st = (f a (m s).st).st := by
  simp [Bind.bind, Eff.bind, hm]

theorem Eff.bind_log_only {σ α β : Type} {q : Effect → Bool} (m : Eff σ α) (f : α → Eff σ β)
    (hf : ∀ a, Eff.Only q (f a)) (s : σ) :
    ∃ post, ((m >>= f) s).log = (m s).log ++ post ∧ ∀ e ∈ post, q e = true := by
  cases hm : (m s).out with
  | ok a =>
    exact ⟨(f a (m s).st).log, (Eff.bind_log_of_ok m f s a hm).1, hf a _⟩
  | error err =>
    refine ⟨[], ?_, by simp⟩
    simp [Bind.bind, Eff.bind, hm]

theorem only_deleteLoop {σ : Type} (S : Service σ) (calendarId : String)
    (items : List ExistingItem) (c : ClearCounts) {p : Effect → Bool}
    (hp : ∀ a b k, p (Effect.eventsDelete a b k) = true) :
    Eff.Only p (deleteLoop S calendarId items c) := by
  induction items generalizing c with
  | nil => exact Eff.only_ret _
  | cons event rest ih =>
    unfold deleteLoop
    refine Eff.only_bind (Eff.only_attempt (Eff.only_call _ _ (hp _ _))) (fun r => ?_)
    cases r with
    | ok v => exact ih _
    | error err => exact ih _

theorem only_clearCalendar {σ : Type} (S : Service σ) (calendarId : String) {p : Effect → Bool}
    (hl : ∀ a n k, p (Effect.eventsList a n k) = true)
    (hp : ∀ a b k, p (Effect.eventsDelete a b k) = true) :
    Eff.Only p (clearCalendar S calendarId) := by
  unfold clearCalendar
  exact Eff.only_bind (Eff.only_call _ _ (hl _ _)) (fun _ => only_deleteLoop S _ _ _ hp)

theorem only_insertLoop {σ : Type} (S : Service σ) (calendarId : String)
    (events : List CalendarItem) (c : InsertResults) {p : Effect → Bool}
    (hp : ∀ a b k, p (Effect.eventsInsert a b k) = true) :
    Eff.Only p (insertLoop S calendarId events c) := by
  induction events generalizing c with
  | nil => exact Eff.only_ret _
  | cons event rest ih =>
    unfold insertLoop
    refine Eff.only_bind (Eff.only_attempt (Eff.only_call _ _ (hp _ _))) (fun r => ?_)
    cases r with
    | ok v => exact ih _
    | error err => exact ih _

theorem only_showCalendarInfo {σ : Type} (S : Service σ) (calendarId : String)
    {p : Effect → Bool} (hg : ∀ c b, p (Effect.calendarsGet c b) = true)
    (hl : ∀ a n k, p (Effect.eventsList a n k) = true) :
    Eff.Only p (showCalendarInfo S calendarId) := by
  unfold showCalendarInfo
  refine Eff.only_bind (Eff.only_attempt ?_) (fun _ => Eff.only_pure _)
  exact Eff.only_bind (only_calendarsGet S _ hg) (fun _ => Eff.only_call _ _ (hl _ _))

theorem only_formatLoop {σ : Type} (h : Host) (releases : List JsVal) {p : Effect → Bool}
    (hw : ∀ l, p (Effect.warn l) = true) :
    Eff.Only p (ReleasesCalendarUpdater.formatLoop h releases :
      Eff σ (List CalendarItem × Nat)) := by
  induction releases with
  | nil => exact Eff.only_ret _
  | cons release rest ih =>
    unfold ReleasesCalendarUpdater.formatLoop
    split
    · exact Eff.only_bind ih (fun _ => Eff.only_pure _)
    · exact Eff.only_bind (Eff.only_warn _ (hw _))
        (fun _ => Eff.only_bind ih (fun _ => Eff.only_pure _))

/-- After the reset, the Live job issues no delete. -/
theorem live_after_reset {σ : Type} (S : Service σ) (h : Host) (p : Prepared) :
    Eff.Only (fun e => !e.isDelete) (do
      let calendarEvents ← Eff.ofExcept (mapE (formatShowToEvent h) p.valid)
      let results ← insertEvents S p.calendarId calendarEvents
      showCalendarInfo S p.calendarId
      (pure ⟨p.valid.length, p.pastCount, p.futureCount, some results⟩ : Eff σ RunReport)) := by
  refine Eff.only_bind (Eff.only_ofExcept _) (fun _ => ?_)
  refine Eff.only_bind (only_insertLoop S _ _ _ (fun _ _ _ => rfl)) (fun _ => ?_)
  exact Eff.only_bind (only_showCalendarInfo S _ (fun _ _ => rfl) (fun _ _ _ => rfl))
    (fun _ => Eff.only_pure _)

theorem Eff.tryFinally_log {σ α : Type} (m : Eff σ α) (fin : Eff σ Unit) (s : σ) :
    (Eff.tryFinally m fin s).log = (m s).log ++ (fin (m s).st).log := by
  simp only [Eff.tryFinally]
  cases (fin (m s).st).out <;> rfl

/-- A method that runs `m`, then `clearCalendar`, then a tail free of deletes: after a
successful `m` its trace is the trace of `m`, then that of `clearCalendar`, then
effects none of which is a delete. -/
theorem reset_then_tail {σ : Type} (S : Service σ) (m : Eff σ Prepared)
    (tail : Prepared → ClearCounts → Eff σ RunReport)
    (htail : ∀ p c, Eff.Only (fun e => !e.isDelete) (tail p c)) (s : σ) (p : Prepared)
    (hread : (m s).out = .ok p) :
    ∃ post, ((m >>= fun p => clearCalendar S p.calendarId >>= tail p) s).log
        = (m s).log ++ (clearCalendar S p.calendarId (m s).st).log ++ post ∧
      ∀ e ∈ post, e.isDelete = false := by
  obtain ⟨post, hpost, honly⟩ :=
    Eff.bind_log_only (clearCalendar S p.calendarId) (tail p) (htail p) (m s).st
  refine ⟨post, ?_, fun e he => by simpa using honly e he⟩
  rw [(Eff.bind_log_of_ok m _ s p hread).1, hpost, List.append_assoc]

/-- C4 (amended): in every job, once steps 1 to 4 (authentication, calendar resolution,
source read, Record Filter) have succeeded with the valid records `p.valid`, no call
on calendar events has been made so far, and then
* the Releases job with no valid record returns at once, without any list, delete or
  insert call;
* otherwise (Live, Management and Booking always, Releases with a valid record)
  `updateCalendar` runs `clearCalendar` on the target calendar next, and no delete is
  issued after it, while `clearCalendar` itself issues no insert: every delete
  precedes every insert. -/
theorem updateCalendar_resets_before_loading {σ : Type} (S : Service σ) (h : Host) (j : Job)
    (s : σ) (p : Prepared) (hread : (j.readValid S h s).out = .ok p) :
    (∀ e ∈ (j.readValid S h s).log, e.isEventCall = false) ∧
    (∀ e ∈ (clearCalendar S p.calendarId (j.readValid S h s).st).log, e.isInsert = false) ∧
    (j = Job.releases → p.valid.length = 0 →
      (j.updateCalendar S h s).log = (j.readValid S h s).log ∧
      (j.updateCalendar S h s).out = .ok ⟨0, p.pastCount, p.futureCount, none⟩) ∧
    (¬ (j = Job.releases ∧ p.valid.length = 0) →
      ∃ post, (j.updateCalendar S h s).log
          = (j.readValid S h s).log ++ (clearCalendar S p.calendarId (j.readValid S h s).st).log
            ++ post ∧
        ∀ e ∈ post, e.isDelete = false) := by
  refine ⟨fun e he => by simpa using only_readValid S h j s e he,
    fun e he => by
      simpa using only_clearCalendar S p.calendarId (p := fun e => !e.isInsert)
        (fun _ _ _ => rfl) (fun _ _ _ => rfl) _ e he, ?_, ?_⟩
  · intro hj hlen
    subst hj
    have hb := Eff.bind_log_of_ok (ReleasesCalendarUpdater.readValid S h) (fun p =>
      if p.valid.length = 0 then
        (pure ⟨p.valid.length, p.pastCount, p.futureCount, none⟩ : Eff σ RunReport)
      else do
        let _ ← clearCalendar S p.calendarId
        let formatted ← ReleasesCalendarUpdater.formatLoop h p.valid
        let results ← insertEvents S p.calendarId formatted.1
        showCalendarInfo S p.calendarId
        pure ⟨p.valid.length, p.pastCount, p.futureCount,
          some { results with skippedCount := formatted.2 }⟩) s p hread
    simp only [hlen, if_true] at hb
    exact ⟨by simpa [pure, Eff.ret] using hb.1, by simpa [pure, Eff.ret] using hb.2.1⟩
  · intro hj
    cases j with
    | live =>
      exact reset_then_tail S (ServiceAccountCalendarUpdater.readValid S h)
        (fun p _ => do
          let calendarEvents ← Eff.ofExcept (mapE (formatShowToEvent h) p.valid)
          let results ← insertEvents S p.calendarId calendarEvents
          showCalendarInfo S p.calendarId
          pure ⟨p.valid.length, p.pastCount, p.futureCount, some results⟩)
        (fun p _ => live_after_reset S h p) s p hread
    | management =>
      refine reset_then_tail S (ManagementCalendarUpdater.readValid S h)
        (fun p _ => do
          let calendarEvents ← Eff.ofExcept (mapE (formatManagementEventToCalendar h) p.valid)
          let results ← insertEvents S p.calendarId calendarEvents
          pure ⟨p.valid.length, p.pastCount, p.futureCount, some results⟩)
        (fun p _ => ?_) s p hread
      refine Eff.only_bind (Eff.only_ofExcept _) (fun _ => ?_)
      exact Eff.only_bind (only_insertLoop S _ _ _ (fun _ _ _ => rfl)) (fun _ => Eff.only_pure _)
    | booking =>
      obtain ⟨post, hpost, honly⟩ := reset_then_tail S (BookingCalendarUpdater.readValid S)
        (fun p _ => do
          let calendarEvents ← Eff.ofExcept (mapE (formatBookingEventToCalendarEvent h) p.valid)
          let results ← insertEvents S p.calendarId calendarEvents
          showCalendarInfo S p.calendarId
          pure ⟨p.valid.length, p.pastCount, p.futureCount, some results⟩)
        (fun p _ => by
          refine Eff.only_bind (Eff.only_ofExcept _) (fun _ => ?_)
          refine Eff.only_bind (only_insertLoop S _ _ _ (fun _ _ _ => rfl)) (fun _ => ?_)
          exact Eff.only_bind (only_showCalendarInfo S _ (fun _ _ => rfl) (fun _ _ _ => rfl))
            (fun _ => Eff.only_pure _)) s p hread
      refine ⟨post ++ (Eff.call S.poolEnd Effect.poolEnd
        (BookingCalendarUpdater.updateCalendarBody S h s).st).log, ?_, ?_⟩
      · show (Eff.tryFinally (BookingCalendarUpdater.updateCalendarBody S h) _ s).log = _
        rw [Eff.tryFinally_log]
        show ((BookingCalendarUpdater.readValid S >>= _) s).log ++ _ = _
        rw [hpost]
        simp only [List.append_assoc]
        rfl
      · intro e he
        rcases List.mem_append.1 he with h1 | h1
        · exact honly e h1
        · simp [Eff.call] at h1; subst h1; rfl
    | releases =>
      have hne : ¬ p.valid.length = 0 := fun h0 => hj ⟨rfl, h0⟩
      have hb := (Eff.bind_log_of_ok (ReleasesCalendarUpdater.readValid S h) (fun p =>
        if p.valid.length = 0 then
          (pure ⟨p.valid.length, p.pastCount, p.futureCount, none⟩ : Eff σ RunReport)
        else do
          let _ ← clearCalendar S p.calendarId
          let formatted ← ReleasesCalendarUpdater.formatLoop h p.valid
          let results ← insertEvents S p.calendarId formatted.1
          showCalendarInfo S p.calendarId
          pure ⟨p.valid.length, p.pastCount, p.futureCount,
            some { results with skippedCount := formatted.2 }⟩) s p hread).1
      simp only [hne, if_false] at hb
      obtain ⟨post, hpost, honly⟩ := Eff.bind_log_only (q := fun e => !e.isDelete)
        (clearCalendar S p.calendarId) (fun _ => do
          let formatted ← ReleasesCalendarUpdater.formatLoop h p.valid
          let results ← insertEvents S p.calendarId formatted.1
          showCalendarInfo S p.calendarId
          (pure ⟨p.valid.length, p.pastCount, p.futureCount,
            some { results with skippedCount := formatted.2 }⟩ : Eff σ RunReport))
        (fun _ => by
          refine Eff.only_bind (only_formatLoop h _ (fun _ => rfl)) (fun _ => ?_)
          refine Eff.only_bind (only_insertLoop S _ _ _ (fun _ _ _ => rfl)) (fun _ => ?_)
          exact Eff.only_bind (only_showCalendarInfo S _ (fun _ _ => rfl) (fun _ _ _ => rfl))
            (fun _ => Eff.only_pure _)) (ReleasesCalendarUpdater.readValid S h s).st
      refine ⟨post, ?_, fun e he => by simpa using honly e he⟩
      show (ReleasesCalendarUpdater.updateCalendar S h s).log = _
      rw [ReleasesCalendarUpdater.updateCalendar, hb, hpost, List.append_assoc]
      rfl

/-- Counterexample to C4: the Releases job on a source read that succeeds with zero
records returns normally without any list or delete call, and the event that was in
the calendar is still there. -/
theorem releases_updateCalendar_without_valid_record_skips_reset :
    (ReleasesCalendarUpdater.updateCalendar memService utcHost
        (worldWithFeeds (.arr []) (.arr []))).out = .ok ⟨0, some 0, some 0, none⟩ ∧
    listCalls (ReleasesCalendarUpdater.updateCalendar memService utcHost
        (worldWithFeeds (.arr []) (.arr []))).log = [] ∧
    deleteAttempts (ReleasesCalendarUpdater.updateCalendar memService utcHost
        (worldWithFeeds (.arr []) (.arr []))).log = [] ∧
    (ReleasesCalendarUpdater.updateCalendar memService utcHost
        (worldWithFeeds (.arr []) (.arr []))).st.events releasesConfig.calendarId
      = [staleEvent] := by
  refine ⟨by decide, by decide, by decide, by decide⟩

/-- Witness of C4: the Live job on a feed of one valid show. -/
theorem updateCalendar_resets_before_loading_witness :
    ∃ p : Prepared,
      (Job.readValid memService utcHost Job.live
        (worldWithFeeds (.arr [goodShow]) (.arr []))).out = .ok p ∧
      ∃ post, (Job.updateCalendar memService utcHost Job.live
          (worldWithFeeds (.arr [goodShow]) (.arr []))).log
        = (Job.readValid memService utcHost Job.live
            (worldWithFeeds (.arr [goodShow]) (.arr []))).log
          ++ (clearCalendar memService p.calendarId
              (Job.readValid memService utcHost Job.live
                (worldWithFeeds (.arr [goodShow]) (.arr []))).st).log
          ++ post ∧
        ∀ e ∈ post, e.isDelete = false :=
  ⟨⟨liveConfig.calendarId, [goodShow], some 0, some 1⟩, rfl,
    (updateCalendar_resets_before_loading memService utcHost Job.live
      (worldWithFeeds (.arr [goodShow]) (.arr [])) _ rfl).2.2.2 (by decide)⟩

/-! ## Theorems: Record Filters (C7, C8) -/

theorem JsVal.truthy_and (a b : JsVal) : (a.and b).truthy = (a.truthy && b.truthy) := by
  unfold JsVal.and; cases ha : a.truthy <;> simp [ha]

theorem isValidShow_obj (record : List (String × JsVal)) :
    isValidShow (.obj record) = .ok (liveMandatory record) := by
  simp [isValidShow, JsVal.get, liveMandatory, hasField, hasNestedField, JsVal.truthy_and,
    bind, Except.bind, pure, Except.pure]

theorem isValidManagementEvent_obj (record : List (String × JsVal)) :
    isValidManagementEvent (.obj record) = .ok (managementMandatory record) := by
  simp [isValidManagementEvent, JsVal.get, managementMandatory, hasField, JsVal.truthy_and,
    bind, Except.bind, pure, Except.pure]

theorem isValidBookingEvent_obj (record : List (String × JsVal)) :
    isValidBookingEvent (.obj record) = .ok (bookingMandatory record) := by
  simp [isValidBookingEvent, JsVal.get, bookingMandatory, hasField,
    bind, Except.bind, pure, Except.pure]

/-- A filter whose callback answers `keep` on every object keeps exactly those records. -/
theorem filterE_obj (p : JsVal → Except JsError Bool) (keep : List (String × JsVal) → Bool)
    (hp : ∀ record, p (.obj record) = .ok (keep record)) (records : List (List (String × JsVal))) :
    filterE p (records.map JsVal.obj) = .ok ((records.filter keep).map JsVal.obj) := by
  induction records with
  | nil => rfl
  | cons record rest ih =>
    simp only [List.map_cons, filterE, hp, ih, bind, Except.bind, pure, Except.pure,
      List.filter_cons]
    cases keep record <;> rfl

theorem length_filter_eq_sub {α : Type} (keep : α → Bool) (l : List α) :
    (l.filter keep).length = l.length - (l.filter (fun a => !keep a)).length := by
  induction l with
  | nil => rfl
  | cons a rest ih =>
    have h1 := List.length_filter_le keep rest
    have h2 := List.length_filter_le (fun a => !keep a) rest
    cases hk : keep a <;> simp [List.filter_cons, hk] <;> omega

theorem releaseDateOf_obj (record : List (String × JsVal)) :
    releaseDateOf (.obj record) = .ok (firstReleaseDate record) ∧
    (firstReleaseDate record).truthy = releasesMandatory record := by
  by_cases h1 : (JsVal.lookup "release_date" record).truthy = true <;>
    by_cases h2 : (JsVal.lookup "date" record).truthy = true <;>
    simp [releaseDateOf, JsVal.get, firstReleaseDate, releasesMandatory, hasField, bind,
      Except.bind, pure, Except.pure, JsVal.or, h1, h2]

theorem warnTitle_obj (h : Host) (record : List (String × JsVal)) :
    warnTitle h (.obj record) = .ok (releaseWarnTitle h record) := by
  by_cases h1 : (JsVal.lookup "title" record).truthy = true <;>
    by_cases h2 : (JsVal.lookup "name" record).truthy = true <;>
    simp [warnTitle, JsVal.get, releaseWarnTitle, hasField, bind, Except.bind, pure,
      Except.pure, JsVal.or, h1, h2, JsVal.toStr]

/-- The Releases filter on a list of records: it never throws, keeps the records whose
first present date field parses, and warns once, with the title, for every record
that has none of the three date fields. -/
theorem filterValidReleases_obj {σ : Type} (h : Host) (records : List (List (String × JsVal)))
    (s : σ) :
    (filterValidReleases h (records.map JsVal.obj) s).out
      = .ok ((records.filter (releasesDated h)).map JsVal.obj) ∧
    (filterValidReleases h (records.map JsVal.obj) s).log
      = ((records.filter (fun r => !releasesMandatory r)).map
          (fun r => Effect.warn ("⚠️  Release sin fecha ignorado: " ++ releaseWarnTitle h r))) ∧
    (filterValidReleases h (records.map JsVal.obj) s).st = s := by
  induction records with
  | nil => exact ⟨rfl, rfl, rfl⟩
  | cons record rest ih =>
    obtain ⟨ih1, ih2, ih3⟩ := ih
    obtain ⟨hd, ht⟩ := releaseDateOf_obj record
    cases hm : releasesMandatory record with
    | false =>
      simp only [List.map_cons, filterValidReleases, hd, warnTitle_obj, bind, Eff.bind,
        Eff.ofExcept, Eff.warn, releasesDated, List.filter_cons, ht, hm, ite_apply]
      simp [Eff.bind, Eff.ofExcept, Eff.warn, ih1, ih2, ih3]
    | true =>
      cases hv : (JsVal.newDate h (firstReleaseDate record)).isSome with
      | false =>
        simp only [List.map_cons, filterValidReleases, hd, bind, Eff.bind,
          Eff.ofExcept, releasesDated, List.filter_cons, ht, hm, hv, ite_apply]
        simp [ih1, ih2, ih3]
      | true =>
        simp only [List.map_cons, filterValidReleases, hd, bind, Eff.bind,
          Eff.ofExcept, releasesDated, List.filter_cons, ht, hm, hv, ite_apply]
        simp [Eff.bind, ih1, ih2, ih3, pure, Eff.ret]

/-- Counterexample to C7: a release whose `release_date` is present but is no date has
one of the three date fields, yet the Releases filter does not return it. -/
theorem releases_filter_drops_record_with_unparseable_date :
    releasesMandatory [("release_date", .str "not-a-date")] = true ∧
    (filterValidReleases utcHost [JsVal.obj [("release_date", .str "not-a-date")]]
      (worldWithEvents 0)).out = .ok [] :=
  ⟨by decide, by rfl⟩

/-- C7 (amended): for every list of source records, each job's Record Filter returns, in
source order, exactly the records that have the job's mandatory fields, where for
Releases the requirement is that one of `release_date`, `date`, `created_at` is
present and the first present one parses to a valid date; the number of valid
records is the total minus the number of excluded records. -/
theorem record_filters_keep_exactly_valid_records {σ : Type} (h : Host)
    (records : List (List (String × JsVal))) (s : σ) :
    filterE isValidShow (records.map JsVal.obj)
      = .ok ((records.filter liveMandatory).map JsVal.obj) ∧
    filterE isValidManagementEvent (records.map JsVal.obj)
      = .ok ((records.filter managementMandatory).map JsVal.obj) ∧
    filterE isValidBookingEvent (records.map JsVal.obj)
      = .ok ((records.filter bookingMandatory).map JsVal.obj) ∧
    (filterValidReleases h (records.map JsVal.obj) s).out
      = .ok ((records.filter (releasesDated h)).map JsVal.obj) ∧
    (records.filter liveMandatory).length
      = records.length - (records.filter (fun r => !liveMandatory r)).length ∧
    (records.filter managementMandatory).length
      = records.length - (records.filter (fun r => !managementMandatory r)).length ∧
    (records.filter bookingMandatory).length
      = records.length - (records.filter (fun r => !bookingMandatory r)).length ∧
    (records.filter (releasesDated h)).length
      = records.length - (records.filter (fun r => !releasesDated h r)).length :=
  ⟨filterE_obj _ _ isValidShow_obj records,
   filterE_obj _ _ isValidManagementEvent_obj records,
   filterE_obj _ _ isValidBookingEvent_obj records,
   (filterValidReleases_obj h records s).1,
   length_filter_eq_sub _ _, length_filter_eq_sub _ _, length_filter_eq_sub _ _,
   length_filter_eq_sub _ _⟩

/-- C8 (evaluation at the failing input): a show whose `show_date` is the text
`not-a-date`, which gives an Invalid Date, is accepted by the Live filter and handed
to the transformer, which throws on it; the Management and Booking filters accept
such a date in the same way. -/
theorem filters_accept_unparseable_date :
    JsVal.newDate utcHost (.str "not-a-date") = none ∧
    filterE isValidShow [malformedShow] = .ok [malformedShow] ∧
    formatShowToEvent utcHost malformedShow = .error ⟨"RangeError", "Invalid time value"⟩ ∧
    isValidManagementEvent (.obj [("artist_name", .str "A"), ("show_date", .str "not-a-date"),
      ("city", .str "Buenos Aires"), ("country", .str "AR")]) = .ok true ∧
    isValidBookingEvent (.obj [("start_date", .str "not-a-date")]) = .ok true :=
  ⟨by decide, by rfl, by rfl, by decide, by decide⟩

/-! ## Theorems: failing transformers (C9) -/

/-- C9 (evaluation at the failing input): the Live job on a feed of two shows, the
first with a malformed date and the second well-formed (its transformation succeeds):
the job deletes the event that was in the calendar, then throws the transformer's
RangeError; no show is inserted, the well-formed one included, and the calendar is
left empty. -/
theorem live_updateCalendar_aborts_on_malformed_date :
    (formatShowToEvent utcHost goodShow).toBool = true ∧
    (ServiceAccountCalendarUpdater.updateCalendar memService utcHost
        (worldWithFeeds (.arr [malformedShow, goodShow]) (.arr []))).out
      = .error ⟨"RangeError", "Invalid time value"⟩ ∧
    deleteAttempts (ServiceAccountCalendarUpdater.updateCalendar memService utcHost
        (worldWithFeeds (.arr [malformedShow, goodShow]) (.arr []))).log = ["old-1"] ∧
    insertAttempts (ServiceAccountCalendarUpdater.updateCalendar memService utcHost
        (worldWithFeeds (.arr [malformedShow, goodShow]) (.arr []))).log = [] ∧
    (ServiceAccountCalendarUpdater.updateCalendar memService utcHost
        (worldWithFeeds (.arr [malformedShow, goodShow]) (.arr []))).st.events
          liveConfig.calendarId = [] :=
  ⟨by decide, by decide, by decide, by rfl, by decide⟩

/-! ## Theorems: undated releases (C10) -/

theorem Eff.bind_ok_inv {σ α β : Type} (m : Eff σ α) (f : α → Eff σ β) (s : σ) (b : β)
    (hout : ((m >>= f) s).out = .ok b) :
    ∃ a, (m s).out = .ok a ∧ ((m >>= f) s).log = (m s).log ++ (f a (m s).st).log ∧
      (f a (m s).st).out = .ok b := by
  cases hm : (m s).out with
  | ok a =>
    obtain ⟨h1, h2, _⟩ := Eff.bind_log_of_ok m f s a hm
    exact ⟨a, rfl, h1, by rw [← h2]; exact hout⟩
  | error err =>
    simp [Bind.bind, Eff.bind, hm] at hout

theorem insertAttempts_append (l1 l2 : List Effect) :
    insertAttempts (l1 ++ l2) = insertAttempts l1 ++ insertAttempts l2 := by
  induction l1 with
  | nil => rfl
  | cons e rest ih => cases e <;> simp [insertAttempts, ih]

theorem insertAttempts_eq_nil (l : List Effect) (hl : ∀ e ∈ l, e.isInsert = false) :
    insertAttempts l = [] := by
  induction l with
  | nil => rfl
  | cons e rest ih =>
    have hrest := ih (fun e he => hl e (List.mem_cons_of_mem _ he))
    have he := hl e (List.mem_cons_self _ _)
    cases e <;> simp_all [insertAttempts, Effect.isInsert]

/-- The transform loop of the Releases job never throws, leaves the world as it is, and
returns the items of the records that transform, with the number of those that do
not. -/
theorem formatLoop_spec {σ : Type} (h : Host) (releases : List JsVal) (s : σ) :
    (ReleasesCalendarUpdater.formatLoop h releases s).out
      = .ok (formattedItems h releases, formatFailures h releases) ∧
    (ReleasesCalendarUpdater.formatLoop h releases s).st = s ∧
    (formattedItems h releases).length + formatFailures h releases = releases.length := by
  induction releases with
  | nil => exact ⟨rfl, rfl, rfl⟩
  | cons release rest ih =>
    obtain ⟨ih1, ih2, ih3⟩ := ih
    cases hf : formatReleaseToEvent h release with
    | ok event =>
      refine ⟨?_, ?_, ?_⟩
      · simp [ReleasesCalendarUpdater.formatLoop, hf, bind, Eff.bind, ih1, pure, Eff.ret,
          formattedItems, formatFailures, Except.toOption, Except.toBool]
      · simp [ReleasesCalendarUpdater.formatLoop, hf, bind, Eff.bind, ih1, ih2, pure, Eff.ret]
      · simp [formattedItems, formatFailures, hf, Except.toOption, Except.toBool] at ih3 ⊢
        omega
    | error err =>
      refine ⟨?_, ?_, ?_⟩
      · simp [ReleasesCalendarUpdater.formatLoop, hf, bind, Eff.bind, Eff.warn, ih1, pure,
          Eff.ret, formattedItems, formatFailures, Except.toOption, Except.toBool]
      · simp [ReleasesCalendarUpdater.formatLoop, hf, bind, Eff.bind, Eff.warn, ih1, ih2, pure,
          Eff.ret]
      · simp [formattedItems, formatFailures, hf, Except.toOption, Except.toBool] at ih3 ⊢
        omega

/-- Every record the Releases filter keeps has a truthy date that gives a valid `Date`. -/
theorem filterValidReleases_dated {σ : Type} (h : Host) (releases valid : List JsVal) (s : σ)
    (hout : (filterValidReleases h releases s).out = .ok valid) :
    ∀ r ∈ valid, ∃ d, releaseDateOf r = .ok d ∧ d.truthy = true ∧
      (JsVal.newDate h d).isSome = true := by
  induction releases generalizing valid s with
  | nil =>
    have : valid = [] := by
      simpa [filterValidReleases, Eff.ret] using hout.symm
    subst this; simp
  | cons release rest ih =>
    rw [filterValidReleases] at hout
    obtain ⟨d, hd, _, hout⟩ := Eff.bind_ok_inv _ _ s valid hout
    have hdate : releaseDateOf release = .ok d := by simpa [Eff.ofExcept] using hd
    by_cases ht : d.truthy = true
    · by_cases hv : (JsVal.newDate h d).isSome = true
      · simp only [ht, Bool.not_true, Bool.false_eq_true, if_false, hv, if_true] at hout
        obtain ⟨tail, htail, _, hout⟩ := Eff.bind_ok_inv _ _ _ valid hout
        have hvalid : valid = release :: tail := by
          simpa [pure, Eff.ret] using hout.symm
        subst hvalid
        intro r hr
        rcases List.mem_cons.1 hr with hr | hr
        · subst hr; exact ⟨d, hdate, ht, hv⟩
        · exact ih tail _ htail r hr
      · simp only [ht, Bool.not_true, Bool.false_eq_true, if_false, hv] at hout
        exact ih valid _ hout
    · simp only [ht, Bool.not_false, if_true] at hout
      obtain ⟨_, _, _, hout⟩ := Eff.bind_ok_inv _ _ _ valid hout
      obtain ⟨_, _, _, hout⟩ := Eff.bind_ok_inv _ _ _ valid hout
      exact ih valid _ hout

/-- The valid records that steps 1 to 4 of the Releases job hand on come out of the
Releases filter. -/
theorem releases_readValid_valid {σ : Type} (S : Service σ) (h : Host) (s : σ) (p : Prepared)
    (hread : (ReleasesCalendarUpdater.readValid S h s).out = .ok p) :
    ∃ (releases : List JsVal) (s1 : σ), (filterValidReleases h releases s1).out = .ok p.valid := by
  rw [ReleasesCalendarUpdater.readValid] at hread
  obtain ⟨_, _, _, hread⟩ := Eff.bind_ok_inv _ _ _ _ hread
  obtain ⟨_, _, _, hread⟩ := Eff.bind_ok_inv _ _ _ _ hread
  obtain ⟨_, _, _, hread⟩ := Eff.bind_ok_inv _ _ _ _ hread
  obtain ⟨_, _, _, hread⟩ := Eff.bind_ok_inv _ _ _ _ hread
  obtain ⟨releases, _, _, hread⟩ := Eff.bind_ok_inv _ _ _ _ hread
  obtain ⟨valid, hvalid, _, hread⟩ := Eff.bind_ok_inv _ _ _ _ hread
  obtain ⟨_, _, _, hread⟩ := Eff.bind_ok_inv _ _ _ _ hread
  obtain ⟨_, _, _, hread⟩ := Eff.bind_ok_inv _ _ _ _ hread
  have hp : p.valid = valid := by
    have := hread.symm
    simp only [pure, Eff.ret, Except.ok.injEq] at this
    rw [this]
  exact ⟨releases, _, hp ▸ hvalid⟩

/-- C10 (amended): a release with none of `release_date`, `date`, `created_at` is dropped
by the Record Filter of the Releases job, with one warning that names its title, and
is never counted as skipped.  For every list of records the filter returns the dated
ones and warns once per undated one.  In every run that reads and returns normally,
every valid record is dated, the items sent to the calendar are exactly those of the
valid records that transform, and either there was no valid record and no counter is
reported, or the reported `skippedCount` is the number of valid records whose
transformation threw, with `successCount + errorCount + skippedCount` the number of
valid records.  On the response `{releases: [{title: "A", artist_name: "B"}]}` the job
returns before the reset, without a list, delete or insert call, after the one warning
`Release sin fecha ignorado: A`. -/
theorem releases_undated_records_are_filtered {σ : Type} (S : Service σ) (h : Host)
    (s : σ) (p : Prepared) (rep : RunReport)
    (hread : (ReleasesCalendarUpdater.readValid S h s).out = .ok p)
    (hout : (ReleasesCalendarUpdater.updateCalendar S h s).out = .ok rep) :
    (∀ (records : List (List (String × JsVal))) (s1 : σ),
      (filterValidReleases h (records.map JsVal.obj) s1).out
        = .ok ((records.filter (releasesDated h)).map JsVal.obj) ∧
      (filterValidReleases h (records.map JsVal.obj) s1).log
        = (records.filter (fun r => !releasesMandatory r)).map
            (fun r => Effect.warn ("⚠️  Release sin fecha ignorado: " ++ releaseWarnTitle h r))) ∧
    (∀ r ∈ p.valid, ∃ d, releaseDateOf r = .ok d ∧ d.truthy = true ∧
      (JsVal.newDate h d).isSome = true) ∧
    insertAttempts (ReleasesCalendarUpdater.updateCalendar S h s).log
      = formattedItems h p.valid ∧
    ((p.valid.length = 0 ∧ rep.results = none) ∨
      ∃ res : InsertResults, rep.results = some res ∧
        res.skippedCount = formatFailures h p.valid ∧
        res.successCount + res.errorCount + res.skippedCount = p.valid.length) ∧
    ((ReleasesCalendarUpdater.updateCalendar memService utcHost
        (worldWithFeeds (.arr []) undatedResponse)).out = .ok ⟨0, some 0, some 0, none⟩ ∧
      (ReleasesCalendarUpdater.updateCalendar memService utcHost
        (worldWithFeeds (.arr []) undatedResponse)).log.filter Effect.isEventCall = [] ∧
      warnings (ReleasesCalendarUpdater.updateCalendar memService utcHost
        (worldWithFeeds (.arr []) undatedResponse)).log
        = ["⚠️  Release sin fecha ignorado: A"]) := by
  refine ⟨fun records s1 => ⟨(filterValidReleases_obj h records s1).1,
    (filterValidReleases_obj h records s1).2.1⟩, ?_, ?_⟩
  · obtain ⟨releases, s1, hv⟩ := releases_readValid_valid S h s p hread
    exact filterValidReleases_dated h releases p.valid s1 hv
  · rw [← and_assoc]
    refine ⟨?_, by decide, by rfl, by decide⟩
    have hpre : insertAttempts (ReleasesCalendarUpdater.readValid S h s).log = [] :=
      insertAttempts_eq_nil _ (fun e he => by
        have := only_readValid S h Job.releases s e he
        cases e <;> simp_all [Effect.isEventCall, Effect.isInsert])
    rw [ReleasesCalendarUpdater.updateCalendar] at hout ⊢
    obtain ⟨hlog, hout2, _⟩ := Eff.bind_log_of_ok _ _ s p hread
    rw [hout2] at hout
    rw [hlog, insertAttempts_append, hpre, List.nil_append]
    by_cases hlen : p.valid.length = 0
    · simp only [hlen, if_true] at hout ⊢
      have hv : p.valid = [] := List.length_eq_zero.1 hlen
      refine ⟨by simp [hv, formattedItems, pure, Eff.ret, insertAttempts], Or.inl ⟨trivial, ?_⟩⟩
      have := hout.symm
      simp only [pure, Eff.ret, Except.ok.injEq] at this
      rw [this]
    · simp only [hlen, if_false] at hout ⊢
      obtain ⟨c, _, hlog1, hout⟩ := Eff.bind_ok_inv _ _ _ _ hout
      obtain ⟨formatted, hfmt, hlog2, hout⟩ := Eff.bind_ok_inv _ _ _ _ hout
      obtain ⟨results, hins, hlog3, hout⟩ := Eff.bind_ok_inv _ _ _ _ hout
      obtain ⟨_, _, hlog4, hout⟩ := Eff.bind_ok_inv _ _ _ _ hout
      obtain ⟨hf1, _, hf3⟩ := formatLoop_spec h p.valid
        (clearCalendar S p.calendarId (ReleasesCalendarUpdater.readValid S h s).st).st
      have hformatted : formatted = (formattedItems h p.valid, formatFailures h p.valid) := by
        rw [hf1] at hfmt; exact (Except.ok.inj hfmt).symm
      subst hformatted
      obtain ⟨r, hr1, hr2, _, hr4, _, _, _⟩ := insertEvents_spec S p.calendarId
        (formattedItems h p.valid)
        (ReleasesCalendarUpdater.formatLoop h p.valid
          (clearCalendar S p.calendarId (ReleasesCalendarUpdater.readValid S h s).st).st).st
      have hres : results = r := by rw [hr1] at hins; exact (Except.ok.inj hins).symm
      subst hres
      refine ⟨?_, Or.inr ⟨{ results with skippedCount := formatFailures h p.valid }, ?_, rfl, ?_⟩⟩
      · rw [hlog1, hlog2, hlog3, hlog4]
        simp only [insertAttempts_append, hr2]
        rw [insertAttempts_eq_nil _ (fun e he => by
            simpa using only_clearCalendar S p.calendarId (p := fun e => !e.isInsert)
              (fun _ _ _ => rfl) (fun _ _ _ => rfl) _ e he),
          insertAttempts_eq_nil _ (fun e he => by
            simpa using only_formatLoop h p.valid (p := fun e => !e.isInsert)
              (fun _ => rfl) _ e he),
          insertAttempts_eq_nil _ (fun e he => by
            simpa using only_showCalendarInfo S p.calendarId (p := fun e => !e.isInsert)
              (fun _ _ => rfl) (fun _ _ _ => rfl) _ e he)]
        simp [pure, Eff.ret, insertAttempts]
      · have := hout.symm
        simp only [pure, Eff.ret, Except.ok.injEq] at this
        rw [this]
      · show results.successCount + results.errorCount + formatFailures h p.valid = _
        omega

/-- Counterexample to C10: on the response `{releases: [{title: "A", artist_name: "B"}]}`
the job reports no counters at all (it returns before the load), and its only
warning names the title `A` but not the artist `B`; and on a response with that
undated record and a dated one, the reported `skippedCount` is 0, not 1. -/
theorem releases_undated_record_is_not_counted_as_skipped :
    (ReleasesCalendarUpdater.updateCalendar memService utcHost
        (worldWithFeeds (.arr []) undatedResponse)).out = .ok ⟨0, some 0, some 0, none⟩ ∧
    warnings (ReleasesCalendarUpdater.updateCalendar memService utcHost
        (worldWithFeeds (.arr []) undatedResponse)).log
      = ["⚠️  Release sin fecha ignorado: A"] ∧
    includes "⚠️  Release sin fecha ignorado: A" "B" = false ∧
    (ReleasesCalendarUpdater.updateCalendar memService utcHost
        (worldWithFeeds (.arr []) (.arr [undatedRelease, datedRelease]))).out
      = .ok ⟨1, some 0, some 1, some ⟨1, 0, 0⟩⟩ :=
  ⟨by decide, by decide, by decide, by decide⟩

/-- Witness of C10: a response with one undated and one dated release. -/
theorem releases_undated_records_are_filtered_witness :
    ∃ (p : Prepared) (rep : RunReport),
      (ReleasesCalendarUpdater.readValid memService utcHost
        (worldWithFeeds (.arr []) (.arr [undatedRelease, datedRelease]))).out = .ok p ∧
      (ReleasesCalendarUpdater.updateCalendar memService utcHost
        (worldWithFeeds (.arr []) (.arr [undatedRelease, datedRelease]))).out = .ok rep ∧
      insertAttempts (ReleasesCalendarUpdater.updateCalendar memService utcHost
        (worldWithFeeds (.arr []) (.arr [undatedRelease, datedRelease]))).log
        = formattedItems utcHost p.valid :=
  ⟨⟨releasesConfig.calendarId, [datedRelease], some 0, some 1⟩,
    ⟨1, some 0, some 1, some ⟨1, 0, 0⟩⟩, rfl, by decide,
    (releases_undated_records_are_filtered memService utcHost
      (worldWithFeeds (.arr []) (.arr [undatedRelease, datedRelease]))
      ⟨releasesConfig.calendarId, [datedRelease], some 0, some 1⟩
      ⟨1, some 0, some 1, some ⟨1, 0, 0⟩⟩ rfl (by decide)).2.2.1⟩

/-! ## Theorems: inverting the transformers -/

theorem Except.bind_eq_ok_iff {ε α β : Type} (x : Except ε α) (f : α → Except ε β) (b : β) :
    (x >>= f) = .ok b ↔ ∃ a, x = .ok a ∧ f a = .ok b := by
  cases x with
  | ok a => simp [bind, Except.bind]
  | error e => simp [bind, Except.bind]

theorem JsVal.get_obj (record : List (String × JsVal)) (key : String) :
    (JsVal.obj record).get key = .ok (JsVal.lookup key record) := rfl

theorem JsVal.truthy_str (s : String) : (JsVal.str s).truthy = (s != "") := rfl

theorem JsVal.truthy_str_append_sep (a b : String) :
    (JsVal.str (a ++ " - " ++ b)).truthy = true := by
  have hne : a ++ " - " ++ b ≠ "" := by
    intro he
    have := congrArg String.length he
    simp at this
    exact absurd this.1.2 (by decide)
  simp [JsVal.truthy, hne]

theorem JsVal.or_of_truthy (a b : JsVal) (ha : a.truthy = true) : a.or b = a := by
  simp [JsVal.or, ha]

/-- What a returned booking item is made of. -/
theorem formatBooking_inv (h : Host) (record : List (String × JsVal)) (item : CalendarItem)
    (hok : formatBookingEventToCalendarEvent h (.obj record) = .ok item) :
    ∃ startTime description startIso endIso,
      (if (JsVal.lookup "hora_salida" record).truthy = true then do
          let parts ← (JsVal.lookup "hora_salida" record).splitColon
          Except.ok (JsDate.setHours h (JsVal.newDate h (JsVal.lookup "start_date" record))
            ((parts.get? 0).bind parseIntStr) ((parts.get? 1).bind parseIntStr) (some 0) (some 0))
        else Except.ok (JsDate.setHours h (JsVal.newDate h (JsVal.lookup "start_date" record))
          (some 21) (some 0) (some 0) (some 0))) = .ok startTime ∧
      buildEventDescription h (.obj record) = .ok description ∧
      JsDate.toISOString startTime = .ok startIso ∧
      JsDate.toISOString (JsDate.setHoursOnly h startTime
        (addInt (JsDate.getHours h startTime) 2)) = .ok endIso ∧
      item.summary = bookingTitle h record ∧
      item.description = description ∧
      item.start = .timed startIso "America/Argentina/Buenos_Aires" ∧
      item.end_ = .timed endIso "America/Argentina/Buenos_Aires" ∧
      item.location = Job.location h .booking record ∧
      item.colorId = getColorForCategory h (JsVal.lookup "category" record) := by
  unfold formatBookingEventToCalendarEvent at hok
  simp only [JsVal.get_obj, Except.bind_eq_ok_iff, pure, Except.pure, Except.ok.injEq,
    exists_eq_left'] at hok
  obtain ⟨startTime, hstart, description, hdesc, startIso, hs, endIso, he, hitem⟩ := hok
  refine ⟨startTime, description, startIso, endIso, hstart, hdesc, hs, he, ?_⟩
  subst hitem
  refine ⟨?_, rfl, rfl, rfl, ?_, rfl⟩
  · rw [JsVal.or_of_truthy]
    · rfl
    · by_cases ha : (JsVal.lookup "artist_name" record).truthy = true <;>
        by_cases hv : (JsVal.lookup "venue_name" record).truthy = true <;>
        simp [ha, hv, JsVal.truthy_str_append_sep]
      all_goals rfl
  · by_cases ha : (JsVal.lookup "venue_address" record).truthy = true <;>
      by_cases hv : (JsVal.lookup "venue_name" record).truthy = true <;>
      by_cases hc : (JsVal.lookup "city" record).truthy = true <;>
      by_cases hk : (JsVal.lookup "country" record).truthy = true <;>
      simp [Job.location, hasField, ha, hv, hc, hk, JsVal.truthy_and, JsVal.truthy_str,
        JsVal.toStr]

/-! ## Theorems: title of a booking item -/

/-- C11. Whenever `formatBookingEventToCalendarEvent` returns an item for a booking
record, the title is `artist_name + " - " + venue_name` when both names are present,
`artist_name` alone when only the artist name is present, and `"Evento de Booking"`
when the artist name is absent; the title is never empty. -/
theorem booking_title_by_names (h : Host) (record : List (String × JsVal)) (item : CalendarItem)
    (hok : formatBookingEventToCalendarEvent h (.obj record) = .ok item) :
    (hasField record "artist_name" = true → hasField record "venue_name" = true →
      item.summary = .str ((JsVal.lookup "artist_name" record).toStr h ++ " - "
        ++ (JsVal.lookup "venue_name" record).toStr h)) ∧
    (hasField record "artist_name" = true → hasField record "venue_name" = false →
      item.summary = JsVal.lookup "artist_name" record) ∧
    (hasField record "artist_name" = false → item.summary = .str "Evento de Booking") ∧
    item.summary.truthy = true ∧ item.summary ≠ .str "" := by
  obtain ⟨_, _, _, _, _, _, _, _, hsum, _⟩ := formatBooking_inv h record item hok
  have htruthy : (bookingTitle h record).truthy = true := by
    unfold bookingTitle
    by_cases ha : hasField record "artist_name" = true <;>
      by_cases hv : hasField record "venue_name" = true <;>
      simp [ha, hv, JsVal.truthy_str_append_sep]
    all_goals first | exact ha | rfl
  rw [hsum]
  refine ⟨?_, ?_, ?_, htruthy, ?_⟩
  · intro ha hv; simp [bookingTitle, ha, hv]
  · intro ha hv; simp [bookingTitle, ha, hv]
  · intro ha; simp [bookingTitle, ha]
  · intro he; rw [he] at htruthy; exact absurd htruthy (by decide)

/-- C11, witness: the booking row of the end-to-end scenario gets the title `X - Y`. -/
theorem booking_title_by_names_witness :
    formatBookingEventToCalendarEvent utcMinus3Host (.obj bookingScenario)
      = .ok bookingScenarioItem ∧
    bookingScenarioItem.summary = .str "X - Y" ∧
    bookingScenarioItem.summary.truthy = true :=
  have hok : formatBookingEventToCalendarEvent utcMinus3Host (.obj bookingScenario)
      = .ok bookingScenarioItem := by rfl
  have hspec := booking_title_by_names utcMinus3Host bookingScenario bookingScenarioItem hok
  ⟨hok, hspec.1 (by rfl) (by rfl), hspec.2.2.2.1⟩

/-! ## Theorems: body of a booking item -/

theorem presentLines_nil : presentLines [] = [] := rfl

theorem presentLines_cons (e : BodyEntry) (es : List BodyEntry) :
    presentLines (e :: es) = (if e.present = true then [e.line] else []) ++ presentLines es := by
  cases hp : e.present <;> simp [presentLines, hp]

theorem presentLines_sublist (es : List BodyEntry) :
    (presentLines es).Sublist (es.map BodyEntry.line) :=
  List.Sublist.map _ (List.filter_sublist es)

theorem presentLines_eq_nil (es : List BodyEntry) (hnone : ∀ e ∈ es, e.present = false) :
    presentLines es = [] := by
  simp only [presentLines, List.map_eq_nil_iff, List.filter_eq_nil_iff]
  intro e he; simp [hnone e he]

/-- On an object `buildEventDescription` returns, and what it returns is the lines of
the entries that are present. -/
theorem buildEventDescription_obj (h : Host) (record : List (String × JsVal)) :
    buildEventDescription h (.obj record)
      = .ok ("\n".intercalate (presentLines (bookingEntries h record))) := by
  simp only [buildEventDescription, JsVal.get_obj, bind, Except.bind, pure, Except.pure,
    bookingEntries, presentLines_cons, presentLines_nil, BodyEntry.line, optPart, optDatePart,
    hasField, fieldText, fieldDateText, JsVal.truthy_and, List.append_assoc, List.append_nil,
    String.append_assoc]

/-- C16. For every booking record `buildEventDescription` returns the lines of the
fifteen entries Artista, Venue, Ubicación, Tipo, Festival, Categoría, Status, Capacidad,
Tickets vendidos, Precio, Ticketera, URL, Fecha de venta, Preventa, Comentarios, joined
by one newline; the line of an entry appears exactly when its field is present (the
place when both city and country are, the price when both price and currency are), the
lines keep the order of the sequence, and a record with none of the fields gives the
empty text. -/
theorem buildEventDescription_lines_in_fixed_order (h : Host)
    (record : List (String × JsVal)) :
    buildEventDescription h (.obj record)
      = .ok ("\n".intercalate (presentLines (bookingEntries h record))) ∧
    (bookingEntries h record).map BodyEntry.label = bookingLabels ∧
    (bookingEntries h record).map BodyEntry.present =
      [hasField record "artist_name", hasField record "venue_name",
       hasField record "city" && hasField record "country", hasField record "show_type",
       hasField record "festival_name", hasField record "category", hasField record "status",
       hasField record "capacity", hasField record "tickets_sold",
       hasField record "price" && hasField record "currency",
       hasField record "ticketera_name", hasField record "ticketera_url",
       hasField record "sale_date", hasField record "fecha_preventa",
       hasField record "comments"] ∧
    (∀ line, line ∈ presentLines (bookingEntries h record) ↔
      ∃ e ∈ bookingEntries h record, e.present = true ∧ line = e.label ++ e.text) ∧
    (presentLines (bookingEntries h record)).Sublist
      ((bookingEntries h record).map BodyEntry.line) ∧
    ((∀ e ∈ bookingEntries h record, e.present = false) →
      buildEventDescription h (.obj record) = .ok "") := by
  refine ⟨buildEventDescription_obj h record, rfl, rfl, ?_, presentLines_sublist _, ?_⟩
  · intro line
    simp only [presentLines, List.mem_map, List.mem_filter, BodyEntry.line]
    constructor
    · rintro ⟨e, ⟨he, hp⟩, rfl⟩; exact ⟨e, he, hp, rfl⟩
    · rintro ⟨e, he, hp, rfl⟩; exact ⟨e, ⟨he, hp⟩, rfl⟩
  · intro hnone
    rw [buildEventDescription_obj, presentLines_eq_nil _ hnone]
    rfl

/-- C16, witness: the row of the end-to-end scenario gives two lines, and a row with
no field gives the empty text. -/
theorem buildEventDescription_lines_in_fixed_order_witness :
    buildEventDescription utcHost (.obj bookingScenario) = .ok "🎤 Artista: X\n🏟️ Venue: Y" ∧
    (∀ e ∈ bookingEntries utcHost [], e.present = false) ∧
    buildEventDescription utcHost (.obj []) = .ok "" :=
  ⟨by decide, by decide,
    (buildEventDescription_lines_in_fixed_order utcHost []).2.2.2.2.2 (by decide)⟩

/-! ## Theorems: time window of a booking item -/

theorem splitChars_ne_nil (sep : Char) (cs : List Char) : splitChars sep cs ≠ [] := by
  cases cs with
  | nil => simp [splitChars]
  | cons c cs =>
    unfold splitChars
    split
    · simp
    · split <;> simp

theorem splitChars_append_sep (sep : Char) (a b : List Char) (ha : sep ∉ a) :
    splitChars sep (a ++ sep :: b) = a :: splitChars sep b := by
  induction a with
  | nil =>
    show splitChars sep (sep :: b) = _
    rw [splitChars]
    cases hb : splitChars sep b with
    | nil => exact absurd hb (splitChars_ne_nil sep b)
    | cons piece pieces => simp
  | cons c a ih =>
    have hc : c ≠ sep := fun he => ha (by simp [he])
    have ha2 : sep ∉ a := fun hm => ha (by simp [hm])
    show splitChars sep (c :: (a ++ sep :: b)) = _
    rw [splitChars, ih ha2]
    simp [hc]

theorem pad_two_facts : ∀ n < 60,
    ':' ∉ (JsDate.pad 2 (n : Nat)).data ∧
    splitChars ':' (JsDate.pad 2 (n : Nat)).data = [(JsDate.pad 2 (n : Nat)).data] ∧
    parseIntStr (JsDate.pad 2 (n : Nat)) = some (n : Int) := by
  decide

theorem splitColon_hhmm (hh mm : Nat) (hhh : hh < 24) (hmm : mm < 60) :
    (JsVal.str (hhmm hh mm)).splitColon = .ok [JsDate.pad 2 hh, JsDate.pad 2 mm] := by
  have h1 := pad_two_facts hh (by omega)
  have h2 := pad_two_facts mm hmm
  have hdata : (hhmm hh mm).data
      = (JsDate.pad 2 (hh : Nat)).data ++ ':' :: (JsDate.pad 2 (mm : Nat)).data := by
    simp [hhmm, String.data_append]
  simp only [JsVal.splitColon, hdata, splitChars_append_sep _ _ _ h1.1, h2.2.1]
  rfl

theorem setHours_constant_offset (h : Host) (k : Int)
    (hzone : ∀ t isUTC, h.localTZA t isUTC = k) (t0 : Int)
    (hrange : -8640000000000000 + 2 * msPerDay ≤ t0 ∧ t0 ≤ 8640000000000000 - 2 * msPerDay)
    (hh mm : Nat) (hhh : hh < 24) (hmm : mm < 60) :
    JsDate.setHours h (some t0) (some hh) (some mm) (some 0) (some 0)
      = some (day (t0 + k) * msPerDay + (hh * 3600000 + mm * 60000) - k) := by
  simp only [JsDate.setHours, Host.localTime, Host.utc, hzone, makeDate, makeTime, timeClip]
  have hd : day (t0 + k) * msPerDay ≤ t0 + k ∧ t0 + k < day (t0 + k) * msPerDay + msPerDay := by
    unfold day msPerDay; omega
  unfold msPerDay at hd hrange ⊢
  rw [if_pos (by omega)]
  refine congrArg some ?_
  omega

theorem setHoursOnly_constant_offset (h : Host) (k : Int)
    (hzone : ∀ t isUTC, h.localTZA t isUTC = k) (t0 : Int)
    (hrange : -8640000000000000 + 2 * msPerDay ≤ t0 ∧ t0 ≤ 8640000000000000 - 2 * msPerDay)
    (hh mm : Nat) (hhh : hh < 24) (hmm : mm < 60) :
    JsDate.setHoursOnly h (some (day (t0 + k) * msPerDay + (hh * 3600000 + mm * 60000) - k))
      (addInt (JsDate.getHours h
        (some (day (t0 + k) * msPerDay + (hh * 3600000 + mm * 60000) - k))) 2)
      = some (day (t0 + k) * msPerDay + (hh * 3600000 + mm * 60000) - k + 7200000) := by
  simp only [JsDate.setHoursOnly, JsDate.getHours, addInt, Option.map, Host.localTime, Host.utc,
    hzone, makeDate, makeTime, timeClip, hourFromTime, minFromTime, secFromTime, msFromTime,
    timeWithinDay]
  have hd : day (t0 + k) * msPerDay ≤ t0 + k ∧ t0 + k < day (t0 + k) * msPerDay + msPerDay := by
    unfold day msPerDay; omega
  generalize day (t0 + k) = D at hd ⊢
  unfold day msPerDay at *
  rw [if_pos (by omega)]
  refine congrArg some ?_
  omega

theorem localTime_parts (D : Int) (hh mm : Nat) (hhh : hh < 24) (hmm : mm < 60) :
    hourFromTime (D * msPerDay + (hh * 3600000 + mm * 60000)) = hh ∧
    minFromTime (D * msPerDay + (hh * 3600000 + mm * 60000)) = mm ∧
    secFromTime (D * msPerDay + (hh * 3600000 + mm * 60000)) = 0 ∧
    msFromTime (D * msPerDay + (hh * 3600000 + mm * 60000)) = 0 ∧
    day (D * msPerDay + (hh * 3600000 + mm * 60000)) = D := by
  unfold hourFromTime minFromTime secFromTime msFromTime timeWithinDay day msPerDay
  omega

/-- In a process whose zone keeps one UTC offset at every instant, for a booking record
whose `start_date` is a valid date at least two days inside the range of `Date`, the
transformer returns a timed item: its start is, on the local calendar day of
`start_date`, at `HH:MM` local when `hora_salida` is the text `HH:MM`, and at 21:00
local when `hora_salida` is absent; its end is the instant two hours after its start. -/
theorem booking_slot_in_fixed_offset_zone (h : Host) (k : Int)
    (hzone : ∀ t isUTC, h.localTZA t isUTC = k)
    (record : List (String × JsVal)) (t0 : Int)
    (hdate : JsVal.newDate h (JsVal.lookup "start_date" record) = some t0)
    (hrange : -8640000000000000 + 2 * msPerDay ≤ t0 ∧ t0 ≤ 8640000000000000 - 2 * msPerDay)
    (hh mm : Nat) (hhh : hh < 24) (hmm : mm < 60)
    (hhora : JsVal.lookup "hora_salida" record = .str (hhmm hh mm) ∨
      (hasField record "hora_salida" = false ∧ hh = 21 ∧ mm = 0)) :
    ∃ item ts startIso endIso,
      formatBookingEventToCalendarEvent h (.obj record) = .ok item ∧
      item.start = .timed startIso "America/Argentina/Buenos_Aires" ∧
      item.end_ = .timed endIso "America/Argentina/Buenos_Aires" ∧
      JsDate.toISOString (some ts) = .ok startIso ∧
      JsDate.toISOString (some (ts + 2 * 3600000)) = .ok endIso ∧
      day (h.localTime ts) = day (h.localTime t0) ∧
      hourFromTime (h.localTime ts) = hh ∧ minFromTime (h.localTime ts) = mm ∧
      secFromTime (h.localTime ts) = 0 ∧ msFromTime (h.localTime ts) = 0 := by
  have hparts := localTime_parts (day (t0 + k)) hh mm hhh hmm
  have hstart := setHours_constant_offset h k hzone t0 hrange hh mm hhh hmm
  have hend := setHoursOnly_constant_offset h k hzone t0 hrange hh mm hhh hmm
  have hloc : h.localTime (day (t0 + k) * msPerDay + (hh * 3600000 + mm * 60000) - k)
      = day (t0 + k) * msPerDay + (hh * 3600000 + mm * 60000) := by
    simp only [Host.localTime, hzone]; omega
  have hloc0 : h.localTime t0 = t0 + k := by simp only [Host.localTime, hzone]
  have hstartTime : (if (JsVal.lookup "hora_salida" record).truthy = true then do
          let parts ← (JsVal.lookup "hora_salida" record).splitColon
          Except.ok (JsDate.setHours h (some t0)
            ((parts.get? 0).bind parseIntStr) ((parts.get? 1).bind parseIntStr) (some 0) (some 0))
        else Except.ok (JsDate.setHours h (some t0) (some 21) (some 0) (some 0) (some 0)))
      = .ok (some (day (t0 + k) * msPerDay + (hh * 3600000 + mm * 60000) - k)) := by
    rcases hhora with hstr | ⟨habs, h21, h0⟩
    · have htr : (JsVal.lookup "hora_salida" record).truthy = true := by
        rw [hstr, JsVal.truthy_str]
        have hne : hhmm hh mm ≠ "" := by
          intro he
          have := congrArg String.length he
          simp [hhmm] at this
          exact absurd this.1.2 (by decide)
        simp [hne]
      rw [if_pos htr, hstr, splitColon_hhmm hh mm hhh hmm]
      have p1 := (pad_two_facts hh (by omega)).2.2
      have p2 := (pad_two_facts mm hmm).2.2
      simp only [bind, Except.bind, List.get?, Option.bind, p1, p2]
      rw [hstart]
    · have htr : ¬ (JsVal.lookup "hora_salida" record).truthy = true := by
        unfold hasField at habs; simp [habs]
      rw [if_neg htr]
      subst h21 h0
      rw [← hstart]
      rfl
  have hex : ∃ item, formatBookingEventToCalendarEvent h (.obj record) = .ok item := by
    simp only [formatBookingEventToCalendarEvent, JsVal.get_obj, bind, Except.bind, pure,
      Except.pure, hdate, buildEventDescription_obj]
    have hst := hstartTime
    simp only [bind, Except.bind] at hst
    rw [hst]
    simp only [hend, JsDate.toISOString]
    exact ⟨_, rfl⟩
  obtain ⟨item, hitem⟩ := hex
  obtain ⟨startTime, _, startIso, endIso, hst, _, hsIso, heIso, _, _, hs, he, _⟩ :=
    formatBooking_inv h record item hitem
  rw [hdate, hstartTime] at hst
  cases hst
  rw [hend] at heIso
  refine ⟨item, day (t0 + k) * msPerDay + (hh * 3600000 + mm * 60000) - k, startIso, endIso,
    hitem, hs, he, hsIso, heIso, ?_⟩
  rw [hloc, hloc0]
  exact ⟨hparts.2.2.2.2, hparts.1, hparts.2.1, hparts.2.2.1, hparts.2.2.2.1⟩

/-- In a process in America/New_York a booking row for 01:30 on
10 March 2024 gets an end one hour after its start (03:30 local), not two; and the
transformer builds no item for the last valid instant of `Date`. -/
theorem booking_slot_not_always_two_hours :
    timeWindow (formatBookingEventToCalendarEvent newYorkHost (.obj springForwardBooking))
      = .ok (.timed "2024-03-10T06:30:00.000Z" "America/Argentina/Buenos_Aires",
             .timed "2024-03-10T07:30:00.000Z" "America/Argentina/Buenos_Aires") ∧
    JsVal.newDate utcHost (JsVal.lookup "start_date" lastInstantBooking)
      = some 8640000000000000 ∧
    timeWindow (formatBookingEventToCalendarEvent utcHost (.obj lastInstantBooking))
      = .error ⟨"RangeError", "Invalid time value"⟩ := by
  refine ⟨by decide, by rfl, by decide⟩

/-- The booking row of the end-to-end scenario, `hora_salida` 22:30, in
a process at UTC-3. -/
theorem booking_slot_in_fixed_offset_zone_witness :
    JsVal.newDate utcMinus3Host (JsVal.lookup "start_date" bookingScenario)
      = some 1714521600000 ∧
    JsVal.lookup "hora_salida" bookingScenario = .str (hhmm 22 30) ∧
    ∃ item ts startIso endIso,
      formatBookingEventToCalendarEvent utcMinus3Host (.obj bookingScenario) = .ok item ∧
      item.start = .timed startIso "America/Argentina/Buenos_Aires" ∧
      item.end_ = .timed endIso "America/Argentina/Buenos_Aires" ∧
      JsDate.toISOString (some ts) = .ok startIso ∧
      JsDate.toISOString (some (ts + 2 * 3600000)) = .ok endIso ∧
      day (utcMinus3Host.localTime ts) = day (utcMinus3Host.localTime 1714521600000) ∧
      hourFromTime (utcMinus3Host.localTime ts) = ((22 : Nat) : Int) ∧
      minFromTime (utcMinus3Host.localTime ts) = ((30 : Nat) : Int) ∧
      secFromTime (utcMinus3Host.localTime ts) = 0 ∧
      msFromTime (utcMinus3Host.localTime ts) = 0 :=
  ⟨by rfl, by rfl,
    booking_slot_in_fixed_offset_zone utcMinus3Host (-10800000) (fun _ _ => rfl)
      bookingScenario 1714521600000 (by rfl) (by decide) 22 30 (by decide) (by decide)
      (Or.inl (by rfl))⟩

/-! ## Theorems: all-day items at a daylight-saving change -/

/-- C13. In a process in America/New_York the all-day items that
`formatReleaseToEvent` and `formatManagementEventToCalendar` build for a record dated
10 March 2024 end on their own start date `2024-03-10`. -/
theorem all_day_end_date_equals_start_date_at_spring_forward :
    timeWindow (formatReleaseToEvent newYorkHost (.obj springForwardRelease))
      = .ok (.allDay "2024-03-10", .allDay "2024-03-10") ∧
    timeWindow (formatManagementEventToCalendar newYorkHost (.obj springForwardManagementEvent))
      = .ok (.allDay "2024-03-10", .allDay "2024-03-10") ∧
    timeWindow (formatReleaseToEvent utcMinus3Host (.obj springForwardRelease))
      = .ok (.allDay "2024-03-10", .allDay "2024-03-11") := by
  refine ⟨by decide, by decide, by decide⟩

/-! ## Theorems: location and body of an item -/

theorem JsVal.get_eq_ok (v : JsVal) (key : String) (x : JsVal) (hget : v.get key = .ok x) :
    x = v.getOpt key := by
  cases v <;> simp_all [JsVal.get, JsVal.getOpt]

theorem JsVal.or_eq_firstPresent (a d : JsVal) : a.or d = firstPresent [a] d := rfl

theorem JsVal.or_or_eq_firstPresent (a b d : JsVal) : (a.or b).or d = firstPresent [a, b] d := by
  by_cases ha : a.truthy = true <;> by_cases hb : b.truthy = true <;>
    simp [JsVal.or, firstPresent, ha, hb]

theorem JsVal.or_or_or_eq_firstPresent (a b c d : JsVal) :
    ((a.or b).or c).or d = firstPresent [a, b, c] d := by
  by_cases ha : a.truthy = true <;> by_cases hb : b.truthy = true <;>
    by_cases hc : c.truthy = true <;> simp [JsVal.or, firstPresent, ha, hb, hc]

theorem intercalate_go_newline (acc : String) (lines : List String) :
    String.intercalate.go acc "\n" lines = acc ++ prefixedLines lines := by
  induction lines generalizing acc with
  | nil => simp [String.intercalate.go, prefixedLines]
  | cons line rest ih =>
    simp only [String.intercalate.go, ih, prefixedLines, String.append_assoc]

theorem intercalate_newline_cons (line : String) (rest : List String) :
    "\n".intercalate (line :: rest) = line ++ prefixedLines rest := by
  simp only [String.intercalate, intercalate_go_newline]

theorem prefixedLines_append (a b : List String) :
    prefixedLines (a ++ b) = prefixedLines a ++ prefixedLines b := by
  induction a with
  | nil => simp [prefixedLines]
  | cons line rest ih =>
    show prefixedLines (line :: (rest ++ b)) = _
    simp only [prefixedLines, ih, String.append_assoc]

theorem terminatedLines_append (a b : List String) :
    terminatedLines (a ++ b) = terminatedLines a ++ terminatedLines b := by
  induction a with
  | nil => simp [terminatedLines]
  | cons line rest ih =>
    show terminatedLines (line :: (rest ++ b)) = _
    simp only [terminatedLines, ih, String.append_assoc]

theorem terminatedLines_ite (p : Prop) [Decidable p] (line : String) :
    terminatedLines (if p then [line] else []) = if p then line ++ "\n" else "" := by
  by_cases hp : p <;> simp [hp, terminatedLines]

/-- What a returned live item is made of. -/
theorem formatShow_inv (h : Host) (record : List (String × JsVal)) (item : CalendarItem)
    (hok : formatShowToEvent h (.obj record) = .ok item) :
    item.description = "\n".intercalate (Job.fixedLines h .live record) ∧
    item.location = Job.location h .live record := by
  unfold formatShowToEvent at hok
  simp only [JsVal.get_obj, Except.bind_eq_ok_iff, pure, Except.pure, Except.ok.injEq,
    exists_eq_left'] at hok
  obtain ⟨artistName, hartist, venueName, hvenue, ticketeraName, htn, ticketeraUrl, htu,
    genre, hgenre, startIso, _, endIso, _, address, haddress, hitem⟩ := hok
  subst hitem
  have e1 := JsVal.get_eq_ok _ _ _ hartist
  have e2 := JsVal.get_eq_ok _ _ _ hvenue
  have e3 := JsVal.get_eq_ok _ _ _ htn
  have e4 := JsVal.get_eq_ok _ _ _ htu
  have e5 := JsVal.get_eq_ok _ _ _ hgenre
  have e6 := JsVal.get_eq_ok _ _ _ haddress
  subst e1 e2 e3 e4 e5 e6
  refine ⟨?_, ?_⟩
  · simp only [Job.fixedLines, intercalate_newline_cons, prefixedLines, nestedText, fieldText,
      JsVal.or_eq_firstPresent, String.append_assoc, String.append_empty]
    rfl
  · simp only [Job.location, composedLocation, JsVal.or]

/-- What a returned management item is made of. -/
theorem formatManagementEvent_inv (h : Host) (record : List (String × JsVal))
    (item : CalendarItem)
    (hok : formatManagementEventToCalendar h (.obj record) = .ok item) :
    item.description = terminatedLines (Job.fixedLines h .management record
      ++ presentLines (Job.optionalEntries h .management record)) ∧
    item.location = Job.location h .management record := by
  unfold formatManagementEventToCalendar at hok
  simp only [JsVal.get_obj, Except.bind_eq_ok_iff, pure, Except.pure, Except.ok.injEq,
    exists_eq_left'] at hok
  obtain ⟨startDateStr, _, endDateStr, _, colorId, _, hitem⟩ := hok
  subst hitem
  refine ⟨?_, ?_⟩
  · rw [terminatedLines_append]
    simp only [Job.fixedLines, Job.optionalEntries, presentLines_cons, presentLines_nil,
      terminatedLines_append, terminatedLines_ite, terminatedLines, BodyEntry.line, optLine,
      hasField, fieldText, fieldDateText, JsVal.or_eq_firstPresent, String.append_assoc,
      String.append_empty, List.append_nil]
  · simp only [Job.location, composedLocation, JsVal.or, hasField]

theorem Except.throw_bind_ne_ok {ε α β : Type} (e : ε) (f : α → Except ε β) (b : β) :
    ((throw e : Except ε α) >>= f) ≠ .ok b := by
  simp [throw, throwThe, MonadExceptOf.throw, bind, Except.bind]

/-- What a returned release item is made of. -/
theorem formatRelease_inv (h : Host) (record : List (String × JsVal)) (item : CalendarItem)
    (hok : formatReleaseToEvent h (.obj record) = .ok item) :
    item.description = "\n".intercalate (Job.fixedLines h .releases record
      ++ presentLines (Job.optionalEntries h .releases record)) ∧
    item.location = .undefined := by
  unfold formatReleaseToEvent at hok
  simp only [JsVal.get_obj, Except.bind_eq_ok_iff, pure, Except.pure, Except.ok.injEq,
    exists_eq_left'] at hok
  obtain ⟨a, _, hrest⟩ := hok
  by_cases h1 : (!a.truthy) = true
  · rw [if_pos h1] at hrest
    exact absurd hrest (Except.throw_bind_ne_ok _ _ _)
  · rw [if_neg h1] at hrest
    simp only [Except.bind_eq_ok_iff, Except.ok.injEq, exists_eq_left'] at hrest
    obtain ⟨_, _, hrest⟩ := hrest
    by_cases h2 : Option.isNone (JsVal.newDate h a) = true
    · rw [if_pos h2] at hrest
      exact absurd hrest (Except.throw_bind_ne_ok _ _ _)
    · rw [if_neg h2] at hrest
      simp only [Except.bind_eq_ok_iff, Except.ok.injEq, exists_eq_left'] at hrest
      obtain ⟨_, _, startDateStr, _, endDateStr, _, colorId, _, hitem⟩ := hrest
      subst hitem
      refine ⟨?_, rfl⟩
      simp only [JsVal.or_or_or_eq_firstPresent]
      simp only [JsVal.or_or_eq_firstPresent]
      show _ = "\n".intercalate ((_ :: _) ++ _)
      rw [List.cons_append, intercalate_newline_cons, prefixedLines_append]
      simp only [Job.optionalEntries, presentLines_cons, presentLines_nil, prefixedLines_append,
        prefixedLines, BodyEntry.line, releaseText, releaseSpotify, releaseApple, releaseCover,
        List.append_nil]
      by_cases hd : (firstPresent [JsVal.lookup "description" record,
          JsVal.lookup "overview" record] (.str "")).truthy = true <;>
        by_cases hs : (firstPresent [JsVal.lookup "spotify_url" record,
          (JsVal.lookup "external_urls" record).getOpt "spotify"] (.str "")).truthy = true <;>
        by_cases ha : (firstPresent [JsVal.lookup "apple_url" record,
          (JsVal.lookup "external_urls" record).getOpt "apple"] (.str "")).truthy = true <;>
        by_cases hc : (firstPresent [JsVal.lookup "cover" record, JsVal.lookup "cover_url" record,
          JsVal.lookup "artwork_url" record] (.str "")).truthy = true <;>
        simp only [hd, hs, ha, hc, if_true, if_false, Bool.false_eq_true, prefixedLines,
          String.append_assoc, String.append_empty, String.empty_append] <;> rfl

/-- C15, counterexample. A booking row with a venue address, a city and a country
gets the location `address, city, country`, not the address; a management row with a
venue name and no address gets `venue, city, country`, not the venue name. -/
theorem location_is_not_three_tiered :
    (formatBookingEventToCalendarEvent utcHost (.obj addressedBooking)).map
        (fun item => item.location) = .ok (.str "Calle 1, Z, AR") ∧
    threeTierLocation utcHost (JsVal.lookup "venue_address" addressedBooking)
        (JsVal.lookup "venue_name" addressedBooking) (JsVal.lookup "city" addressedBooking)
        (JsVal.lookup "country" addressedBooking) = .str "Calle 1" ∧
    (formatManagementEventToCalendar utcHost (.obj springForwardManagementEvent)).map
        (fun item => item.location) = .ok (.str "Y, Z, AR") ∧
    threeTierLocation utcHost (JsVal.lookup "venue_address" springForwardManagementEvent)
        (JsVal.lookup "venue_name" springForwardManagementEvent)
        (JsVal.lookup "city" springForwardManagementEvent)
        (JsVal.lookup "country" springForwardManagementEvent) = .str "Y" := by
  refine ⟨by rfl, by rfl, by rfl, by rfl⟩

/-- C15, amended. The location of a Live or Management item is the venue address when
it is present, else the composed `venue, city, country`.  The location of a Booking
item is the venue address when present, else the venue name when present, else the
empty text, and `, city, country` follows it whenever city and country are both
present; so it is exactly the venue address when the address is present and the city
or the country is absent.  A Releases item has no location. -/
theorem location_by_job (h : Host) (j : Job) (record : List (String × JsVal))
    (item : CalendarItem) (hok : j.transformer h (.obj record) = .ok item) :
    item.location = j.location h record ∧
    (j = .booking → hasField record "venue_address" = true →
      (hasField record "city" && hasField record "country") = false →
      item.location = JsVal.lookup "venue_address" record) ∧
    (j = .booking → hasField record "venue_address" = true →
      (hasField record "city" && hasField record "country") = true →
      item.location = .str ((JsVal.lookup "venue_address" record).toStr h ++ ", "
        ++ (JsVal.lookup "city" record).toStr h ++ ", "
        ++ (JsVal.lookup "country" record).toStr h)) ∧
    (j = .releases → item.location = .undefined) := by
  have hloc : item.location = j.location h record := by
    cases j with
    | live => exact (formatShow_inv h record item hok).2
    | management => exact (formatManagementEvent_inv h record item hok).2
    | booking =>
      obtain ⟨_, _, _, _, _, _, _, _, _, _, _, _, hl, _⟩ := formatBooking_inv h record item hok
      exact hl
    | releases => exact (formatRelease_inv h record item hok).2
  refine ⟨hloc, ?_, ?_, ?_⟩
  · intro hj ha hc
    subst hj
    rw [hloc]
    simp only [Job.location, ha, hc, if_true]
    simp
  · intro hj ha hc
    subst hj
    rw [hloc]
    have hat : (JsVal.lookup "venue_address" record).truthy = true := ha
    simp only [Job.location, ha, hc, if_true, hat]
  · intro hj
    subst hj
    rw [hloc]
    rfl

/-- C15, witness: the booking row of the end-to-end scenario, with a venue name only,
is located at `Y`. -/
theorem location_by_job_witness :
    Job.transformer utcMinus3Host .booking (.obj bookingScenario) = .ok bookingScenarioItem ∧
    bookingScenarioItem.location = Job.location utcMinus3Host .booking bookingScenario ∧
    Job.location utcMinus3Host .booking bookingScenario = .str "Y" :=
  have hok : Job.transformer utcMinus3Host .booking (.obj bookingScenario)
      = .ok bookingScenarioItem := by rfl
  ⟨hok, (location_by_job utcMinus3Host .booking bookingScenario bookingScenarioItem hok).1,
    by rfl⟩

/-- C17, counterexample. A release that has a date and no other field gets a body of
five lines, each showing the placeholder of its absent field. -/
theorem release_body_has_lines_for_absent_fields :
    (formatReleaseToEvent utcHost (.obj bareRelease)).map (fun item => item.description)
      = .ok ("🎵 Artista: Artista Desconocido\n📀 Título: Título Desconocido\n"
          ++ "📋 Tipo: Release\n🎭 Género: N/A\n🏷️  Sello: N/A") ∧
    (formatReleaseToEvent utcHost (.obj bareRelease)).map
        (fun item => (nonBlankLines item.description).length) = .ok 5 ∧
    presentLines (Job.optionalEntries utcHost .releases bareRelease) = [] := by
  refine ⟨by decide, by decide, by decide⟩

/-- The body of an item is made of the fixed lines of its job followed by the lines of
the optional entries that are present, in the order of the entries. -/
theorem description_is_joined_lines (h : Host) (j : Job)
    (record : List (String × JsVal)) (item : CalendarItem)
    (hok : j.transformer h (.obj record) = .ok item) :
    item.description = j.joinBody (j.fixedLines h record
      ++ presentLines (j.optionalEntries h record)) ∧
    (j.fixedLines h record).length = j.fixedLineCount ∧
    (j.fixedLines h record ++ presentLines (j.optionalEntries h record)).length
      = j.fixedLineCount
        + ((j.optionalEntries h record).filter (fun e => e.present)).length ∧
    (presentLines (j.optionalEntries h record)).Sublist
      ((j.optionalEntries h record).map BodyEntry.line) := by
  refine ⟨?_, ?_, ?_, presentLines_sublist _⟩
  · cases j with
    | live =>
      rw [(formatShow_inv h record item hok).1]
      simp [Job.joinBody, Job.optionalEntries, presentLines]
    | management => exact (formatManagementEvent_inv h record item hok).1
    | booking =>
      obtain ⟨_, description, _, _, _, hd, _, _, _, hdesc, _⟩ :=
        formatBooking_inv h record item hok
      rw [hdesc]
      rw [buildEventDescription_obj] at hd
      cases hd
      rfl
    | releases => exact (formatRelease_inv h record item hok).1
  · cases j <;> rfl
  · have hfix : (j.fixedLines h record).length = j.fixedLineCount := by cases j <;> rfl
    simp [presentLines, hfix]


/-! ## Theorems: category tags -/

/-- C14. A value that names a member which every object inherits is not given the
default tag: `getColorForCategory("constructor")`, `getColorForGenre("toString")` and
`getColorForReleaseType("Constructor")` return the inherited function, which is no
color code.  An absent value gets the default tag and a named key its entry. -/
theorem color_lookup_returns_inherited_member :
    getColorForCategory utcHost (.str "constructor") = .builtin "constructor" ∧
    getColorForGenre utcHost (.str "toString") = .builtin "toString" ∧
    getColorForReleaseType (.str "Constructor") = .ok (.builtin "constructor") ∧
    getColorForCategory utcHost .undefined = .str "1" ∧
    getColorForGenre utcHost .undefined = .str "1" ∧
    getColorForReleaseType .undefined = .ok (.str "6") ∧
    getColorForCategory utcHost (.str "Festival") = .str "2" ∧
    getColorForGenre utcHost (.str "Rock") = .str "2" ∧
    getColorForReleaseType (.str "EP") = .ok (.str "3") := by
  refine ⟨by rfl, by rfl, by rfl, by rfl, by rfl, by rfl, by rfl, by rfl, by rfl⟩

/-! ## Theorems: time window of an item -/

/-- C18. In a process in America/New_York the all-day items built for a release and
for a management row dated 10 March 2024 have an end date equal to their start date;
the timed items built for a live show and for a booking row of that date end after
they start. -/
theorem all_day_window_is_empty_at_spring_forward :
    (formatReleaseToEvent newYorkHost (.obj springForwardRelease)).map
        (fun item => decide (item.end_ = item.start)) = .ok true ∧
    (formatManagementEventToCalendar newYorkHost (.obj springForwardManagementEvent)).map
        (fun item => decide (item.end_ = item.start)) = .ok true ∧
    timeWindow (formatShowToEvent newYorkHost (.obj springForwardShow))
      = .ok (.timed "2024-03-10T02:00:00.000Z" "America/Argentina/Buenos_Aires",
             .timed "2024-03-10T05:00:00.000Z" "America/Argentina/Buenos_Aires") ∧
    timeWindow (formatBookingEventToCalendarEvent newYorkHost (.obj springForwardBooking))
      = .ok (.timed "2024-03-10T06:30:00.000Z" "America/Argentina/Buenos_Aires",
             .timed "2024-03-10T07:30:00.000Z" "America/Argentina/Buenos_Aires") := by
  refine ⟨by decide, by decide, by decide, by decide⟩

/-! ## Theorems: reading the releases -/

theorem mapE_debugRelease_ok (items : List JsVal)
    (hitems : ∀ r ∈ items, r ≠ .undefined ∧ r ≠ .null) :
    ∃ units, mapE debugRelease items = .ok units := by
  induction items with
  | nil => exact ⟨[], rfl⟩
  | cons r rest ih =>
    obtain ⟨units, hunits⟩ := ih (fun x hx => hitems x (List.mem_cons_of_mem _ hx))
    have hr := hitems r (List.mem_cons_self _ _)
    have hdebug : debugRelease r = .ok () := by
      cases r <;> first | rfl | exact absurd rfl hr.1 | exact absurd rfl hr.2
    exact ⟨() :: units, by simp [mapE, hdebug, hunits, bind, Except.bind, pure, Except.pure]⟩

/-- C19, counterexample. On the response `{data: {total: 0}}` `getReleases` returns
the object `{total: 0}`, which is not an array. -/
theorem getReleases_returns_non_array :
    (getReleases memService utcHost (worldWithFeeds (.arr []) nestedResponse)).out
      = .ok (.obj [("total", .num 0)]) := by
  rfl

/-- C19, amended. When the GET answers with a body that is not `null` or `undefined`,
and what the body wraps (the body itself when it is an array; else its `data` when
present, else its `releases` when present, else the empty array) is an array whose
first three entries are not `null` or `undefined`, `getReleases` returns that array
and leaves the world as the GET left it. -/
theorem getReleases_unwraps_body {σ : Type} (S : Service σ) (h : Host) (s s1 : σ)
    (body : JsVal) (items : List JsVal)
    (hget : S.httpGet releasesApiUrl s = (.ok body, s1))
    (hbody : body ≠ .undefined ∧ body ≠ .null)
    (hwrap : unwrapReleases body = .arr items)
    (hitems : ∀ r ∈ items.take 3, r ≠ .undefined ∧ r ≠ .null) :
    (getReleases S h s).out = .ok (.arr items) ∧ (getReleases S h s).st = s1 := by
  obtain ⟨units, hunits⟩ := mapE_debugRelease_ok _ hitems
  cases body with
  | undefined => exact absurd rfl hbody.1
  | null => exact absurd rfl hbody.2
  | arr xs =>
    simp only [unwrapReleases, JsVal.arr.injEq] at hwrap
    subst hwrap
    simp only [getReleases, bind, pure, Eff.bind, Eff.call, Eff.ofExcept, hget, hunits,
      Except.pure, Eff.ret, List.append_nil, and_self]
  | obj fields =>
    simp only [unwrapReleases, JsVal.getOpt] at hwrap
    simp only [getReleases, bind, pure, Eff.bind, Eff.call, Eff.ofExcept, hget, JsVal.get_obj,
      Except.bind, Except.pure, JsVal.or_or_eq_firstPresent, hwrap, hunits, Eff.ret,
      List.append_nil, and_self]
  | _ =>
    simp only [unwrapReleases, JsVal.getOpt] at hwrap
    simp only [getReleases, bind, pure, Eff.bind, Eff.call, Eff.ofExcept, hget, JsVal.get,
      Except.bind, Except.pure, JsVal.or_or_eq_firstPresent, hwrap, hunits, Eff.ret,
      List.append_nil, and_self]

/-- C19, witness: on the response `{releases: [datedRelease]}` `getReleases` returns
the one release. -/
theorem getReleases_unwraps_body_witness :
    unwrapReleases wrappedResponse = .arr [datedRelease] ∧
    (getReleases memService utcHost (worldWithFeeds (.arr []) wrappedResponse)).out
      = .ok (.arr [datedRelease]) :=
  ⟨by rfl,
    (getReleases_unwraps_body memService utcHost (worldWithFeeds (.arr []) wrappedResponse)
      (worldWithFeeds (.arr []) wrappedResponse) wrappedResponse [datedRelease] (by rfl)
      ⟨by simp [wrappedResponse], by simp [wrappedResponse]⟩ (by rfl)
      (by intro r hr
          simp only [List.take, List.mem_singleton] at hr
          subst hr
          exact ⟨by simp [datedRelease], by simp [datedRelease]⟩)).1⟩

/-! ## Theorems: the transformers are functions of the record -/

/-- The result of a Record Transformer is fixed by the fields it reads: two records
that agree on them are transformed alike (same item or same error). -/
theorem transformer_depends_only_on_read_fields (h : Host) (j : Job)
    (r1 r2 : List (String × JsVal))
    (hsame : ∀ k ∈ j.readFields, JsVal.lookup k r1 = JsVal.lookup k r2) :
    j.transformer h (.obj r1) = j.transformer h (.obj r2) := by
  cases j with
  | live =>
    have e0 := hsame "show_date" (by decide)
    have e1 := hsame "artist" (by decide)
    have e2 := hsame "venue" (by decide)
    have e3 := hsame "city" (by decide)
    have e4 := hsame "country" (by decide)
    have e5 := hsame "status" (by decide)
    have e6 := hsame "ticketera" (by decide)
    simp only [Job.transformer, formatShowToEvent, JsVal.get_obj,
      e0, e1, e2, e3, e4, e5, e6]
  | management =>
    have e0 := hsame "show_date" (by decide)
    have e1 := hsame "artist_name" (by decide)
    have e2 := hsame "venue_name" (by decide)
    have e3 := hsame "city" (by decide)
    have e4 := hsame "country" (by decide)
    have e5 := hsame "status" (by decide)
    have e6 := hsame "artist_genre" (by decide)
    have e7 := hsame "aforo" (by decide)
    have e8 := hsame "formato" (by decide)
    have e9 := hsame "nombre_festi" (by decide)
    have e10 := hsame "garantia" (by decide)
    have e11 := hsame "acuerdo" (by decide)
    have e12 := hsame "overage" (by decide)
    have e13 := hsame "com_promotor" (by decide)
    have e14 := hsame "spliteo" (by decide)
    have e15 := hsame "venue_address" (by decide)
    simp only [Job.transformer, formatManagementEventToCalendar,
      getColorForManagementEvent, JsVal.get_obj,
      e0, e1, e2, e3, e4, e5, e6, e7, e8, e9, e10, e11, e12, e13, e14, e15]
  | booking =>
    have e0 := hsame "start_date" (by decide)
    have e1 := hsame "hora_salida" (by decide)
    have e2 := hsame "artist_name" (by decide)
    have e3 := hsame "venue_name" (by decide)
    have e4 := hsame "city" (by decide)
    have e5 := hsame "country" (by decide)
    have e6 := hsame "show_type" (by decide)
    have e7 := hsame "festival_name" (by decide)
    have e8 := hsame "category" (by decide)
    have e9 := hsame "status" (by decide)
    have e10 := hsame "capacity" (by decide)
    have e11 := hsame "tickets_sold" (by decide)
    have e12 := hsame "price" (by decide)
    have e13 := hsame "currency" (by decide)
    have e14 := hsame "ticketera_name" (by decide)
    have e15 := hsame "ticketera_url" (by decide)
    have e16 := hsame "sale_date" (by decide)
    have e17 := hsame "fecha_preventa" (by decide)
    have e18 := hsame "comments" (by decide)
    have e19 := hsame "venue_address" (by decide)
    simp only [Job.transformer, formatBookingEventToCalendarEvent,
      buildEventDescription, JsVal.get_obj,
      e0, e1, e2, e3, e4, e5, e6, e7, e8, e9, e10, e11, e12, e13, e14, e15, e16, e17, e18,
      e19]
  | releases =>
    have e0 := hsame "artist" (by decide)
    have e1 := hsame "artist_name" (by decide)
    have e2 := hsame "title" (by decide)
    have e3 := hsame "name" (by decide)
    have e4 := hsame "type" (by decide)
    have e5 := hsame "release_type" (by decide)
    have e6 := hsame "release_date" (by decide)
    have e7 := hsame "date" (by decide)
    have e8 := hsame "created_at" (by decide)
    have e9 := hsame "genre" (by decide)
    have e10 := hsame "label" (by decide)
    have e11 := hsame "label_name" (by decide)
    have e12 := hsame "description" (by decide)
    have e13 := hsame "overview" (by decide)
    have e14 := hsame "cover" (by decide)
    have e15 := hsame "cover_url" (by decide)
    have e16 := hsame "artwork_url" (by decide)
    have e17 := hsame "external_urls" (by decide)
    have e18 := hsame "spotify_url" (by decide)
    have e19 := hsame "apple_url" (by decide)
    simp only [Job.transformer, formatReleaseToEvent, releaseDateOf,
      JsVal.get_obj,
      e0, e1, e2, e3, e4, e5, e6, e7, e8, e9, e10, e11, e12, e13, e14, e15, e16, e17, e18,
      e19]

/-- The booking row of the end-to-end scenario and the same row with two more columns
give the same item. -/
theorem transformer_depends_only_on_read_fields_witness :
    (∀ k ∈ Job.readFields .booking,
      JsVal.lookup k bookingScenarioWithIds = JsVal.lookup k bookingScenario) ∧
    Job.transformer utcMinus3Host .booking (.obj bookingScenarioWithIds)
      = Job.transformer utcMinus3Host .booking (.obj bookingScenario) ∧
    Job.transformer utcMinus3Host .booking (.obj bookingScenario) = .ok bookingScenarioItem :=
  have hsame : ∀ k ∈ Job.readFields .booking,
      JsVal.lookup k bookingScenarioWithIds = JsVal.lookup k bookingScenario := by
    intro k hk
    simp only [Job.readFields, List.mem_cons, List.mem_singleton, List.not_mem_nil, or_false]
      at hk
    rcases hk with hk | hk | hk | hk | hk | hk | hk | hk | hk | hk | hk | hk | hk | hk | hk
      | hk | hk | hk | hk | hk <;> subst hk <;> rfl
  ⟨hsame,
    transformer_depends_only_on_read_fields utcMinus3Host .booking bookingScenarioWithIds
      bookingScenario hsame,
    by rfl⟩

/-! ## Theorems: calendar resolution with a forced id -/

/-- C21. With `forceCalendarId` set, when `calendars.get` throws for the configured
id of the Live calendar (and for `malbec@daleplay.la`), `findMalbecCalendar` does not
throw: it takes `primary`, and the Live job then deletes from and inserts into
`primary`, leaving the configured calendar as it was.  In the same situation
`findManagementCalendar`, `findBookingCalendar` and `findReleasesCalendar` throw. -/
theorem live_resolution_falls_back_to_another_calendar :
    liveConfig.forceCalendarId = true ∧
    (findMalbecCalendar (memServiceWithout [liveConfig.calendarId, "malbec@daleplay.la"])
        liveConfig (worldWithFeeds (.arr [goodShow]) (.arr []))).out = .ok "primary" ∧
    (findMalbecCalendar (memServiceWithout [liveConfig.calendarId])
        liveConfig (worldWithFeeds (.arr [goodShow]) (.arr []))).out
      = .ok "malbec@daleplay.la" ∧
    (ServiceAccountCalendarUpdater.updateCalendar
        (memServiceWithout [liveConfig.calendarId, "malbec@daleplay.la"]) utcHost
        (worldWithFeeds (.arr [goodShow]) (.arr []))).out.toBool = true ∧
    mutatedCalendars (ServiceAccountCalendarUpdater.updateCalendar
        (memServiceWithout [liveConfig.calendarId, "malbec@daleplay.la"]) utcHost
        (worldWithFeeds (.arr [goodShow]) (.arr []))).log = ["primary", "primary"] ∧
    (ServiceAccountCalendarUpdater.updateCalendar
        (memServiceWithout [liveConfig.calendarId, "malbec@daleplay.la"]) utcHost
        (worldWithFeeds (.arr [goodShow]) (.arr []))).st.events "primary"
      = [⟨"event-0", some "A - V", some "2024-05-01T21:00:00.000Z", none⟩] ∧
    (ServiceAccountCalendarUpdater.updateCalendar
        (memServiceWithout [liveConfig.calendarId, "malbec@daleplay.la"]) utcHost
        (worldWithFeeds (.arr [goodShow]) (.arr []))).st.events liveConfig.calendarId
      = [staleEvent] ∧
    (findManagementCalendar (memServiceWithout [mgmConfig.calendarId]) mgmConfig
        (worldWithFeeds (.arr []) (.arr []))).out = .error ⟨"Error", "Not Found"⟩ ∧
    (findBookingCalendar (memServiceWithout [bookingConfig.calendarId]) bookingConfig
        (worldWithFeeds (.arr []) (.arr []))).out = .error ⟨"Error", "Not Found"⟩ ∧
    (findReleasesCalendar (memServiceWithout [releasesConfig.calendarId]) releasesConfig
        (worldWithFeeds (.arr []) (.arr []))).out = .error ⟨"Error", "Not Found"⟩ := by
  refine ⟨by decide, by decide, by decide, by decide, by decide, by decide, by decide,
    by decide, by decide, by decide⟩

/-! ## Theorems: category tag of a management event -/

/-- C22, amended. For every management event whose `formato` is absent or a text (or
that has a `nombre_festi`), `getColorForManagementEvent` returns `2` when `nombre_festi`
is present; else `5` when `formato` contains `acústico`, ignoring case; else `1` when
`aforo` is greater than 10000; else `10` when `status` is exactly `confirmed`; else
`6`.  What it returns is always one of `2`, `5`, `1`, `10`, `6`. -/
theorem getColorForManagementEvent_by_priority (h : Host) (record : List (String × JsVal))
    (hformato : hasField record "nombre_festi" = true ∨ hasField record "formato" = false ∨
      ∃ s, JsVal.lookup "formato" record = .str s) :
    ∃ color, getColorForManagementEvent h (.obj record) = .ok color ∧
      color ∈ ["2", "5", "1", "10", "6"] ∧
      (hasField record "nombre_festi" = true → color = "2") ∧
      (hasField record "nombre_festi" = false → isAcoustic record = true → color = "5") ∧
      (hasField record "nombre_festi" = false → isAcoustic record = false →
        isLargeEvent h record = true → color = "1") ∧
      (hasField record "nombre_festi" = false → isAcoustic record = false →
        isLargeEvent h record = false → JsVal.lookup "status" record = .str "confirmed" →
        color = "10") ∧
      (hasField record "nombre_festi" = false → isAcoustic record = false →
        isLargeEvent h record = false → JsVal.lookup "status" record ≠ .str "confirmed" →
        color = "6") := by
  by_cases hfesti : hasField record "nombre_festi" = true
  · have ht : (JsVal.lookup "nombre_festi" record).truthy = true := hfesti
    refine ⟨"2", ?_, by simp, fun _ => rfl, ?_, ?_, ?_, ?_⟩
    · simp only [getColorForManagementEvent, JsVal.get_obj, bind, Except.bind, pure,
        Except.pure, ht, if_true]
    all_goals intro hno; rw [hfesti] at hno; exact absurd hno (by decide)
  · have hfalse : hasField record "nombre_festi" = false := by
      simpa using hfesti
    have ht : ¬ (JsVal.lookup "nombre_festi" record).truthy = true := hfesti
    -- the acoustic test returns, with the value of `isAcoustic`
    have hac : (if (JsVal.lookup "formato" record).truthy = true then do
          let lower ← (JsVal.lookup "formato" record).toLowerCase
          (Except.ok (includes lower "acústico") : Except JsError Bool)
        else Except.ok false) = .ok (isAcoustic record) := by
      rcases hformato with hf | hf | ⟨s, hs⟩
      · exact absurd hf hfesti
      · have hft : ¬ (JsVal.lookup "formato" record).truthy = true := by
          unfold hasField at hf; simp [hf]
        rw [if_neg hft]
        have : isAcoustic record = false := by
          unfold isAcoustic
          cases hv : JsVal.lookup "formato" record with
          | str s =>
            rw [hv] at hft
            have hs : s = "" := by
              by_contra hne
              exact hft (by simp [JsVal.truthy_str, hne])
            subst hs
            rfl
          | _ => rfl
        rw [this]
      · by_cases hft : (JsVal.lookup "formato" record).truthy = true
        · rw [if_pos hft]
          simp only [hs, JsVal.toLowerCase, isAcoustic, bind, Except.bind]
        · rw [if_neg hft]
          rw [hs] at hft
          have hse : s = "" := by
            by_contra hne
            exact hft (by simp [JsVal.truthy_str, hne])
          subst hse
          simp only [isAcoustic, hs]
          rfl
    have hlarge : ((JsVal.lookup "aforo" record).truthy = true ∧
        JsVal.gtNum h (JsVal.lookup "aforo" record) 10000 = true)
          ↔ isLargeEvent h record = true := by
      simp [isLargeEvent, hasField]
    simp only [bind, pure, Except.bind, Except.pure] at hac
    simp only [getColorForManagementEvent, JsVal.get_obj, bind, Except.bind, pure,
      Except.pure, ht, if_false, Bool.false_eq_true, hac, Bool.and_eq_true, hlarge]
    by_cases ha : isAcoustic record = true
    · rw [if_pos ha]
      refine ⟨"5", rfl, by simp, ?_, fun _ _ => rfl, ?_, ?_, ?_⟩
      · intro hyes; rw [hfalse] at hyes; exact absurd hyes (by decide)
      all_goals intro _ hna; rw [ha] at hna; exact absurd hna (by decide)
    · rw [if_neg ha]
      by_cases hl : isLargeEvent h record = true
      · rw [if_pos hl]
        refine ⟨"1", rfl, by simp, ?_, ?_, fun _ _ _ => rfl, ?_, ?_⟩
        · intro hyes; rw [hfalse] at hyes; exact absurd hyes (by decide)
        · intro _ hya; exact absurd hya ha
        all_goals intro _ _ hnl; rw [hl] at hnl; exact absurd hnl (by decide)
      · rw [if_neg hl]
        by_cases hst : JsVal.lookup "status" record = .str "confirmed"
        · rw [hst]
          refine ⟨"10", rfl, by simp, ?_, ?_, ?_, fun _ _ _ _ => rfl, ?_⟩
          · intro hyes; rw [hfalse] at hyes; exact absurd hyes (by decide)
          · intro _ hya; exact absurd hya ha
          · intro _ _ hyl; exact absurd hyl hl
          · intro _ _ _ hne; exact absurd rfl hne
        · split
          · rename_i heq; exact absurd heq hst
          · refine ⟨"6", rfl, by simp, ?_, ?_, ?_, ?_, fun _ _ _ _ => rfl⟩
            · intro hyes; rw [hfalse] at hyes; exact absurd hyes (by decide)
            · intro _ hya; exact absurd hya ha
            · intro _ _ hyl; exact absurd hyl hl
            · intro _ _ _ hyes; exact absurd hyes hst

/-- C22, witness: a confirmed acoustic show with a large `aforo` and no festival gets
the tag `5`; a confirmed show whose `aforo` is the number 20000 or the text `20000.5`
or `1e5` gets the tag `1`, and one whose `aforo` is 10000 or the text `abc` gets the
tag `10`. -/
theorem getColorForManagementEvent_by_priority_witness :
    JsVal.lookup "formato" acousticEvent = .str "Set ACÚSTICO" ∧
    isAcoustic acousticEvent = true ∧
    getColorForManagementEvent utcHost (.obj acousticEvent) = .ok "5" ∧
    getColorForManagementEvent utcHost (.obj (eventWithAforo (.num 20000))) = .ok "1" ∧
    getColorForManagementEvent utcHost (.obj (eventWithAforo (.str "20000.5"))) = .ok "1" ∧
    getColorForManagementEvent utcHost (.obj (eventWithAforo (.str "1e5"))) = .ok "1" ∧
    getColorForManagementEvent utcHost (.obj (eventWithAforo (.num 10000))) = .ok "10" ∧
    getColorForManagementEvent utcHost (.obj (eventWithAforo (.str "abc"))) = .ok "10" :=
  have hspec := getColorForManagementEvent_by_priority utcHost acousticEvent
    (Or.inr (Or.inr ⟨"Set ACÚSTICO", by rfl⟩))
  ⟨by rfl, by decide,
    match hspec with
    | ⟨_, hrun, _, _, hacoustic, _⟩ => by
      rw [hacoustic (by decide) (by decide)] at hrun
      exact hrun,
    by decide, by decide, by decide, by decide, by decide⟩


/-! ## Theorems: existing events and duplicates (Live) -/

/-- C23. For an all-day item titled `X - Y` on 1 June 2024 and an existing all-day
event titled `X - Y` on 1 May 2024, `eventExists` answers `true`: the two starts are
compared by their `dateTime`, which neither has.  Timed events are told apart by
their start. -/
theorem eventExists_ignores_the_date_of_all_day_events :
    juneItem.start = .allDay "2024-06-01" ∧
    eventExists juneItem [⟨"a1", some "X - Y", none, some "2024-05-01"⟩] = true ∧
    eventExists juneEveningItem [⟨"a1", some "X - Y", some "2024-05-01T21:00:00.000Z", none⟩]
      = false ∧
    eventExists juneEveningItem [⟨"a1", some "X - Y", some "2024-06-01T21:00:00.000Z", none⟩]
      = true := by
  refine ⟨rfl, by rfl, by rfl, by rfl⟩

theorem deleteDuplicates_spec {σ : Type} (S : Service σ) (calendarId : String)
    (duplicates : List ExistingItem) (n : Nat) (s : σ) :
    ∃ r : Nat, (deleteDuplicates S calendarId duplicates n s).out = .ok r ∧
      deleteAttempts (deleteDuplicates S calendarId duplicates n s).log
        = duplicates.map ExistingItem.id ∧
      (deleteDuplicates S calendarId duplicates n s).log.length = duplicates.length ∧
      r + deleteFailures (deleteDuplicates S calendarId duplicates n s).log
        = n + duplicates.length := by
  induction duplicates generalizing n s with
  | nil => exact ⟨n, rfl, rfl, rfl, rfl⟩
  | cons event rest ih =>
    cases h : (S.eventsDelete calendarId event.id s).1 with
    | ok resp =>
      obtain ⟨r, h1, h2, h3, h4⟩ := ih (n + 1) (S.eventsDelete calendarId event.id s).2
      refine ⟨r, ?_, ?_, ?_, ?_⟩ <;>
        simp_all [deleteDuplicates, bind, Eff.bind, Eff.attempt, Eff.call, deleteAttempts,
          deleteFailures, Except.toBool]
      all_goals omega
    | error e =>
      obtain ⟨r, h1, h2, h3, h4⟩ := ih n (S.eventsDelete calendarId event.id s).2
      refine ⟨r, ?_, ?_, ?_, ?_⟩ <;>
        simp_all [deleteDuplicates, bind, Eff.bind, Eff.attempt, Eff.call, deleteAttempts,
          deleteFailures, Except.toBool]
      all_goals omega

theorem keptOf_perm (events : List ExistingItem) (seen : List String) :
    (keptOf events seen ++ duplicatesOf events seen).Perm events := by
  induction events generalizing seen with
  | nil => simp [keptOf, duplicatesOf]
  | cons event rest ih =>
    by_cases hs : eventKey event ∈ seen
    · simp only [keptOf, duplicatesOf, hs, if_true]
      exact List.perm_middle.trans (List.Perm.cons _ (ih seen))
    · simp only [keptOf, duplicatesOf, hs, if_false, List.cons_append]
      exact List.Perm.cons _ (ih _)

theorem keptOf_sublist (events : List ExistingItem) (seen : List String) :
    (keptOf events seen).Sublist events := by
  induction events generalizing seen with
  | nil => simp [keptOf]
  | cons event rest ih =>
    by_cases hs : eventKey event ∈ seen
    · simp only [keptOf, hs, if_true]
      exact List.Sublist.cons _ (ih seen)
    · simp only [keptOf, hs, if_false]
      exact List.Sublist.cons₂ _ (ih _)

theorem duplicatesOf_sublist (events : List ExistingItem) (seen : List String) :
    (duplicatesOf events seen).Sublist events := by
  induction events generalizing seen with
  | nil => simp [duplicatesOf]
  | cons event rest ih =>
    by_cases hs : eventKey event ∈ seen
    · simp only [duplicatesOf, hs, if_true]
      exact List.Sublist.cons₂ _ (ih seen)
    · simp only [duplicatesOf, hs, if_false]
      exact List.Sublist.cons _ (ih _)

theorem keptOf_keys (events : List ExistingItem) (seen : List String) :
    ((keptOf events seen).map eventKey).Nodup ∧
    (∀ k, k ∈ (keptOf events seen).map eventKey ↔ k ∈ events.map eventKey ∧ k ∉ seen) := by
  induction events generalizing seen with
  | nil => simp [keptOf]
  | cons event rest ih =>
    by_cases hs : eventKey event ∈ seen
    · obtain ⟨h1, h2⟩ := ih seen
      simp only [keptOf, hs, if_true]
      refine ⟨h1, fun k => ?_⟩
      rw [h2 k]
      constructor
      · rintro ⟨hk, hn⟩; exact ⟨by simp [hk], hn⟩
      · rintro ⟨hk, hn⟩
        refine ⟨?_, hn⟩
        simp only [List.map_cons, List.mem_cons] at hk
        rcases hk with hk | hk
        · subst hk; exact absurd hs hn
        · exact hk
    · obtain ⟨h1, h2⟩ := ih (eventKey event :: seen)
      simp only [keptOf, hs, if_false, List.map_cons, List.nodup_cons]
      refine ⟨⟨?_, h1⟩, fun k => ?_⟩
      · intro hmem
        exact ((h2 _).1 hmem).2 (List.mem_cons_self _ _)
      · simp only [List.mem_cons, h2 k, not_or]
        constructor
        · rintro (hk | ⟨hk, hne, hn⟩)
          · subst hk; exact ⟨Or.inl rfl, hs⟩
          · exact ⟨Or.inr hk, hn⟩
        · rintro ⟨hk | hk, hn⟩
          · exact Or.inl hk
          · by_cases hke : k = eventKey event
            · exact Or.inl hke
            · exact Or.inr ⟨hk, hke, hn⟩

theorem keptOf_find (events : List ExistingItem) (seen : List String) (k : String)
    (hk : k ∉ seen) :
    (keptOf events seen).find? (fun e => decide (eventKey e = k))
      = events.find? (fun e => decide (eventKey e = k)) := by
  induction events generalizing seen with
  | nil => simp [keptOf]
  | cons event rest ih =>
    by_cases hs : eventKey event ∈ seen
    · have hne : eventKey event ≠ k := fun he => hk (he ▸ hs)
      simp only [keptOf, hs, if_true, List.find?_cons, hne, decide_False]
      exact ih seen hk
    · simp only [keptOf, hs, if_false, List.find?_cons]
      by_cases he : eventKey event = k
      · simp [he]
      · simp only [he, decide_False]
        exact ih _ (by simp [hk, Ne.symm he])

theorem duplicatesOf_earlier (pre post : List ExistingItem) (event : ExistingItem) :
    duplicatesOf (pre ++ event :: post) []
      = duplicatesOf pre []
        ++ duplicatesOf (event :: post) ((keptOf pre []).map eventKey).reverse ∧
    (eventKey event ∈ ((keptOf pre []).map eventKey).reverse
      ↔ eventKey event ∈ pre.map eventKey) := by
  have hgen : ∀ (pre rest : List ExistingItem) (seen : List String),
      duplicatesOf (pre ++ rest) seen
        = duplicatesOf pre seen
          ++ duplicatesOf rest (((keptOf pre seen).map eventKey).reverse ++ seen) := by
    intro pre
    induction pre with
    | nil => intro rest seen; simp [duplicatesOf, keptOf]
    | cons e pre ih =>
      intro rest seen
      show duplicatesOf (e :: (pre ++ rest)) seen = _
      by_cases hs : eventKey e ∈ seen
      · simp only [duplicatesOf, keptOf, hs, if_true, ih, List.cons_append]
      · simp only [duplicatesOf, keptOf, hs, if_false, ih, List.map_cons,
          List.reverse_cons, List.append_assoc, List.singleton_append]
  refine ⟨by simpa using hgen pre (event :: post) [], ?_⟩
  rw [List.mem_reverse, (keptOf_keys pre []).2]
  simp

theorem append_sep_inj {α : Type} (sep : α) (l1 l2 r1 r2 : List α)
    (heq : l1 ++ sep :: r1 = l2 ++ sep :: r2) (h1 : sep ∉ r1) (h2 : sep ∉ r2) :
    l1 = l2 ∧ r1 = r2 := by
  induction l1 generalizing l2 with
  | nil =>
    cases l2 with
    | nil => simpa using heq
    | cons c l2 =>
      simp only [List.nil_append, List.cons_append, List.cons.injEq] at heq
      exact absurd (heq.2 ▸ (by simp : sep ∈ l2 ++ sep :: r2)) h1
  | cons a l1 ih =>
    cases l2 with
    | nil =>
      simp only [List.nil_append, List.cons_append, List.cons.injEq] at heq
      exact absurd (heq.2 ▸ (by simp : sep ∈ l1 ++ sep :: r1)) h2
    | cons c l2 =>
      simp only [List.cons_append, List.cons.injEq] at heq
      obtain ⟨hl, hr⟩ := ih l2 heq.2
      exact ⟨by rw [heq.1, hl], hr⟩

theorem eventKey_data (e : ExistingItem) :
    (eventKey e).data = e.summaryText.data ++ '|' :: e.startText.data := by
  simp [eventKey, String.data_append]

/-- Two events that both have a title, and whose start texts have no `|`, have the
same key exactly when they have the same title and the same start text. -/
theorem eventKey_inj (e1 e2 : ExistingItem) (h1 : e1.wellFormed) (h2 : e2.wellFormed) :
    eventKey e1 = eventKey e2 ↔ e1.summary = e2.summary ∧ e1.startText = e2.startText := by
  obtain ⟨t1, ht1⟩ := Option.isSome_iff_exists.1 h1.1
  obtain ⟨t2, ht2⟩ := Option.isSome_iff_exists.1 h2.1
  have hs1 : e1.summaryText = t1 := by simp [ExistingItem.summaryText, ht1]
  have hs2 : e2.summaryText = t2 := by simp [ExistingItem.summaryText, ht2]
  constructor
  · intro hkey
    have hdata := congrArg String.data hkey
    rw [eventKey_data, eventKey_data] at hdata
    obtain ⟨ha, hb⟩ := append_sep_inj '|' _ _ _ _ hdata h1.2 h2.2
    have hsum : e1.summaryText = e2.summaryText := String.ext ha
    refine ⟨?_, String.ext hb⟩
    rw [ht1, ht2, ← hs1, ← hs2, hsum]
  · rintro ⟨hsum, hstart⟩
    simp only [eventKey, ExistingItem.summaryText, hsum, hstart]

/-- C24. An event without title and an event titled `undefined`, both
on 1 May 2024, get the same key: the second is deleted as a duplicate of the first,
although their titles differ. -/
theorem clearDuplicateEvents_confuses_missing_title_with_text :
    untitledEvent.summary ≠ eventTitledUndefined.summary ∧
    eventKey untitledEvent = eventKey eventTitledUndefined ∧
    duplicatesOf [untitledEvent, eventTitledUndefined] [] = [eventTitledUndefined] ∧
    deleteAttempts (clearDuplicateEvents memService "cal"
        (worldHolding [untitledEvent, eventTitledUndefined])).log = ["e2"] ∧
    (clearDuplicateEvents memService "cal"
        (worldHolding [untitledEvent, eventTitledUndefined])).st.events "cal"
      = [untitledEvent] := by
  refine ⟨by decide, by decide, by decide, by decide, by decide⟩

/-- The duplicates of `clearDuplicateEvents` by key: it identifies an event by the text key
`summary|start` (start: `dateTime`, else `date`; a missing value reads `undefined`).
Whenever the listing returns, it issues one delete per event whose key an earlier
event of the listing has, in listing order, and no other delete; the number it
reports plus the number of deletes that failed is the number of those events.  The
events are split into the kept ones and the deleted ones, both in listing order; the
kept ones have pairwise distinct keys and hold, for every key, the first event of the
listing with that key; the number of deleted ones is the number of events minus the
number of distinct keys.  Among events that all have a title and whose start texts
have no `|`, two events have the same key exactly when they have the same title and
the same start. -/
theorem clearDuplicateEvents_deletes_later_occurrences_of_a_key {σ : Type} (S : Service σ)
    (calendarId : String) (s s1 : σ) (events : List ExistingItem)
    (hlist : S.eventsList calendarId 2500 s = (.ok events, s1)) :
    deleteAttempts (clearDuplicateEvents S calendarId s).log
      = (duplicatesOf events []).map ExistingItem.id ∧
    (∃ n, (clearDuplicateEvents S calendarId s).out = .ok n ∧
      n + deleteFailures (clearDuplicateEvents S calendarId s).log
        = (duplicatesOf events []).length) ∧
    (∀ pre event post, events = pre ++ event :: post →
      ∃ later, later.Sublist post ∧
        duplicatesOf events [] = duplicatesOf pre []
          ++ (if eventKey event ∈ pre.map eventKey then event :: later else later)) ∧
    (keptOf events [] ++ duplicatesOf events []).Perm events ∧
    (keptOf events []).Sublist events ∧ (duplicatesOf events []).Sublist events ∧
    ((keptOf events []).map eventKey).Nodup ∧
    (∀ k, (keptOf events []).find? (fun e => decide (eventKey e = k))
      = events.find? (fun e => decide (eventKey e = k))) ∧
    (duplicatesOf events []).length + (events.map eventKey).dedup.length = events.length ∧
    (∀ e1 e2 : ExistingItem, e1.wellFormed → e2.wellFormed →
      (eventKey e1 = eventKey e2 ↔ e1.summary = e2.summary ∧ e1.startText = e2.startText)) := by
  obtain ⟨r, h1, h2, h3, h4⟩ := deleteDuplicates_spec S calendarId (duplicatesOf events []) 0 s1
  have hlog : deleteAttempts (clearDuplicateEvents S calendarId s).log
      = (duplicatesOf events []).map ExistingItem.id ∧
      ∃ n, (clearDuplicateEvents S calendarId s).out = .ok n ∧
        n + deleteFailures (clearDuplicateEvents S calendarId s).log
          = (duplicatesOf events []).length := by
    by_cases hzero : (duplicatesOf events []).length = 0
    · have hnil : duplicatesOf events [] = [] := List.length_eq_zero.1 hzero
      simp [clearDuplicateEvents, bind, Eff.bind, Eff.call, hlist, Except.toBool, hnil, pure,
        Eff.ret, deleteAttempts, deleteFailures]
    · simp only [clearDuplicateEvents, bind, Eff.bind, Eff.call, hlist, Except.toBool, hzero,
        if_false, List.singleton_append, deleteAttempts, deleteFailures, h1]
      exact ⟨h2, r, rfl, by omega⟩
  have hkeys := keptOf_keys events []
  refine ⟨hlog.1, hlog.2, ?_, keptOf_perm events [], keptOf_sublist events [],
    duplicatesOf_sublist events [], hkeys.1, fun k => keptOf_find events [] k (by simp), ?_,
    eventKey_inj⟩
  · intro pre event post hsplit
    subst hsplit
    obtain ⟨hsplit, hmem⟩ := duplicatesOf_earlier pre post event
    by_cases hk : eventKey event ∈ pre.map eventKey
    · refine ⟨duplicatesOf post ((keptOf pre []).map eventKey).reverse,
        duplicatesOf_sublist _ _, ?_⟩
      rw [hsplit, if_pos hk]
      simp only [duplicatesOf, hmem.2 hk, if_true]
    · refine ⟨duplicatesOf post
          (eventKey event :: ((keptOf pre []).map eventKey).reverse),
        duplicatesOf_sublist _ _, ?_⟩
      rw [hsplit, if_neg hk]
      have hnot : eventKey event ∉ ((keptOf pre []).map eventKey).reverse :=
        fun hm => hk (hmem.1 hm)
      simp only [duplicatesOf, hnot, if_false]
  · have hperm : ((keptOf events []).map eventKey).Perm (events.map eventKey).dedup := by
      refine (List.perm_ext_iff_of_nodup hkeys.1 (List.nodup_dedup _)).2 (fun k => ?_)
      rw [hkeys.2 k, List.mem_dedup]
      simp
    have hlen := (keptOf_perm events []).length_eq
    have hlen2 := hperm.length_eq
    simp only [List.length_append, List.length_map] at hlen hlen2
    omega

/-- Of three events titled `X - Y`, two of them on the same day, the
later one of that day is deleted and the two others are kept. -/
theorem clearDuplicateEvents_deletes_later_occurrences_of_a_key_witness :
    memService.eventsList "cal" 2500 (worldHolding repeatedEvents)
      = (.ok repeatedEvents, worldHolding repeatedEvents) ∧
    deleteAttempts (clearDuplicateEvents memService "cal" (worldHolding repeatedEvents)).log
      = (duplicatesOf repeatedEvents []).map ExistingItem.id ∧
    (duplicatesOf repeatedEvents []).map ExistingItem.id = ["a3"] ∧
    (clearDuplicateEvents memService "cal" (worldHolding repeatedEvents)).out = .ok 1 :=
  ⟨by rfl,
    (clearDuplicateEvents_deletes_later_occurrences_of_a_key memService "cal"
      (worldHolding repeatedEvents) (worldHolding repeatedEvents) repeatedEvents (by rfl)).1,
    by decide, by decide⟩

/-! ## Theorems: a failing source read -/

theorem Eff.bind_of_error {σ α β : Type} (m : Eff σ α) (f : α → Eff σ β) (s : σ)
    (hm : (m s).out.toBool = false) :
    ((m >>= f) s).out.toBool = false ∧ ((m >>= f) s).log = (m s).log ∧
    ((m >>= f) s).st = (m s).st := by
  cases hout : (m s).out with
  | ok a => rw [hout] at hm; exact absurd hm (by simp [Except.toBool])
  | error e => simp [Bind.bind, Eff.bind, hout, Except.toBool]

theorem Eff.tryFinally_of_error {σ α : Type} (m : Eff σ α) (fin : Eff σ Unit) (s : σ)
    (hm : (m s).out.toBool = false) : (Eff.tryFinally m fin s).out.toBool = false := by
  simp only [Eff.tryFinally]
  cases (fin (m s).st).out with
  | ok u => exact hm
  | error e => rfl

/-- A job whose steps up to the Record Filter throw makes no call on calendar events
and throws. -/
theorem updateCalendar_of_failed_read {σ : Type} (S : Service σ) (h : Host) (j : Job) (s : σ)
    (hread : (j.readValid S h s).out.toBool = false) :
    (j.updateCalendar S h s).out.toBool = false ∧
    ∀ e ∈ (j.updateCalendar S h s).log, e.isEventCall = false := by
  have honly := only_readValid S h j s
  have hclean : ∀ e ∈ (j.readValid S h s).log, e.isEventCall = false := by
    intro e he
    have := honly e he
    simpa using this
  cases j with
  | live =>
    obtain ⟨h1, h2, _⟩ := Eff.bind_of_error (ServiceAccountCalendarUpdater.readValid S h)
      (fun p => do
        let _ ← clearCalendar S p.calendarId
        let calendarEvents ← Eff.ofExcept (mapE (formatShowToEvent h) p.valid)
        let results ← insertEvents S p.calendarId calendarEvents
        showCalendarInfo S p.calendarId
        (pure ⟨p.valid.length, p.pastCount, p.futureCount, some results⟩ : Eff σ RunReport))
      s hread
    exact ⟨h1, fun e he => hclean e (h2 ▸ he)⟩
  | management =>
    obtain ⟨h1, h2, _⟩ := Eff.bind_of_error (ManagementCalendarUpdater.readValid S h)
      (fun p => do
        let _ ← clearCalendar S p.calendarId
        let calendarEvents ← Eff.ofExcept (mapE (formatManagementEventToCalendar h) p.valid)
        let results ← insertEvents S p.calendarId calendarEvents
        (pure ⟨p.valid.length, p.pastCount, p.futureCount, some results⟩ : Eff σ RunReport))
      s hread
    exact ⟨h1, fun e he => hclean e (h2 ▸ he)⟩
  | booking =>
    obtain ⟨h1, h2, _⟩ := Eff.bind_of_error (BookingCalendarUpdater.readValid S)
      (fun p => do
        let _ ← clearCalendar S p.calendarId
        let calendarEvents ← Eff.ofExcept (mapE (formatBookingEventToCalendarEvent h) p.valid)
        let results ← insertEvents S p.calendarId calendarEvents
        showCalendarInfo S p.calendarId
        (pure ⟨p.valid.length, p.pastCount, p.futureCount, some results⟩ : Eff σ RunReport))
      s hread
    refine ⟨Eff.tryFinally_of_error _ _ s h1, fun e he => ?_⟩
    have hlog := Eff.tryFinally_log (BookingCalendarUpdater.updateCalendarBody S h)
      (Eff.call S.poolEnd Effect.poolEnd) s
    change e ∈ (Eff.tryFinally (BookingCalendarUpdater.updateCalendarBody S h)
      (Eff.call S.poolEnd Effect.poolEnd) s).log at he
    rw [hlog, List.mem_append] at he
    rcases he with he | he
    · exact hclean e (h2 ▸ he)
    · simp only [Eff.call, List.mem_singleton] at he
      subst he
      rfl
  | releases =>
    obtain ⟨h1, h2, _⟩ := Eff.bind_of_error (ReleasesCalendarUpdater.readValid S h)
      (fun p =>
        if p.valid.length = 0 then
          (pure ⟨p.valid.length, p.pastCount, p.futureCount, none⟩ : Eff σ RunReport)
        else do
          let _ ← clearCalendar S p.calendarId
          let formatted ← ReleasesCalendarUpdater.formatLoop h p.valid
          let results ← insertEvents S p.calendarId formatted.1
          showCalendarInfo S p.calendarId
          pure ⟨p.valid.length, p.pastCount, p.futureCount,
            some { results with skippedCount := formatted.2 }⟩)
      s hread
    exact ⟨h1, fun e he => hclean e (h2 ▸ he)⟩

theorem Eff.unit_bind_toBool {σ α : Type} (m : Eff σ α) (s : σ) :
    ((m >>= fun _ => (pure () : Eff σ Unit)) s).out.toBool = (m s).out.toBool := by
  cases hout : (m s).out <;> simp [Bind.bind, Eff.bind, hout, pure, Eff.ret, Except.toBool]

/-- When the Source Reader of a job throws, the steps up to the Record Filter throw. -/
theorem readValid_of_failed_source {σ : Type} (S : Service σ) (h : Host) (j : Job) (s : σ)
    (calendarId : String)
    (hauth : (setupAuthentication S s).out = .ok ())
    (hfind : (j.resolve S (setupAuthentication S s).st).out = .ok calendarId)
    (hread : (j.readSource S h (j.stateBeforeRead S s)).out.toBool = false) :
    (j.readValid S h s).out.toBool = false := by
  cases j with
  | live =>
    simp only [Job.readSource, Job.stateBeforeRead, Job.resolve, Eff.unit_bind_toBool] at hread hfind
    simp only [Job.readValid, ServiceAccountCalendarUpdater.readValid, bind, Eff.bind, hauth,
      hfind]
    cases hr : (getShows S (findMalbecCalendar S liveConfig (setupAuthentication S s).st).st).out with
    | ok a => rw [hr] at hread; exact absurd hread (by simp [Except.toBool])
    | error e => rfl
  | management =>
    simp only [Job.readSource, Job.stateBeforeRead, Job.resolve, Eff.unit_bind_toBool] at hread hfind
    simp only [Job.readValid, ManagementCalendarUpdater.readValid, bind, Eff.bind, hauth,
      hfind]
    cases hr : (getManagementEvents S
        (findManagementCalendar S mgmConfig (setupAuthentication S s).st).st).out with
    | ok a => rw [hr] at hread; exact absurd hread (by simp [Except.toBool])
    | error e => rfl
  | booking =>
    simp only [Job.readSource, Job.stateBeforeRead, Job.resolve, Eff.unit_bind_toBool] at hread hfind
    simp only [Job.readValid, BookingCalendarUpdater.readValid, bind, Eff.bind, hauth,
      hfind]
    cases hr : (getBookingEvents S
        (findBookingCalendar S bookingConfig (setupAuthentication S s).st).st).out with
    | ok a => rw [hr] at hread; exact absurd hread (by simp [Except.toBool])
    | error e => rfl
  | releases =>
    simp only [Job.readSource, Job.stateBeforeRead, Job.resolve, Eff.unit_bind_toBool] at hread hfind
    simp only [Job.readValid, ReleasesCalendarUpdater.readValid, bind, Eff.bind, hauth,
      hfind]
    cases hr : (getReleases S h
        (findReleasesCalendar S releasesConfig (setupAuthentication S s).st).st).out with
    | ok a => rw [hr] at hread; exact absurd hread (by simp [Except.toBool])
    | error e => rfl

/-- C25. In each of the four jobs, when authentication and calendar resolution have
succeeded and the Source Reader then throws, `updateCalendar` throws, and its trace
holds no delete, insert or list call on the events of a calendar: the target calendar
is left as it was.  More generally that holds whenever any step up to the Record
Filter throws. -/
theorem source_read_failure_leaves_calendar_untouched {σ : Type} (S : Service σ) (h : Host)
    (j : Job) (s : σ) (calendarId : String)
    (hauth : (setupAuthentication S s).out = .ok ())
    (hfind : (j.resolve S (setupAuthentication S s).st).out = .ok calendarId)
    (hread : (j.readSource S h (j.stateBeforeRead S s)).out.toBool = false) :
    (j.updateCalendar S h s).out.toBool = false ∧
    (∀ e ∈ (j.updateCalendar S h s).log,
      e.isDelete = false ∧ e.isInsert = false ∧ e.isList = false) ∧
    deleteAttempts (j.updateCalendar S h s).log = [] ∧
    insertAttempts (j.updateCalendar S h s).log = [] := by
  obtain ⟨hout, hlog⟩ := updateCalendar_of_failed_read S h j s
    (readValid_of_failed_source S h j s calendarId hauth hfind hread)
  have hkinds : ∀ e ∈ (j.updateCalendar S h s).log,
      e.isDelete = false ∧ e.isInsert = false ∧ e.isList = false := by
    intro e he
    have := hlog e he
    simp only [Effect.isEventCall, Bool.or_eq_false_iff] at this
    exact ⟨this.1.2, this.1.1, this.2⟩
  refine ⟨hout, hkinds, ?_, insertAttempts_eq_nil _ (fun e he => (hkinds e he).2.1)⟩
  have hdel : ∀ l : List Effect, (∀ e ∈ l, e.isDelete = false) → deleteAttempts l = [] := by
    intro l
    induction l with
    | nil => intro _; rfl
    | cons e rest ih =>
      intro hl
      have hrest := ih (fun e he => hl e (List.mem_cons_of_mem _ he))
      have he := hl e (List.mem_cons_self _ _)
      cases e <;> simp_all [deleteAttempts, Effect.isDelete]
  exact hdel _ (fun e he => (hkinds e he).1)

/-- C25, witness: the Management job on a database that refuses the query. -/
theorem source_read_failure_leaves_calendar_untouched_witness :
    (setupAuthentication memService worldWithFailingSources).out = .ok () ∧
    (Job.resolve memService .management
        (setupAuthentication memService worldWithFailingSources).st).out
      = .ok mgmConfig.calendarId ∧
    (Job.readSource memService utcHost .management
        (Job.stateBeforeRead memService .management worldWithFailingSources)).out
      = .error ⟨"Error", "connection refused"⟩ ∧
    (Job.updateCalendar memService utcHost .management worldWithFailingSources).out.toBool
      = false ∧
    deleteAttempts (Job.updateCalendar memService utcHost .management
        worldWithFailingSources).log = [] ∧
    (Job.updateCalendar memService utcHost .management worldWithFailingSources).st.events
        mgmConfig.calendarId = [staleEvent] :=
  have hspec := source_read_failure_leaves_calendar_untouched memService utcHost .management
    worldWithFailingSources mgmConfig.calendarId (by decide) (by decide) (by decide)
  ⟨by decide, by decide, by decide, hspec.1, hspec.2.2.1, by decide⟩

/-! ## Theorems: records that pass the filter and fail in the transformer -/

/-- C26. A management row and a booking row whose date is the text `not-a-date`, and a
show without `ticketera`, are accepted by the Record Filter of their job, and the
job's transformer throws on them.  The Management job on such a row deletes the event
that was in the calendar, then throws: nothing is inserted and the calendar is left
empty. -/
theorem accepted_records_make_the_transformers_throw :
    isValidManagementEvent (.obj malformedManagementEvent) = .ok true ∧
    formatManagementEventToCalendar utcHost (.obj malformedManagementEvent)
      = .error ⟨"RangeError", "Invalid time value"⟩ ∧
    isValidBookingEvent (.obj malformedBooking) = .ok true ∧
    (formatBookingEventToCalendarEvent utcHost (.obj malformedBooking)).toBool = false ∧
    isValidShow showWithoutTicketera = .ok true ∧
    formatShowToEvent utcHost showWithoutTicketera
      = .error ⟨"TypeError", "Cannot read properties of undefined (reading 'name')"⟩ ∧
    (ManagementCalendarUpdater.updateCalendar memService utcHost
        (worldWithRows [malformedManagementEvent] [])).out
      = .error ⟨"RangeError", "Invalid time value"⟩ ∧
    deleteAttempts (ManagementCalendarUpdater.updateCalendar memService utcHost
        (worldWithRows [malformedManagementEvent] [])).log = ["old-1"] ∧
    insertAttempts (ManagementCalendarUpdater.updateCalendar memService utcHost
        (worldWithRows [malformedManagementEvent] [])).log = [] ∧
    (ManagementCalendarUpdater.updateCalendar memService utcHost
        (worldWithRows [malformedManagementEvent] [])).st.events mgmConfig.calendarId = [] := by
  refine ⟨by decide, by rfl, by decide, by rfl, by rfl, by rfl, by decide, by decide, by rfl,
    by decide⟩

/-! ## Theorems: the past and the future records -/

/-- C28. On a feed of one show whose `show_date` is the text `not-a-date`, the Live job
counts one valid record, no past record and no future record; the Management job does
the same on such a row.  On a well-formed show the counts add up. -/
theorem past_and_future_miss_records_with_unparseable_date :
    (ServiceAccountCalendarUpdater.readValid memService utcHost
        (worldWithFeeds (.arr [malformedShow]) (.arr []))).out.map Prepared.counts
      = .ok (1, some 0, some 0) ∧
    (ManagementCalendarUpdater.readValid memService utcHost
        (worldWithRows [malformedManagementEvent] [])).out.map Prepared.counts
      = .ok (1, some 0, some 0) ∧
    (ServiceAccountCalendarUpdater.readValid memService utcHost
        (worldWithFeeds (.arr [goodShow]) (.arr []))).out.map Prepared.counts
      = .ok (1, some 0, some 1) := by
  refine ⟨by decide, by decide, by decide⟩

/-! ## Theorems: title of a management item -/

/-- C30. A management row with the four mandatory fields and neither `venue_name` nor
`nombre_festi` is accepted by the Management filter and gets the title
`A - undefined`; as the database hands it over, with `null` in the absent columns, it
gets the title `A - null`.  The body of the same item shows `N/A` for the venue. -/
theorem management_title_shows_missing_venue :
    isValidManagementEvent (.obj bareManagementEvent) = .ok true ∧
    (formatManagementEventToCalendar utcHost (.obj bareManagementEvent)).map
        (fun item => item.summary) = .ok (.str "A - undefined") ∧
    isValidManagementEvent (.obj bareManagementRow) = .ok true ∧
    (formatManagementEventToCalendar utcHost (.obj bareManagementRow)).map
        (fun item => item.summary) = .ok (.str "A - null") ∧
    (formatManagementEventToCalendar utcHost (.obj bareManagementRow)).map
        (fun item => item.description)
      = .ok ("🎤 Artista: A\n🏟️ Venue: N/A\n📍 Ciudad: Buenos Aires, AR\n"
          ++ "📅 Fecha: 1/5/2024\n📊 Status: N/A\n") := by
  refine ⟨by decide, by rfl, by decide, by rfl, by decide⟩

/-! ## Theorems: releases that the filter accepts -/

theorem Except.bind_eq_error_iff {ε α β : Type} (x : Except ε α) (f : α → Except ε β) (e : ε) :
    (x >>= f) = .error e ↔ x = .error e ∨ ∃ a, x = .ok a ∧ f a = .error e := by
  cases x with
  | ok a => simp [bind, Except.bind]
  | error e => simp [bind, Except.bind]

theorem getColorForReleaseType_str (s : String) :
    ∃ c, getColorForReleaseType (.str s) = .ok c := by
  have hor : ∃ t, (JsVal.str s).or (.str "") = .str t := by
    by_cases hs : (JsVal.str s).truthy = true
    · exact ⟨s, by simp [JsVal.or, hs]⟩
    · exact ⟨"", by simp [JsVal.or, hs]⟩
  obtain ⟨t, ht⟩ := hor
  simp only [getColorForReleaseType, ht, JsVal.toLowerCase, bind, Except.bind, pure,
    Except.pure]
  exact ⟨_, rfl⟩

theorem getColorForReleaseType_error (v : JsVal) (e : JsError)
    (he : getColorForReleaseType v = .error e) : e.name = "TypeError" := by
  unfold getColorForReleaseType at he
  cases hv : (v.or (.str "")) with
  | str s => simp [hv, JsVal.toLowerCase, bind, Except.bind, pure, Except.pure] at he
  | _ =>
    simp [hv, JsVal.toLowerCase, bind, Except.bind, pure, Except.pure] at he
    rw [← he]

/-- Why `formatReleaseToEvent` throws on a record that the Releases filter accepts:
the end date is invalid, or the category tag cannot be looked up. -/
theorem formatRelease_error_inv (h : Host) (record : List (String × JsVal)) (e : JsError)
    (hacc : releasesDated h record = true)
    (he : formatReleaseToEvent h (.obj record) = .error e) :
    ((releaseEndDate h record).isSome = false ∧ e.name = "RangeError") ∨
    getColorForReleaseType (releaseTypeOf record) = .error e := by
  obtain ⟨hd, ht⟩ := releaseDateOf_obj record
  simp only [releasesDated, Bool.and_eq_true] at hacc
  have htruthy : (firstReleaseDate record).truthy = true := by rw [ht]; exact hacc.1
  obtain ⟨t, hdate⟩ := Option.isSome_iff_exists.1 hacc.2
  unfold formatReleaseToEvent at he
  simp only [JsVal.get_obj, Except.bind_eq_error_iff, pure, Except.pure, hd,
    Except.ok.injEq, exists_eq_left', reduceCtorEq, false_or] at he
  have h1 : ¬ (!(firstReleaseDate record).truthy) = true := by simp [htruthy]
  rw [if_neg h1] at he
  simp only [Except.bind_eq_error_iff, Except.ok.injEq, exists_eq_left', reduceCtorEq,
    false_or, exists_const] at he
  have h2 : ¬ Option.isNone (JsVal.newDate h (firstReleaseDate record)) = true := by
    simp [hdate]
  rw [if_neg h2] at he
  simp only [Except.bind_eq_error_iff, Except.ok.injEq, exists_eq_left', reduceCtorEq,
    false_or, exists_const, or_false, and_false, exists_false, hdate, JsDate.toISODate,
    JsVal.or_or_eq_firstPresent] at he
  obtain ⟨_, _, he⟩ := he
  rcases he with he | he
  · left
    unfold releaseEndDate
    rw [hdate]
    generalize JsDate.setDate h (some t) (addInt (JsDate.getDate h (some t)) 1) = endDate
      at he ⊢
    cases endDate with
    | none =>
      simp only [Except.error.injEq] at he
      exact ⟨rfl, by rw [← he]⟩
    | some te => exact absurd he (by simp)
  · obtain ⟨_, _, he⟩ := he
    right
    exact he

/-- On a record that the Releases filter accepts, `formatReleaseToEvent` throws neither
of its own errors (`Release sin fecha`, `Fecha inválida`): what it throws is a
RangeError or a TypeError; and it returns an item when the release type is a text and
the day after the release date is a valid date. -/
theorem formatRelease_of_accepted (h : Host) (record : List (String × JsVal))
    (hacc : releasesDated h record = true) :
    (∀ e, formatReleaseToEvent h (.obj record) = .error e →
      e.name = "TypeError" ∨ e.name = "RangeError") ∧
    (releaseTypeIsText record = true → (releaseEndDate h record).isSome = true →
      (formatReleaseToEvent h (.obj record)).toBool = true) := by
  refine ⟨fun e he => ?_, fun htext hend => ?_⟩
  · rcases formatRelease_error_inv h record e hacc he with ⟨_, hr⟩ | hc
    · exact Or.inr hr
    · exact Or.inl (getColorForReleaseType_error _ _ hc)
  · cases hres : formatReleaseToEvent h (.obj record) with
    | ok item => rfl
    | error e =>
      rcases formatRelease_error_inv h record e hacc hres with ⟨hnone, _⟩ | hc
      · rw [hend] at hnone; exact absurd hnone (by decide)
      · unfold releaseTypeIsText at htext
        cases hv : releaseTypeOf record with
        | str s =>
          obtain ⟨c, hok⟩ := getColorForReleaseType_str s
          rw [hv, hok] at hc
          exact absurd hc (by simp)
        | _ => simp [hv] at htext

/-- What a run of the Releases job that returns sends to the calendar and reports: the
items of the valid records that transform, and as `skippedCount` the number of valid
records that do not. -/
theorem releases_updateCalendar_report {σ : Type} (S : Service σ) (h : Host)
    (s : σ) (p : Prepared) (rep : RunReport)
    (hread : (ReleasesCalendarUpdater.readValid S h s).out = .ok p)
    (hout : (ReleasesCalendarUpdater.updateCalendar S h s).out = .ok rep) :
    insertAttempts (ReleasesCalendarUpdater.updateCalendar S h s).log
      = formattedItems h p.valid ∧
    ((p.valid.length = 0 ∧ rep.results = none) ∨
      ∃ res : InsertResults, rep.results = some res ∧
        res.skippedCount = formatFailures h p.valid ∧
        res.successCount + res.errorCount + res.skippedCount = p.valid.length) := by
  have hpre : insertAttempts (ReleasesCalendarUpdater.readValid S h s).log = [] :=
    insertAttempts_eq_nil _ (fun e he => by
      have := only_readValid S h Job.releases s e he
      cases e <;> simp_all [Effect.isEventCall, Effect.isInsert])
  rw [ReleasesCalendarUpdater.updateCalendar] at hout ⊢
  obtain ⟨hlog, hout2, _⟩ := Eff.bind_log_of_ok _ _ s p hread
  rw [hout2] at hout
  rw [hlog, insertAttempts_append, hpre, List.nil_append]
  by_cases hlen : p.valid.length = 0
  · simp only [hlen, if_true] at hout ⊢
    have hv : p.valid = [] := List.length_eq_zero.1 hlen
    refine ⟨by simp [hv, formattedItems, pure, Eff.ret, insertAttempts], Or.inl ⟨trivial, ?_⟩⟩
    have := hout.symm
    simp only [pure, Eff.ret, Except.ok.injEq] at this
    rw [this]
  · simp only [hlen, if_false] at hout ⊢
    obtain ⟨c, _, hlog1, hout⟩ := Eff.bind_ok_inv _ _ _ _ hout
    obtain ⟨formatted, hfmt, hlog2, hout⟩ := Eff.bind_ok_inv _ _ _ _ hout
    obtain ⟨results, hins, hlog3, hout⟩ := Eff.bind_ok_inv _ _ _ _ hout
    obtain ⟨_, _, hlog4, hout⟩ := Eff.bind_ok_inv _ _ _ _ hout
    obtain ⟨hf1, _, hf3⟩ := formatLoop_spec h p.valid
      (clearCalendar S p.calendarId (ReleasesCalendarUpdater.readValid S h s).st).st
    have hformatted : formatted = (formattedItems h p.valid, formatFailures h p.valid) := by
      rw [hf1] at hfmt; exact (Except.ok.inj hfmt).symm
    subst hformatted
    obtain ⟨r, hr1, hr2, _, hr4, _, _, _⟩ := insertEvents_spec S p.calendarId
      (formattedItems h p.valid)
      (ReleasesCalendarUpdater.formatLoop h p.valid
        (clearCalendar S p.calendarId (ReleasesCalendarUpdater.readValid S h s).st).st).st
    have hres : results = r := by rw [hr1] at hins; exact (Except.ok.inj hins).symm
    subst hres
    refine ⟨?_, Or.inr ⟨{ results with skippedCount := formatFailures h p.valid }, ?_, rfl, ?_⟩⟩
    · rw [hlog1, hlog2, hlog3, hlog4]
      simp only [insertAttempts_append, hr2]
      rw [insertAttempts_eq_nil _ (fun e he => by
          simpa using only_clearCalendar S p.calendarId (p := fun e => !e.isInsert)
            (fun _ _ _ => rfl) (fun _ _ _ => rfl) _ e he),
        insertAttempts_eq_nil _ (fun e he => by
          simpa using only_formatLoop h p.valid (p := fun e => !e.isInsert)
            (fun _ => rfl) _ e he),
        insertAttempts_eq_nil _ (fun e he => by
          simpa using only_showCalendarInfo S p.calendarId (p := fun e => !e.isInsert)
            (fun _ _ => rfl) (fun _ _ _ => rfl) _ e he)]
      simp [pure, Eff.ret, insertAttempts]
    · have := hout.symm
      simp only [pure, Eff.ret, Except.ok.injEq] at this
      rw [this]
    · show results.successCount + results.errorCount + formatFailures h p.valid = _
      omega

theorem formatFailures_eq_zero (h : Host) (releases : List JsVal)
    (hall : ∀ r ∈ releases, (formatReleaseToEvent h r).toBool = true) :
    formatFailures h releases = 0 := by
  unfold formatFailures
  rw [List.length_eq_zero, List.filter_eq_nil_iff]
  intro r hr
  simp [hall r hr]

/-- C27, counterexample. In a process whose `Date.parse` reads expanded years, a
release with text fields only, dated on the last day a `Date` can hold, is accepted
by the Releases filter, and `formatReleaseToEvent` throws a RangeError on it (the day
after is no valid date): the job builds no item and reports one skipped record. -/
theorem accepted_release_on_last_day_is_skipped :
    releasesDated expandedYearHost lastDayRelease = true ∧
    releaseTypeIsText lastDayRelease = true ∧
    formatReleaseToEvent expandedYearHost (.obj lastDayRelease)
      = .error ⟨"RangeError", "Invalid time value"⟩ ∧
    (ReleasesCalendarUpdater.updateCalendar memService expandedYearHost
        (worldWithFeeds (.arr []) (.arr [.obj lastDayRelease]))).out
      = .ok ⟨1, some 0, some 1, some ⟨0, 0, 1⟩⟩ ∧
    insertAttempts (ReleasesCalendarUpdater.updateCalendar memService expandedYearHost
        (worldWithFeeds (.arr []) (.arr [.obj lastDayRelease]))).log = [] := by
  refine ⟨by decide, by decide, by rfl, by decide, by rfl⟩

/-- C27, amended. A release that the Releases filter accepts (a present date that
parses to a valid date) is never refused by `formatReleaseToEvent` with its
`Release sin fecha` or `Fecha inválida` error: on such a record the transformer throws
only a RangeError (the day after the release date is no valid date) or a TypeError
(the release type is no text).  Hence in every run that returns, when every valid
record is an object whose release type is a text and whose next day is a valid date,
every valid record is transformed, the items sent to the calendar are as many as the
valid records, and the reported `skippedCount` is 0. -/
theorem releases_valid_records_are_not_skipped {σ : Type} (S : Service σ) (h : Host)
    (s : σ) (p : Prepared) (rep : RunReport)
    (hread : (ReleasesCalendarUpdater.readValid S h s).out = .ok p)
    (hout : (ReleasesCalendarUpdater.updateCalendar S h s).out = .ok rep)
    (htyped : ∀ r ∈ p.valid, ∃ record, r = .obj record ∧ releaseTypeIsText record = true ∧
      (releaseEndDate h record).isSome = true) :
    (∀ record, releasesDated h record = true →
      ∀ e, formatReleaseToEvent h (.obj record) = .error e →
        e.name ≠ "Error" ∧ (e.name = "TypeError" ∨ e.name = "RangeError")) ∧
    (∀ r ∈ p.valid, ∃ record, r = .obj record ∧ releasesDated h record = true) ∧
    (∀ r ∈ p.valid, (formatReleaseToEvent h r).toBool = true) ∧
    (insertAttempts (ReleasesCalendarUpdater.updateCalendar S h s).log).length
      = p.valid.length ∧
    ((p.valid.length = 0 ∧ rep.results = none) ∨
      ∃ res : InsertResults, rep.results = some res ∧ res.skippedCount = 0 ∧
        res.successCount + res.errorCount = p.valid.length) := by
  have hdated : ∀ r ∈ p.valid, ∃ record, r = .obj record ∧ releasesDated h record = true := by
    intro r hr
    obtain ⟨record, hrec, _, _⟩ := htyped r hr
    obtain ⟨releases, s1, hv⟩ := releases_readValid_valid S h s p hread
    obtain ⟨d, hd, hdt, hdv⟩ := filterValidReleases_dated h releases p.valid s1 hv r hr
    subst hrec
    obtain ⟨hd2, ht2⟩ := releaseDateOf_obj record
    rw [hd2] at hd
    cases hd
    exact ⟨record, rfl, by simp [releasesDated, ← ht2, hdt, hdv]⟩
  have hall : ∀ r ∈ p.valid, (formatReleaseToEvent h r).toBool = true := by
    intro r hr
    obtain ⟨record, hrec, htext, hend⟩ := htyped r hr
    obtain ⟨record2, hrec2, hacc⟩ := hdated r hr
    subst hrec
    cases hrec2
    exact (formatRelease_of_accepted h record hacc).2 htext hend
  have hzero := formatFailures_eq_zero h p.valid hall
  obtain ⟨hins, hrep⟩ := releases_updateCalendar_report S h s p rep hread hout
  obtain ⟨_, _, hlen⟩ := formatLoop_spec h p.valid s
  refine ⟨fun record hacc e he => ?_, hdated, hall, ?_, ?_⟩
  · have hname := (formatRelease_of_accepted h record hacc).1 e he
    refine ⟨?_, hname⟩
    rcases hname with hn | hn <;> rw [hn] <;> decide
  · rw [hins]; omega
  · rcases hrep with hnone | ⟨res, hres, hskip, hsum⟩
    · exact Or.inl hnone
    · exact Or.inr ⟨res, hres, by rw [hskip, hzero], by omega⟩

/-- C27, witness: the Releases job on a feed of one dated release, whose type is the
default text `Release`. -/
theorem releases_valid_records_are_not_skipped_witness :
    (ReleasesCalendarUpdater.updateCalendar memService utcHost
        (worldWithFeeds (.arr []) (.arr [datedRelease]))).out
      = .ok ⟨1, some 0, some 1, some ⟨1, 0, 0⟩⟩ ∧
    (insertAttempts (ReleasesCalendarUpdater.updateCalendar memService utcHost
        (worldWithFeeds (.arr []) (.arr [datedRelease]))).log).length = 1 :=
  ⟨by decide,
    (releases_valid_records_are_not_skipped memService utcHost
      (worldWithFeeds (.arr []) (.arr [datedRelease]))
      ⟨releasesConfig.calendarId, [datedRelease], some 0, some 1⟩
      ⟨1, some 0, some 1, some ⟨1, 0, 0⟩⟩ rfl (by decide)
      (fun r hr => by
        rw [List.mem_singleton] at hr
        subst hr
        exact ⟨_, rfl, by decide, by decide⟩)).2.2.2.1⟩

/-! ## Theorems: a job returns whatever its deletes and inserts do -/

theorem Eff.bind_returns {σ α β : Type} (m : Eff σ α) (f : α → Eff σ β) (s : σ)
    (hm : (m s).out.toBool = true) (hf : ∀ a, (f a (m s).st).out.toBool = true) :
    ((m >>= f) s).out.toBool = true := by
  cases hout : (m s).out with
  | ok a => rw [(Eff.bind_log_of_ok m f s a hout).2.1]; exact hf a
  | error e => rw [hout] at hm; exact absurd hm (by simp [Except.toBool])

theorem clearCalendar_returns {σ : Type} (S : Service σ) (calendarId : String) (s : σ)
    (hlist : (S.eventsList calendarId 2500 s).1.toBool = true) :
    (clearCalendar S calendarId s).out.toBool = true := by
  rw [clearCalendar]
  refine Eff.bind_returns _ _ s hlist (fun items => ?_)
  obtain ⟨r, hr, _⟩ := deleteLoop_spec S calendarId items ⟨0, 0⟩
    (Eff.call (S.eventsList calendarId 2500) (Effect.eventsList calendarId 2500) s).st
  rw [hr]; rfl

theorem insertEvents_returns {σ : Type} (S : Service σ) (calendarId : String)
    (events : List CalendarItem) (s : σ) :
    (insertEvents S calendarId events s).out.toBool = true := by
  obtain ⟨r, hr, _⟩ := insertEvents_spec S calendarId events s
  rw [hr]; rfl

theorem showCalendarInfo_returns {σ : Type} (S : Service σ) (calendarId : String) (s : σ) :
    (showCalendarInfo S calendarId s).out.toBool = true := by
  simp [showCalendarInfo, bind, Eff.bind, Eff.attempt, pure, Eff.ret, Except.toBool]

theorem Eff.ofExcept_returns {σ α : Type} (x : Except JsError α) (s : σ)
    (hx : x.toBool = true) : ((Eff.ofExcept x : Eff σ α) s).out.toBool = true := hx

theorem Eff.ofExcept_st {σ α : Type} (x : Except JsError α) (s : σ) :
    ((Eff.ofExcept x : Eff σ α) s).st = s := rfl

/-- A job whose steps up to the Record Filter return, whose list call in
`clearCalendar` returns, whose transformer calls all return and (Booking) whose
`pool.end()` returns, returns. -/
theorem updateCalendar_returns {σ : Type} (S : Service σ) (h : Host) (j : Job) (s : σ)
    (p : Prepared)
    (hread : (j.readValid S h s).out = .ok p)
    (hlist : (S.eventsList p.calendarId 2500 (j.readValid S h s).st).1.toBool = true)
    (hformat : j ≠ .releases → (mapE (j.transformer h) p.valid).toBool = true)
    (hpool : j = .booking →
      (S.poolEnd (BookingCalendarUpdater.updateCalendarBody S h s).st).1.toBool = true) :
    (j.updateCalendar S h s).out.toBool = true := by
  have hclear := clearCalendar_returns S p.calendarId _ hlist
  cases j with
  | live =>
    have hf := hformat (by decide)
    simp only [Job.updateCalendar, Job.readValid, Job.transformer] at hread hclear hf ⊢
    rw [ServiceAccountCalendarUpdater.updateCalendar,
      (Eff.bind_log_of_ok _ _ s p hread).2.1]
    refine Eff.bind_returns _ _ _ hclear (fun _ => ?_)
    refine Eff.bind_returns _ _ _ hf (fun _ => ?_)
    refine Eff.bind_returns _ _ _ (insertEvents_returns S _ _ _) (fun _ => ?_)
    exact Eff.bind_returns _ _ _ (showCalendarInfo_returns S _ _) (fun _ => rfl)
  | management =>
    have hf := hformat (by decide)
    simp only [Job.updateCalendar, Job.readValid, Job.transformer] at hread hclear hf ⊢
    rw [ManagementCalendarUpdater.updateCalendar,
      (Eff.bind_log_of_ok _ _ s p hread).2.1]
    refine Eff.bind_returns _ _ _ hclear (fun _ => ?_)
    refine Eff.bind_returns _ _ _ hf (fun _ => ?_)
    exact Eff.bind_returns _ _ _ (insertEvents_returns S _ _ _) (fun _ => rfl)
  | booking =>
    have hf := hformat (by decide)
    have hp := hpool rfl
    simp only [Job.updateCalendar, Job.readValid, Job.transformer] at hread hclear hf ⊢
    have hbody : (BookingCalendarUpdater.updateCalendarBody S h s).out.toBool = true := by
      rw [BookingCalendarUpdater.updateCalendarBody,
        (Eff.bind_log_of_ok _ _ s p hread).2.1]
      refine Eff.bind_returns _ _ _ hclear (fun _ => ?_)
      refine Eff.bind_returns _ _ _ hf (fun _ => ?_)
      refine Eff.bind_returns _ _ _ (insertEvents_returns S _ _ _) (fun _ => ?_)
      exact Eff.bind_returns _ _ _ (showCalendarInfo_returns S _ _) (fun _ => rfl)
    simp only [BookingCalendarUpdater.updateCalendar, Eff.tryFinally, Eff.call]
    cases hq : (S.poolEnd (BookingCalendarUpdater.updateCalendarBody S h s).st).1 with
    | ok u => exact hbody
    | error e => rw [hq] at hp; exact absurd hp (by simp [Except.toBool])
  | releases =>
    simp only [Job.updateCalendar, Job.readValid] at hread hclear ⊢
    rw [ReleasesCalendarUpdater.updateCalendar,
      (Eff.bind_log_of_ok _ _ s p hread).2.1]
    by_cases hlen : p.valid.length = 0
    · simp only [hlen, if_true]; rfl
    · simp only [hlen, if_false]
      refine Eff.bind_returns _ _ _ hclear (fun _ => ?_)
      refine Eff.bind_returns _ _ _
        (by rw [(formatLoop_spec h p.valid _).1]; rfl) (fun _ => ?_)
      refine Eff.bind_returns _ _ _ (insertEvents_returns S _ _ _) (fun _ => ?_)
      exact Eff.bind_returns _ _ _ (showCalendarInfo_returns S _ _) (fun _ => rfl)

/-- C29, counterexample. In the Booking job on a pool whose `end()` throws,
authentication, calendar resolution, the source read, the Record Filter and the
listing of the existing items succeed, no delete and no insert fails and no
transformer is called, and `updateCalendar` throws the error of `pool.end()`;
`updateAllCalendars` records the job as failed.  (The Management job fails too: its
Source Reader closes the pool.) -/
theorem booking_updateCalendar_throws_when_pool_end_throws :
    (BookingCalendarUpdater.readValid memServiceFailingPoolEnd
        (worldWithRows [] [])).out.map Prepared.counts = .ok (0, none, none) ∧
    (BookingCalendarUpdater.updateCalendarBody memServiceFailingPoolEnd utcHost
        (worldWithRows [] [])).out = .ok ⟨0, none, none, some ⟨0, 0, 0⟩⟩ ∧
    deleteFailures (BookingCalendarUpdater.updateCalendar memServiceFailingPoolEnd utcHost
        (worldWithRows [] [])).log = 0 ∧
    insertFailures (BookingCalendarUpdater.updateCalendar memServiceFailingPoolEnd utcHost
        (worldWithRows [] [])).log = 0 ∧
    (BookingCalendarUpdater.updateCalendar memServiceFailingPoolEnd utcHost
        (worldWithRows [] [])).out = .error ⟨"Error", "pool is closed"⟩ ∧
    (AllCalendarsUpdater.updateAllCalendars memServiceFailingPoolEnd utcHost
        (worldWithRows [] [])).out = .ok (some ⟨⟨true, false, false, true⟩, 2⟩) := by
  refine ⟨by decide, by decide, by decide, by decide, by decide, by decide⟩

/-- C29, amended. Take a job that `updateAllCalendars` starts (the credential file
exists).  When its steps up to the Record Filter return (authentication, calendar
resolution, source read, filter), the list call of `clearCalendar` returns, every
transformer call returns (the Releases job catches those that throw) and, in the
Booking job, the closing `pool.end()` returns, then `updateCalendar` returns, whatever
the delete and insert calls do, and `updateAllCalendars` records the job as
successful. -/
theorem job_succeeds_whatever_deletes_and_inserts_do {σ : Type} (S : Service σ) (h : Host)
    (j : Job) (s : σ) (p : Prepared)
    (hcred : S.credentialFileExists s = true)
    (hread : (j.readValid S h (j.startState S h s)).out = .ok p)
    (hlist : (S.eventsList p.calendarId 2500
      (j.readValid S h (j.startState S h s)).st).1.toBool = true)
    (hformat : j ≠ .releases → (mapE (j.transformer h) p.valid).toBool = true)
    (hpool : j = .booking → (S.poolEnd
      (BookingCalendarUpdater.updateCalendarBody S h (j.startState S h s)).st).1.toBool = true) :
    (j.updateCalendar S h (j.startState S h s)).out.toBool = true ∧
    ∃ summary : Summary,
      (AllCalendarsUpdater.updateAllCalendars S h s).out = .ok (some summary) ∧
      j.slot summary.results = true := by
  have hjob := updateCalendar_returns S h j (j.startState S h s) p hread hlist hformat hpool
  refine ⟨hjob, ?_⟩
  have hrun : (AllCalendarsUpdater.updateAllCalendars S h s).out
      = .ok (some ⟨⟨(ServiceAccountCalendarUpdater.updateCalendar S h s).out.toBool,
        (ManagementCalendarUpdater.updateCalendar S h
          (Job.startState S h s .management)).out.toBool,
        (BookingCalendarUpdater.updateCalendar S h (Job.startState S h s .booking)).out.toBool,
        (ReleasesCalendarUpdater.updateCalendar S h
          (Job.startState S h s .releases)).out.toBool⟩,
        (if (ServiceAccountCalendarUpdater.updateCalendar S h s).out.toBool then 1 else 0)
        + (if (ManagementCalendarUpdater.updateCalendar S h
            (Job.startState S h s .management)).out.toBool then 1 else 0)
        + (if (BookingCalendarUpdater.updateCalendar S h
            (Job.startState S h s .booking)).out.toBool then 1 else 0)
        + (if (ReleasesCalendarUpdater.updateCalendar S h
            (Job.startState S h s .releases)).out.toBool then 1 else 0)⟩) := by
    simp only [AllCalendarsUpdater.updateAllCalendars, AllCalendarsUpdater.updateAllCalendarsWith,
      hcred, bind, Eff.bind, Eff.attempt, pure, Eff.ret, if_true, Job.startState]
  exact ⟨_, hrun, by cases j <;> exact hjob⟩

/-- C29, witness: the Management job on a calendar that refuses every delete and every
insert; the one existing event and the one new item both fail, and the job returns. -/
theorem job_succeeds_whatever_deletes_and_inserts_do_witness :
    deleteFailures (ManagementCalendarUpdater.updateCalendar memServiceRefusingWrites utcHost
      (Job.startState memServiceRefusingWrites utcHost
        (worldWithRows [springForwardManagementEvent] []) .management)).log = 1 ∧
    insertFailures (ManagementCalendarUpdater.updateCalendar memServiceRefusingWrites utcHost
      (Job.startState memServiceRefusingWrites utcHost
        (worldWithRows [springForwardManagementEvent] []) .management)).log = 1 ∧
    ((Job.management.updateCalendar memServiceRefusingWrites utcHost
      (Job.startState memServiceRefusingWrites utcHost
        (worldWithRows [springForwardManagementEvent] []) .management)).out.toBool = true ∧
    ∃ summary : Summary,
      (AllCalendarsUpdater.updateAllCalendars memServiceRefusingWrites utcHost
        (worldWithRows [springForwardManagementEvent] [])).out = .ok (some summary) ∧
      Job.management.slot summary.results = true) :=
  ⟨by decide, by decide,
    job_succeeds_whatever_deletes_and_inserts_do memServiceRefusingWrites utcHost .management
      (worldWithRows [springForwardManagementEvent] [])
      ⟨mgmConfig.calendarId, [.obj springForwardManagementEvent], some 0, some 1⟩
      (by decide) rfl (by decide) (fun _ => by rfl) (fun hj => by cases hj)⟩

/-! ## Theorems: the items a run sends are fixed by the records -/

theorem insertAttempts_of_no_insert (l : List Effect)
    (hl : ∀ e ∈ l, (!e.isInsert) = true) : insertAttempts l = [] :=
  insertAttempts_eq_nil l (fun e he => by simpa using hl e he)

theorem insertAttempts_readValid {σ : Type} (S : Service σ) (h : Host) (j : Job) (s : σ) :
    insertAttempts (j.readValid S h s).log = [] :=
  insertAttempts_eq_nil _ (fun e he => by
    have := only_readValid S h j s e he
    cases e <;> simp_all [Effect.isEventCall, Effect.isInsert])

theorem insertAttempts_clearCalendar {σ : Type} (S : Service σ) (calendarId : String) (s : σ) :
    insertAttempts (clearCalendar S calendarId s).log = [] :=
  insertAttempts_of_no_insert _ (only_clearCalendar S calendarId (p := fun e => !e.isInsert)
    (fun _ _ _ => rfl) (fun _ _ _ => rfl) s)

theorem insertAttempts_showCalendarInfo {σ : Type} (S : Service σ) (calendarId : String)
    (s : σ) : insertAttempts (showCalendarInfo S calendarId s).log = [] :=
  insertAttempts_of_no_insert _ (only_showCalendarInfo S calendarId (p := fun e => !e.isInsert)
    (fun _ _ => rfl) (fun _ _ _ => rfl) s)

/-- The trace of `m >>= f`, whether `m` returns or throws. -/
theorem Eff.bind_log_cases {σ α β : Type} (m : Eff σ α) (f : α → Eff σ β) (s : σ) :
    (∃ a, (m s).out = .ok a ∧ ((m >>= f) s).log = (m s).log ++ (f a (m s).st).log) ∨
    ((m s).out.toBool = false ∧ ((m >>= f) s).log = (m s).log) := by
  cases hm : (m s).out with
  | ok a => exact Or.inl ⟨a, rfl, (Eff.bind_log_of_ok m f s a hm).1⟩
  | error e =>
    refine Or.inr ⟨rfl, ?_⟩
    simp [Bind.bind, Eff.bind, hm]

/-- The inserts of the load step of a job: the items, then nothing. -/
theorem insertAttempts_load {σ : Type} (S : Service σ) (calendarId : String)
    (x : Except JsError (List CalendarItem)) (k : InsertResults → Eff σ RunReport)
    (hk : ∀ r s, insertAttempts (k r s).log = []) (s : σ) :
    insertAttempts ((Eff.ofExcept x >>= fun events =>
      insertEvents S calendarId events >>= k) s).log = x.toOption.getD [] := by
  cases x with
  | error e => simp [Bind.bind, Eff.bind, Eff.ofExcept, insertAttempts, Except.toOption]
  | ok items =>
    obtain ⟨r, hr, hins, _⟩ := insertEvents_spec S calendarId items s
    have h1 := (Eff.bind_log_of_ok (Eff.ofExcept (.ok items) : Eff σ _) (fun events =>
      insertEvents S calendarId events >>= k) s items rfl).1
    have h2 := (Eff.bind_log_of_ok (insertEvents S calendarId items) k s r hr).1
    rw [h1]
    simp only [Eff.ofExcept, List.nil_append]
    rw [h2, insertAttempts_append, hins, hk, List.append_nil]
    rfl

/-- The inserts of a run of a job whose steps up to the Record Filter return and whose
list call returns are the items of its valid records. -/
theorem insertAttempts_updateCalendar {σ : Type} (S : Service σ) (h : Host) (j : Job) (s : σ)
    (p : Prepared) (hread : (j.readValid S h s).out = .ok p)
    (hlist : (S.eventsList p.calendarId 2500 (j.readValid S h s).st).1.toBool = true) :
    insertAttempts (j.updateCalendar S h s).log = j.itemsOf h p.valid := by
  have hpre := insertAttempts_readValid S h j s
  have hclear := clearCalendar_returns S p.calendarId _ hlist
  have htail : ∀ (k : InsertResults → Eff σ RunReport)
      (hk : ∀ r s, insertAttempts (k r s).log = []) (x : Except JsError (List CalendarItem)),
      insertAttempts ((clearCalendar S p.calendarId >>= fun _ =>
        Eff.ofExcept x >>= fun events => insertEvents S p.calendarId events >>= k)
          (j.readValid S h s).st).log = x.toOption.getD [] := by
    intro k hk x
    rcases Eff.bind_log_cases (clearCalendar S p.calendarId) (fun _ =>
      Eff.ofExcept x >>= fun events => insertEvents S p.calendarId events >>= k)
      (j.readValid S h s).st with ⟨c, _, hlog⟩ | ⟨hfail, _⟩
    · rw [hlog, insertAttempts_append, insertAttempts_clearCalendar, List.nil_append]
      exact insertAttempts_load S p.calendarId x k hk _
    · rw [hfail] at hclear; exact absurd hclear (by decide)
  cases j with
  | live =>
    simp only [Job.updateCalendar, Job.readValid, Job.itemsOf, Job.transformer] at hread hpre htail ⊢
    rw [ServiceAccountCalendarUpdater.updateCalendar, (Eff.bind_log_of_ok _ _ s p hread).1,
      insertAttempts_append, hpre, List.nil_append]
    exact htail (fun results => showCalendarInfo S p.calendarId >>= fun _ =>
        pure ⟨p.valid.length, p.pastCount, p.futureCount, some results⟩)
      (fun r s' => by
        rcases Eff.bind_log_cases (showCalendarInfo S p.calendarId) (fun _ =>
          (pure ⟨p.valid.length, p.pastCount, p.futureCount, some r⟩ : Eff σ RunReport)) s'
          with ⟨_, _, hlog⟩ | ⟨_, hlog⟩
        · rw [hlog, insertAttempts_append, insertAttempts_showCalendarInfo]; rfl
        · rw [hlog, insertAttempts_showCalendarInfo]) _
  | management =>
    simp only [Job.updateCalendar, Job.readValid, Job.itemsOf, Job.transformer] at hread hpre htail ⊢
    rw [ManagementCalendarUpdater.updateCalendar, (Eff.bind_log_of_ok _ _ s p hread).1,
      insertAttempts_append, hpre, List.nil_append]
    exact htail (fun results =>
        pure ⟨p.valid.length, p.pastCount, p.futureCount, some results⟩)
      (fun r s' => rfl) _
  | booking =>
    simp only [Job.updateCalendar, Job.readValid, Job.itemsOf, Job.transformer] at hread hpre htail ⊢
    rw [BookingCalendarUpdater.updateCalendar, Eff.tryFinally_log, insertAttempts_append,
      BookingCalendarUpdater.updateCalendarBody, (Eff.bind_log_of_ok _ _ s p hread).1,
      insertAttempts_append, hpre, List.nil_append]
    rw [htail (fun results => showCalendarInfo S p.calendarId >>= fun _ =>
        pure ⟨p.valid.length, p.pastCount, p.futureCount, some results⟩)
      (fun r s' => by
        rcases Eff.bind_log_cases (showCalendarInfo S p.calendarId) (fun _ =>
          (pure ⟨p.valid.length, p.pastCount, p.futureCount, some r⟩ : Eff σ RunReport)) s'
          with ⟨_, _, hlog⟩ | ⟨_, hlog⟩
        · rw [hlog, insertAttempts_append, insertAttempts_showCalendarInfo]; rfl
        · rw [hlog, insertAttempts_showCalendarInfo]) _]
    simp [Eff.call, insertAttempts]
  | releases =>
    simp only [Job.updateCalendar, Job.readValid, Job.itemsOf] at hread hpre hclear ⊢
    rw [ReleasesCalendarUpdater.updateCalendar, (Eff.bind_log_of_ok _ _ s p hread).1,
      insertAttempts_append, hpre, List.nil_append]
    by_cases hlen : p.valid.length = 0
    · have hv : p.valid = [] := List.length_eq_zero.1 hlen
      simp [hlen, hv, formattedItems, pure, Eff.ret, insertAttempts]
    · simp only [hlen, if_false]
      rcases Eff.bind_log_cases (clearCalendar S p.calendarId) (fun _ => do
          let formatted ← ReleasesCalendarUpdater.formatLoop h p.valid
          let results ← insertEvents S p.calendarId formatted.1
          showCalendarInfo S p.calendarId
          (pure ⟨p.valid.length, p.pastCount, p.futureCount,
            some { results with skippedCount := formatted.2 }⟩ : Eff σ RunReport))
        (ReleasesCalendarUpdater.readValid S h s).st with ⟨c, _, hlog⟩ | ⟨hfail, _⟩
      · rw [hlog, insertAttempts_append, insertAttempts_clearCalendar, List.nil_append]
        obtain ⟨hf1, _, _⟩ := formatLoop_spec h p.valid
          (clearCalendar S p.calendarId (ReleasesCalendarUpdater.readValid S h s).st).st
        rw [(Eff.bind_log_of_ok _ _ _ _ hf1).1, insertAttempts_append,
          insertAttempts_of_no_insert _ (only_formatLoop h p.valid (p := fun e => !e.isInsert)
            (fun _ => rfl) _), List.nil_append]
        obtain ⟨r, hr, hins, _⟩ := insertEvents_spec S p.calendarId (formattedItems h p.valid)
          (ReleasesCalendarUpdater.formatLoop h p.valid
            (clearCalendar S p.calendarId (ReleasesCalendarUpdater.readValid S h s).st).st).st
        rw [(Eff.bind_log_of_ok _ _ _ _ hr).1, insertAttempts_append, hins]
        rcases Eff.bind_log_cases (showCalendarInfo S p.calendarId) (fun _ =>
          (pure ⟨p.valid.length, p.pastCount, p.futureCount,
            some { r with skippedCount := formatFailures h p.valid }⟩ : Eff σ RunReport))
          (insertEvents S p.calendarId (formattedItems h p.valid)
            (ReleasesCalendarUpdater.formatLoop h p.valid
              (clearCalendar S p.calendarId
                (ReleasesCalendarUpdater.readValid S h s).st).st).st).st
          with ⟨_, _, hlog2⟩ | ⟨_, hlog2⟩
        · rw [hlog2, insertAttempts_append, insertAttempts_showCalendarInfo]
          simp [pure, Eff.ret, insertAttempts]
        · rw [hlog2, insertAttempts_showCalendarInfo, List.append_nil]
      · rw [hfail] at hclear; exact absurd hclear (by decide)

theorem mapE_forall₂ {α : Type} (f : JsVal → Except JsError α) (xs : List JsVal)
    (ys : List α) (hmap : mapE f xs = .ok ys) :
    List.Forall₂ (fun x y => f x = .ok y) xs ys := by
  induction xs generalizing ys with
  | nil =>
    simp only [mapE] at hmap
    cases hmap
    exact List.Forall₂.nil
  | cons x rest ih =>
    simp only [mapE, bind, Except.bind] at hmap
    cases hx : f x with
    | error e => rw [hx] at hmap; exact Except.noConfusion hmap
    | ok y =>
      rw [hx] at hmap
      cases hr : mapE f rest with
      | error e => rw [hr] at hmap; exact Except.noConfusion hmap
      | ok tail =>
        rw [hr] at hmap
        simp only [pure, Except.pure] at hmap
        cases hmap
        exact List.Forall₂.cons hx (ih tail hr)

theorem filterMap_of_forall₂ {α : Type} (f : JsVal → Except JsError α) (xs : List JsVal)
    (ys : List α) (hf : List.Forall₂ (fun x y => f x = .ok y) xs ys) :
    xs.filterMap (fun r => (f r).toOption) = ys := by
  induction hf with
  | nil => rfl
  | cons hx _ ih =>
    rw [List.filterMap_cons, hx]
    exact congrArg (List.cons _) ih

/-- C20. The item that a job sends for a record is fixed by the record (and by the
time zone and locale of the process): take two runs of the same job on any two
services and worlds, so at different times of the clock and after different earlier
calls, which both get through their steps up to the Record Filter and their list call
and have the same valid records.  Then both runs send exactly the same items, the
items of `Job.itemsOf`, in which every record is transformed on its own: when no
transformation throws, the items correspond one to one to the records, each being
what the transformer returns for its record. -/
theorem same_records_yield_same_items_in_every_run {σ τ : Type} (S1 : Service σ)
    (S2 : Service τ) (h : Host) (j : Job) (s1 : σ) (s2 : τ) (p1 p2 : Prepared)
    (hread1 : (j.readValid S1 h s1).out = .ok p1)
    (hread2 : (j.readValid S2 h s2).out = .ok p2)
    (hlist1 : (S1.eventsList p1.calendarId 2500 (j.readValid S1 h s1).st).1.toBool = true)
    (hlist2 : (S2.eventsList p2.calendarId 2500 (j.readValid S2 h s2).st).1.toBool = true)
    (hsame : p1.valid = p2.valid) :
    insertAttempts (j.updateCalendar S1 h s1).log
      = insertAttempts (j.updateCalendar S2 h s2).log ∧
    insertAttempts (j.updateCalendar S1 h s1).log = j.itemsOf h p1.valid ∧
    (∀ items, mapE (j.transformer h) p1.valid = .ok items →
      j.itemsOf h p1.valid = items ∧
      List.Forall₂ (fun record item => j.transformer h record = .ok item) p1.valid items) := by
  have h1 := insertAttempts_updateCalendar S1 h j s1 p1 hread1 hlist1
  have h2 := insertAttempts_updateCalendar S2 h j s2 p2 hread2 hlist2
  refine ⟨by rw [h1, h2, hsame], h1, fun items hmap => ⟨?_, mapE_forall₂ _ _ _ hmap⟩⟩
  cases j with
  | releases =>
    simp only [Job.itemsOf, formattedItems]
    simp only [Job.transformer] at hmap
    exact filterMap_of_forall₂ _ _ _ (mapE_forall₂ _ _ _ hmap)
  | live => simp [Job.itemsOf, hmap, Except.toOption]
  | management => simp [Job.itemsOf, hmap, Except.toOption]
  | booking => simp [Job.itemsOf, hmap, Except.toOption]

/-- C20, witness: the Live job on one show, run in 2023 on a sound calendar and run
again in 2027, after the first run, on a calendar that refuses every write: the show
is a future show in the first run and a past show in the second, and both runs send
the same item. -/
theorem same_records_yield_same_items_in_every_run_witness :
    (Job.live.readValid memService utcHost
        (worldWithFeeds (.arr [goodShow]) (.arr []))).out.map Prepared.counts
      = .ok (1, some 0, some 1) ∧
    (Job.live.readValid memServiceRefusingWrites utcHost worldAfterFirstRun).out.map
        Prepared.counts = .ok (1, some 1, some 0) ∧
    memService.now (worldWithFeeds (.arr [goodShow]) (.arr [])) = 1700000000000 ∧
    memServiceRefusingWrites.now worldAfterFirstRun = 1800000000000 ∧
    insertAttempts (Job.live.updateCalendar memService utcHost
        (worldWithFeeds (.arr [goodShow]) (.arr []))).log
      = insertAttempts (Job.live.updateCalendar memServiceRefusingWrites utcHost
          worldAfterFirstRun).log ∧
    (insertAttempts (Job.live.updateCalendar memService utcHost
        (worldWithFeeds (.arr [goodShow]) (.arr []))).log).length = 1 :=
  ⟨by decide, by decide, by decide, by decide,
    (same_records_yield_same_items_in_every_run memService memServiceRefusingWrites utcHost
      .live (worldWithFeeds (.arr [goodShow]) (.arr [])) worldAfterFirstRun
      ⟨liveConfig.calendarId, [goodShow], some 0, some 1⟩
      ⟨liveConfig.calendarId, [goodShow], some 1, some 0⟩
      rfl rfl (by decide) (by decide) rfl).1,
    by rfl⟩

/-! ## Theorems: the booking slot at a daylight-saving change -/

/-- C12. In a process in America/New_York the booking row for 01:30 on 10 March 2024
gets a slot from 06:30 UTC to 07:30 UTC: the start is 01:30 local, the end is 03:30
local, and the end is one hour after the start, not two.  In a zone with a fixed
offset the same row gets a slot of two hours. -/
theorem booking_end_is_one_hour_after_start_at_spring_forward :
    timeWindow (formatBookingEventToCalendarEvent newYorkHost (.obj springForwardBooking))
      = .ok (.timed "2024-03-10T06:30:00.000Z" "America/Argentina/Buenos_Aires",
             .timed "2024-03-10T07:30:00.000Z" "America/Argentina/Buenos_Aires") ∧
    JsDate.toISOString (some 1710052200000) = .ok "2024-03-10T06:30:00.000Z" ∧
    JsDate.toISOString (some (1710052200000 + 3600000)) = .ok "2024-03-10T07:30:00.000Z" ∧
    (hourFromTime (newYorkHost.localTime 1710052200000),
      minFromTime (newYorkHost.localTime 1710052200000)) = (1, 30) ∧
    (hourFromTime (newYorkHost.localTime (1710052200000 + 3600000)),
      minFromTime (newYorkHost.localTime (1710052200000 + 3600000))) = (3, 30) ∧
    timeWindow (formatBookingEventToCalendarEvent utcMinus3Host (.obj springForwardBooking))
      = .ok (.timed "2024-03-10T04:30:00.000Z" "America/Argentina/Buenos_Aires",
             .timed "2024-03-10T06:30:00.000Z" "America/Argentina/Buenos_Aires") := by
  refine ⟨by decide, by decide, by decide, by decide, by decide, by decide⟩

/-! ## Theorems: the category tag of a management event with a `formato` that is no text -/

/-- C22, counterexample. A management row whose `formato` is the number 5 is accepted
by the Management filter, and `getColorForManagementEvent` throws a TypeError on it
(a number has no `toLowerCase`): no tag is returned, and no item is built. -/
theorem getColorForManagementEvent_throws_when_formato_is_no_text :
    isValidManagementEvent (.obj numericFormatoEvent) = .ok true ∧
    hasField numericFormatoEvent "nombre_festi" = false ∧
    (∃ message, getColorForManagementEvent utcHost (.obj numericFormatoEvent)
      = .error ⟨"TypeError", message⟩) ∧
    (formatManagementEventToCalendar utcHost (.obj numericFormatoEvent)).toBool = false := by
  refine ⟨by decide, by decide, ⟨_, by rfl⟩, by rfl⟩

/-! ## Theorems: the lines of a body -/

theorem splitChars_of_not_mem (sep : Char) (a : List Char) (ha : sep ∉ a) :
    splitChars sep a = [a] := by
  induction a with
  | nil => rfl
  | cons c a ih =>
    have hc : c ≠ sep := fun he => ha (by simp [he])
    have hrest : sep ∉ a := fun hm => ha (List.mem_cons_of_mem _ hm)
    rw [splitChars, ih hrest]
    simp [hc]

theorem splitChars_prefixedLines (first : String) (rest : List String)
    (hfirst : '\n' ∉ first.data) (hrest : ∀ line ∈ rest, '\n' ∉ line.data) :
    splitChars '\n' (first.data ++ (prefixedLines rest).data)
      = first.data :: rest.map String.data := by
  induction rest generalizing first with
  | nil => simpa [prefixedLines] using splitChars_of_not_mem '\n' first.data hfirst
  | cons line rest ih =>
    have hline := hrest line (List.mem_cons_self _ _)
    have htail : ∀ l ∈ rest, '\n' ∉ l.data := fun l hl => hrest l (List.mem_cons_of_mem _ hl)
    have hdata : (prefixedLines (line :: rest)).data
        = '\n' :: (line.data ++ (prefixedLines rest).data) := by
      simp [prefixedLines, String.data_append]
    rw [hdata, splitChars_append_sep '\n' first.data _ hfirst, ih line hline htail]
    rfl

theorem splitChars_terminatedLines (lines : List String)
    (hlines : ∀ line ∈ lines, '\n' ∉ line.data) :
    splitChars '\n' (terminatedLines lines).data = lines.map String.data ++ [[]] := by
  induction lines with
  | nil => rfl
  | cons line rest ih =>
    have hline := hlines line (List.mem_cons_self _ _)
    have htail : ∀ l ∈ rest, '\n' ∉ l.data := fun l hl => hlines l (List.mem_cons_of_mem _ hl)
    have hdata : (terminatedLines (line :: rest)).data
        = line.data ++ '\n' :: (terminatedLines rest).data := by
      simp [terminatedLines, String.data_append]
    rw [hdata, splitChars_append_sep '\n' line.data _ hline, ih htail]
    rfl

theorem map_mk_data (lines : List String) : (lines.map String.data).map String.mk = lines := by
  induction lines with
  | nil => rfl
  | cons line rest ih => simp [ih]

/-- The non-blank lines of a body are the non-blank ones of the lines it is made of,
when none of these holds a line break. -/
theorem nonBlankLines_joinBody (j : Job) (lines : List String)
    (hlines : ∀ line ∈ lines, '\n' ∉ line.data) :
    nonBlankLines (j.joinBody lines) = lines.filter (fun line => decide (line ≠ "")) := by
  have hinter : nonBlankLines ("\n".intercalate lines)
      = lines.filter (fun line => decide (line ≠ "")) := by
    cases lines with
    | nil => rfl
    | cons first rest =>
      have hfirst := hlines first (List.mem_cons_self _ _)
      have hrest : ∀ l ∈ rest, '\n' ∉ l.data := fun l hl => hlines l (List.mem_cons_of_mem _ hl)
      rw [intercalate_newline_cons]
      simp only [nonBlankLines, textLines, String.data_append,
        splitChars_prefixedLines first rest hfirst hrest, List.map_cons, map_mk_data]
  cases j with
  | management =>
    simp only [Job.joinBody, nonBlankLines, textLines, splitChars_terminatedLines lines hlines,
      List.map_append, map_mk_data, List.filter_append]
    simp
  | live => exact hinter
  | booking => exact hinter
  | releases => exact hinter

theorem append_ne_empty (a b : String) (ha : a ≠ "") : a ++ b ≠ "" := by
  intro he
  have hd := congrArg String.data he
  rw [String.data_append] at hd
  have : a.data = [] := (List.append_eq_nil.1 hd).1
  exact ha (String.ext this)

theorem bookingEntries_line_ne_empty (h : Host) (record : List (String × JsVal)) :
    ∀ e ∈ bookingEntries h record, e.line ≠ "" := by
  intro e he
  simp only [bookingEntries, List.mem_cons, List.mem_singleton, List.not_mem_nil, or_false]
    at he
  rcases he with he | he | he | he | he | he | he | he | he | he | he | he | he | he | he <;>
    (subst he; dsimp only [BodyEntry.line]; exact append_ne_empty _ _ (by decide))

theorem countP_le_of_imp {α β : Type} (p : α → Bool) (q : β → Bool) :
    ∀ (xs : List α) (ys : List β), List.Forall₂ (fun x y => p x = true → q y = true) xs ys →
      xs.countP p ≤ ys.countP q := by
  intro xs ys hf
  induction hf with
  | nil => simp
  | cons hxy _ ih =>
    rename_i x y xs ys _
    rw [List.countP_cons, List.countP_cons]
    by_cases hp : p x = true
    · simp [hp, hxy hp]; exact ih
    · simp [hp]; omega

/-- The key field of each of the fifteen entries of a booking body. -/
theorem bookingEntries_le_fields (h : Host) (record : List (String × JsVal)) :
    ((bookingEntries h record).filter (fun e => e.present)).length
      ≤ presentFieldCount record := by
  have hkeys : ((bookingEntries h record).filter (fun e => e.present)).length
      ≤ (["artist_name", "venue_name", "city", "show_type", "festival_name", "category",
          "status", "capacity", "tickets_sold", "price", "ticketera_name", "ticketera_url",
          "sale_date", "fecha_preventa", "comments"].filter
            (fun key => hasField record key)).length := by
    rw [← List.countP_eq_length_filter, ← List.countP_eq_length_filter]
    refine countP_le_of_imp _ _ _ _ ?_
    simp only [bookingEntries]
    repeat' first
      | exact List.Forall₂.nil
      | refine List.Forall₂.cons ?_ ?_
    all_goals first
      | exact fun hp => hp
      | (intro hp; simp only [Bool.and_eq_true] at hp; exact hp.1)
  refine hkeys.trans ?_
  unfold presentFieldCount bookingFields
  exact List.Sublist.length_le (List.Sublist.filter _ (by decide))

/-- C17, amended. Take an item that a job's transformer returns, and suppose that no
line the body is made of holds a line break.  The non-blank lines of the body are then
the fixed lines of the job (Live 7, Management 5, Booking none, Releases 5), which are
written for every record, followed by the lines of the optional entries whose field is
present, in the order of the entries: an optional field that is absent contributes no
line, and the lines are at most the fixed lines plus the optional entries present.  In
the Booking job every line is optional: the lines are exactly those of the present
entries, and they are no more than the labeled fields that the record has. -/
theorem body_is_fixed_lines_then_present_entries (h : Host) (j : Job)
    (record : List (String × JsVal)) (item : CalendarItem)
    (hok : j.transformer h (.obj record) = .ok item)
    (hnl : ∀ line ∈ j.fixedLines h record ++ presentLines (j.optionalEntries h record),
      '\n' ∉ line.data) :
    nonBlankLines item.description
      = (j.fixedLines h record ++ presentLines (j.optionalEntries h record)).filter
          (fun line => decide (line ≠ "")) ∧
    (j.fixedLines h record).length = j.fixedLineCount ∧
    (presentLines (j.optionalEntries h record)).Sublist
      ((j.optionalEntries h record).map BodyEntry.line) ∧
    (nonBlankLines item.description).length
      ≤ j.fixedLineCount + ((j.optionalEntries h record).filter (fun e => e.present)).length ∧
    (j = .booking →
      nonBlankLines item.description = presentLines (bookingEntries h record) ∧
      (nonBlankLines item.description).length ≤ presentFieldCount record) := by
  obtain ⟨hdesc, hfix, hlen, hsub⟩ := description_is_joined_lines h j record item hok
  have hlines : nonBlankLines item.description
      = (j.fixedLines h record ++ presentLines (j.optionalEntries h record)).filter
          (fun line => decide (line ≠ "")) := by
    rw [hdesc]; exact nonBlankLines_joinBody j _ hnl
  have hcount : (nonBlankLines item.description).length
      ≤ j.fixedLineCount
        + ((j.optionalEntries h record).filter (fun e => e.present)).length := by
    rw [hlines, ← hlen]
    exact List.length_filter_le _ _
  refine ⟨hlines, hfix, hsub, hcount, fun hj => ?_⟩
  subst hj
  have hall : (presentLines (bookingEntries h record)).filter (fun line => decide (line ≠ ""))
      = presentLines (bookingEntries h record) := by
    rw [List.filter_eq_self]
    intro line hline
    simp only [presentLines, List.mem_map, List.mem_filter] at hline
    obtain ⟨e, ⟨he, _⟩, rfl⟩ := hline
    simpa using bookingEntries_line_ne_empty h record e he
  have hbook : nonBlankLines item.description = presentLines (bookingEntries h record) := by
    rw [hlines]
    simpa [Job.fixedLines, Job.optionalEntries] using hall
  refine ⟨hbook, ?_⟩
  rw [hbook]
  simp only [presentLines, List.length_map]
  exact bookingEntries_le_fields h record

/-- C17, witness: the body of the booking row of the end-to-end scenario has the two
lines of its two present fields; a booking row whose comment has two lines gets a
body of two lines for one field, and a management row with the mandatory fields only
gets the five fixed lines. -/
theorem body_is_fixed_lines_then_present_entries_witness :
    Job.transformer utcMinus3Host .booking (.obj bookingScenario) = .ok bookingScenarioItem ∧
    nonBlankLines bookingScenarioItem.description = ["🎤 Artista: X", "🏟️ Venue: Y"] ∧
    presentFieldCount bookingScenario = 2 ∧
    (nonBlankLines bookingScenarioItem.description = presentLines
        (bookingEntries utcMinus3Host bookingScenario) ∧
      (nonBlankLines bookingScenarioItem.description).length
        ≤ presentFieldCount bookingScenario) ∧
    (Job.transformer utcHost .booking (.obj bookingWithTwoLineComment)).map
        (fun item => (nonBlankLines item.description, presentFieldCount bookingWithTwoLineComment))
      = .ok (["💬 Comentarios: first", "second"], 1) ∧
    (Job.transformer utcHost .management (.obj bareManagementEvent)).map
        (fun item => nonBlankLines item.description)
      = .ok ["🎤 Artista: A", "🏟️ Venue: N/A", "📍 Ciudad: Buenos Aires, AR",
          "📅 Fecha: 1/5/2024", "📊 Status: N/A"] :=
  have hok : Job.transformer utcMinus3Host .booking (.obj bookingScenario)
      = .ok bookingScenarioItem := by rfl
  ⟨hok, by decide, by decide,
    (body_is_fixed_lines_then_present_entries utcMinus3Host .booking bookingScenario
      bookingScenarioItem hok (by decide)).2.2.2.2 rfl,
    by decide, by decide⟩

end CalSync
